import Mathlib

/-!
# Studypoint: response parsers, rate limiter and session guard

A shallow embedding of `src/ai-integration.js` (formatSolution, formatNotes,
generateMindMapData, parseQuizContent), `src/config.js` (ConfigUtils.checkRateLimit)
and `src/auth.js` (the lockout part of AuthManager).

JavaScript strings are lists of characters. Every regular expression of the source is
an anchored or single-character pattern over ASCII classes and `\s`, none of which can
see the difference between a code point and its UTF-16 code units; the one place where
the code-unit length is observed (`firstLine.length < 50`) uses `utf16Length`.
-/

namespace Studypoint

/-- A JavaScript string. -/
abbrev Str := List Char

/-! ## String primitives -/

/-- The code points that `String.prototype.trim` removes and that `\s` matches:
ECMAScript WhiteSpace and LineTerminator. -/
def isWhiteSpace (c : Char) : Bool :=
  let n := c.toNat
  n == 0x09 || n == 0x0A || n == 0x0B || n == 0x0C || n == 0x0D || n == 0x20 ||
  n == 0xA0 || n == 0x1680 || (0x2000 ≤ n && n ≤ 0x200A) ||
  n == 0x2028 || n == 0x2029 || n == 0x202F || n == 0x205F || n == 0x3000 || n == 0xFEFF

/-- The class `\d`. -/
def isDigit (c : Char) : Bool :=
  0x30 ≤ c.toNat && c.toNat ≤ 0x39

/-- Removes leading white space. -/
def trimStart (s : Str) : Str :=
  s.dropWhile isWhiteSpace

/-- Removes trailing white space. -/
def trimEnd (s : Str) : Str :=
  (s.reverse.dropWhile isWhiteSpace).reverse

/-- Models `String.prototype.trim`. -/
def trim (s : Str) : Str :=
  trimEnd (trimStart s)

/-- Truthiness of `s.trim()`: the string has a character that is not white space. -/
def nonBlank (s : Str) : Bool :=
  !(trim s).isEmpty

/-- Models `s.startsWith(pat)`. -/
def startsWith : Str → Str → Bool
  | _, [] => true
  | [], _ :: _ => false
  | c :: s, p :: pat => c == p && startsWith s pat

/-- Models `s.includes(pat)`. -/
def includes : Str → Str → Bool
  | [], pat => startsWith [] pat
  | c :: s, pat => startsWith (c :: s) pat || includes s pat

/-- The lower-case mapping of one code point, as far as `toLowerCase` is observed by the
source. The source only ever asks whether the lower-cased text includes an ASCII keyword,
so a code point whose Unicode lower-case mapping has no ASCII letter is left as it is.
The code points that do produce an ASCII letter are `A`..`Z`, U+212A (KELVIN SIGN, to
`k`) and U+0130 (to `i` followed by U+0307). -/
def lowerChar (c : Char) : Str :=
  if 0x41 ≤ c.toNat ∧ c.toNat ≤ 0x5A then [Char.ofNat (c.toNat + 32)]
  else if c.toNat = 0x212A then ['k']
  else if c.toNat = 0x130 then ['i', Char.ofNat 0x307]
  else [c]

/-- Models `String.prototype.toLowerCase` (see `lowerChar`). -/
def toLowerCase (s : Str) : Str :=
  s.flatMap lowerChar

/-- One pattern character of a regular expression with the `i` flag (and without `u`)
against one input character: the pattern characters of the source are lower-case ASCII
letters, a blank, `:` and `)`; canonicalisation maps only `a`..`z` onto `A`..`Z`. -/
def eqIgnoreCase (p c : Char) : Bool :=
  c == p || (0x61 ≤ p.toNat && p.toNat ≤ 0x7A && c.toNat + 32 == p.toNat)

/-- Matches the literal `pat` case-insensitively at the start of `s` and returns what
follows it. -/
def matchLiteralCI : Str → Str → Option Str
  | [], s => some s
  | _ :: _, [] => none
  | p :: pat, c :: s => if eqIgnoreCase p c then matchLiteralCI pat s else none

/-- The sub-pattern `:?`. -/
def skipColon : Str → Str
  | ':' :: s => s
  | s => s

/-- The sub-pattern `\s*`. -/
def skipSpaces (s : Str) : Str :=
  s.dropWhile isWhiteSpace

/-- The sub-pattern `\d*`. -/
def skipDigits (s : Str) : Str :=
  s.dropWhile isDigit

/-- Models `/^\d+\./.test(s)`. -/
def startsWithNumberDot (s : Str) : Bool :=
  match s with
  | [] => false
  | c :: r => isDigit c && startsWith (skipDigits r) ['.']

/-- Models `s.replace(/^\d+\.\s*/, '')`. -/
def stripNumberDot (s : Str) : Str :=
  if startsWithNumberDot s then skipSpaces ((skipDigits s).drop 1) else s

/-- Models `s.replace(/^step\s*\d*:?\s*/i, '')`. -/
def stripStepLabel (s : Str) : Str :=
  match matchLiteralCI "step".toList s with
  | some r => skipSpaces (skipColon (skipDigits (skipSpaces r)))
  | none => s

/-- Models `s.replace(/^(answer|final answer):?\s*/i, '')`. -/
def stripAnswerLabel (s : Str) : Str :=
  match matchLiteralCI "answer".toList s with
  | some r => skipSpaces (skipColon r)
  | none =>
    match matchLiteralCI "final answer".toList s with
    | some r => skipSpaces (skipColon r)
    | none => s

/-- The sub-pattern `s?`. -/
def skipLetterS : Str → Str
  | c :: s => if eqIgnoreCase 's' c then s else c :: s
  | [] => []

/-- Models `s.replace(/^(concept|key concepts?):?\s*/i, '')`. -/
def stripConceptLabel (s : Str) : Str :=
  match matchLiteralCI "concept".toList s with
  | some r => skipSpaces (skipColon r)
  | none =>
    match matchLiteralCI "key concept".toList s with
    | some r => skipSpaces (skipColon (skipLetterS r))
    | none => s

/-- Models `s.replace(/^(tip|remember):?\s*/i, '')`. -/
def stripTipLabel (s : Str) : Str :=
  match matchLiteralCI "tip".toList s with
  | some r => skipSpaces (skipColon r)
  | none =>
    match matchLiteralCI "remember".toList s with
    | some r => skipSpaces (skipColon r)
    | none => s

/-- Puts a character in front of the first piece of a split. -/
def consHead (c : Char) : List Str → List Str
  | [] => [[c]]
  | h :: r => (c :: h) :: r

/-- Models `s.split('\n')`. -/
def splitLines : Str → List Str
  | [] => [[]]
  | c :: s => if c = '\n' then [] :: splitLines s else consHead c (splitLines s)

/-- Models `content.split('\n').filter(line => line.trim())`. -/
def nonBlankLines (content : Str) : List Str :=
  (splitLines content).filter nonBlank

/-! ## formatSolution -/

/-- One entry of `solution.steps`. -/
structure Step where
  number : Nat
  description : Str
  deriving DecidableEq, Repr

/-- The record built by `formatSolution`. -/
structure Solution where
  understanding : Str
  steps : List Step
  answer : Str
  concepts : List Str
  tips : List Str
  deriving DecidableEq, Repr

/-- The values of the local variable `currentSection`. -/
inductive Section where
  | understanding | steps | answer | concepts | tips
  deriving DecidableEq, Repr

/-- The variables the `forEach` callback of `formatSolution` reads and writes. -/
structure SolutionState where
  solution : Solution
  currentSection : Section
  stepCounter : Nat
  deriving DecidableEq, Repr

/-- The state before the first line. -/
def SolutionState.init : SolutionState :=
  { solution := { understanding := [], steps := [], answer := [], concepts := [], tips := [] }
    currentSection := Section.understanding
    stepCounter := 0 }

/-- The condition of the first branch of the callback. -/
def isStepLine (trimmed : Str) : Bool :=
  includes (toLowerCase trimmed) "step".toList || startsWithNumberDot trimmed

/-- The condition of the second branch. -/
def isAnswerLine (trimmed : Str) : Bool :=
  includes (toLowerCase trimmed) "answer".toList || includes (toLowerCase trimmed) "final".toList

/-- The condition of the third branch. -/
def isConceptLine (trimmed : Str) : Bool :=
  includes (toLowerCase trimmed) "concept".toList || includes (toLowerCase trimmed) "key".toList

/-- The condition of the fourth branch. -/
def isTipLine (trimmed : Str) : Bool :=
  includes (toLowerCase trimmed) "tip".toList || includes (toLowerCase trimmed) "remember".toList

/-- The body of the `lines.forEach` callback of `formatSolution`. -/
def solutionLine (st : SolutionState) (line : Str) : SolutionState :=
  let trimmed := trim line
  if isStepLine trimmed then
    { solution := { st.solution with
        steps := st.solution.steps ++
          [{ number := st.stepCounter + 1
             description := stripStepLabel (stripNumberDot trimmed) }] }
      currentSection := Section.steps
      stepCounter := st.stepCounter + 1 }
  else if isAnswerLine trimmed then
    { st with
      solution := { st.solution with answer := stripAnswerLabel trimmed }
      currentSection := Section.answer }
  else if isConceptLine trimmed then
    { st with
      solution := { st.solution with
        concepts := st.solution.concepts ++ [stripConceptLabel trimmed] }
      currentSection := Section.concepts }
  else if isTipLine trimmed then
    { st with
      solution := { st.solution with tips := st.solution.tips ++ [stripTipLabel trimmed] }
      currentSection := Section.tips }
  else if st.currentSection = Section.understanding ∧ st.solution.understanding = [] then
    { st with solution := { st.solution with understanding := trimmed } }
  else st

/-- Models `AIIntegration.formatSolution`. -/
def formatSolution (content : Str) : Solution :=
  ((nonBlankLines content).foldl solutionLine SolutionState.init).solution

/-! ## generateMindMapData -/

/-- One entry of `mindMap.branches`. -/
structure Branch where
  title : Str
  items : List Str
  deriving DecidableEq, Repr

/-- The record built by `generateMindMapData`. -/
structure MindMap where
  central : Str
  branches : List Branch
  deriving DecidableEq, Repr

/-- Models `s.replace(/[:\d\.]/g, '')`. -/
def removeTitleMarks (s : Str) : Str :=
  s.filter fun c => !(c == ':' || isDigit c || c == '.')

/-- Models `s.replace(/^-\s*/, '')`. -/
def stripDash : Str → Str
  | '-' :: s => skipSpaces s
  | s => s

/-- Models `currentBranch.items.push(item)`: `currentBranch` is the branch pushed last,
so the item goes to the last branch of the list. -/
def pushItem : List Branch → Str → List Branch
  | [], _ => []
  | [b], item => [{ b with items := b.items ++ [item] }]
  | b :: c :: rest, item => b :: pushItem (c :: rest) item

/-- The body of the `lines.forEach` callback of `generateMindMapData`; `currentBranch`
is `null` exactly while no branch has been pushed. -/
def mindMapLine (branches : List Branch) (line : Str) : List Branch :=
  let trimmed := trim line
  if includes trimmed [':'] || startsWithNumberDot trimmed then
    branches ++ [{ title := trim (removeTitleMarks trimmed), items := [] }]
  else if !branches.isEmpty && startsWith trimmed ['-'] then
    pushItem branches (stripDash trimmed)
  else branches

/-- Models `AIIntegration.generateMindMapData`. -/
def generateMindMapData (content : Str) : MindMap :=
  { central := "Topic".toList
    branches := (nonBlankLines content).foldl mindMapLine [] }

/-! ## parseQuizContent -/

/-- One entry of the `questions` array. -/
structure Question where
  id : Str
  question : Str
  type : Str
  options : List Str
  correctAnswer : Str
  explanation : Str
  deriving DecidableEq, Repr

/-- The record built by `parseQuizContent`. -/
structure Quiz where
  questions : List Question
  totalQuestions : Nat
  timeLimit : Nat
  deriving DecidableEq, Repr

/-- The values of the local variable `currentSection` of `parseQuizContent`. -/
inductive QuizSection where
  | question | options | answer | explanation
  deriving DecidableEq, Repr

/-- The number of characters `/Question\s*\d+/i` matches at the start of `s`, if it
matches there. The quantifiers are greedy and no shorter choice can make the match
succeed, so the match is the word, all white space after it and all digits after
that, of which there must be one. -/
def markerLength (s : Str) : Option Nat :=
  match matchLiteralCI "question".toList s with
  | none => none
  | some r =>
    let d := skipSpaces r
    let rest := skipDigits d
    if rest.length < d.length then some (s.length - rest.length) else none

/-- Models `content.split(/Question\s*\d+/i)`. The first argument counts the characters
of a match that are still to be skipped. -/
def splitMarkers : Nat → Str → List Str
  | _, [] => [[]]
  | skip + 1, _ :: s => splitMarkers skip s
  | 0, c :: s =>
    match markerLength (c :: s) with
    | some m => [] :: splitMarkers (m - 1) s
    | none => consHead c (splitMarkers 0 s)

/-- Models `/^[a-d]\)/i` tested on `s`. -/
def startsWithOptionLetter : Str → Bool
  | c :: ')' :: _ => (0x61 ≤ c.toNat && c.toNat ≤ 0x64) || (0x41 ≤ c.toNat && c.toNat ≤ 0x44)
  | _ => false

/-- Models `s.replace(/^answer:?\s*/i, '')`. -/
def stripQuizAnswerLabel (s : Str) : Str :=
  match matchLiteralCI "answer".toList s with
  | some r => skipSpaces (skipColon r)
  | none => s

/-- Models `s.replace(/^explanation:?\s*/i, '')`. -/
def stripExplanationLabel (s : Str) : Str :=
  match matchLiteralCI "explanation".toList s with
  | some r => skipSpaces (skipColon r)
  | none => s

/-- The body of the inner `lines.forEach` callback of `parseQuizContent`. -/
def quizLine (st : Question × QuizSection) (line : Str) : Question × QuizSection :=
  let trimmed := trim line
  let q := st.1
  if startsWithOptionLetter trimmed then
    ({ q with options := q.options ++ [trim (trimmed.drop 2)] }, QuizSection.options)
  else if includes (toLowerCase trimmed) "answer".toList then
    ({ q with correctAnswer := stripQuizAnswerLabel trimmed }, QuizSection.answer)
  else if includes (toLowerCase trimmed) "explanation".toList then
    ({ q with explanation := stripExplanationLabel trimmed }, QuizSection.explanation)
  else if st.2 = QuizSection.question then
    ({ q with question := q.question ++ (if q.question ≠ [] then [' '] else []) ++ trimmed }, st.2)
  else if st.2 = QuizSection.explanation then
    ({ q with explanation := q.explanation ++ [' '] ++ trimmed }, st.2)
  else st

/-- The question object a section with the given index gives. -/
def parseQuestion (index : Nat) (sec : Str) : Question :=
  ((nonBlankLines sec).foldl quizLine
    ({ id := "q_".toList ++ (Nat.repr index).toList
       question := []
       type := "mcq".toList
       options := []
       correctAnswer := []
       explanation := [] }, QuizSection.question)).1

/-- The outer `sections.forEach((section, index) => ...)`: the section of index 0 is
skipped, and a question is pushed only when its text is not empty. -/
def quizSections : Nat → List Str → List Question
  | _, [] => []
  | index, sec :: rest =>
    if index = 0 then quizSections (index + 1) rest
    else
      let q := parseQuestion index sec
      if q.question ≠ [] then q :: quizSections (index + 1) rest
      else quizSections (index + 1) rest

/-- Models `AIIntegration.parseQuizContent`. -/
def parseQuizContent (content : Str) : Quiz :=
  let sections := (splitMarkers 0 content).filter nonBlank
  let questions := quizSections 0 sections
  { questions := questions
    totalQuestions := questions.length
    timeLimit := questions.length * 2 }

/-! ## formatNotes -/

/-- One entry of the `sections` array of the notes. -/
structure NoteSection where
  id : Str
  title : Str
  content : Str
  type : Str
  deriving DecidableEq, Repr

/-- The record built by `formatNotes`. -/
structure Notes where
  title : Str
  sections : List NoteSection
  deriving DecidableEq, Repr

/-- Models `s.split('\n\n')`. -/
def splitParagraphs : Str → List Str
  | [] => [[]]
  | [c] => [[c]]
  | c :: d :: s =>
    if c = '\n' ∧ d = '\n' then [] :: splitParagraphs s
    else consHead c (splitParagraphs (d :: s))

/-- The value of `s.length`: the number of UTF-16 code units. -/
def utf16Length (s : Str) : Nat :=
  (s.map fun c => if c.toNat < 0x10000 then 1 else 2).sum

/-- Models `s.replace(/[:#]/g, '')`. -/
def removeColonHash (s : Str) : Str :=
  s.filter fun c => !(c == ':' || c == '#')

/-- Models `extractSectionTitle(section)`. `draws k` is what the `k`-th evaluation of
`Math.floor(Math.random() * 100)` gives (taken modulo 100) and `used` counts the
evaluations made so far; the result is the title and the new count. `none` stands for
the TypeError of `lines[0].trim()` on an undefined `lines[0]`. -/
def extractSectionTitle (draws : Nat → Nat) (used : Nat) (sec : Str) : Option (Str × Nat) :=
  match (splitLines sec).head? with
  | none => none
  | some line0 =>
    let firstLine := trim line0
    if includes firstLine [':'] || decide (utf16Length firstLine < 50) then
      some (trim (removeColonHash firstLine), used)
    else
      some ("Section ".toList ++ (Nat.repr (draws used % 100)).toList, used + 1)

/-- Models `determineSectionType(section)`. -/
def determineSectionType (sec : Str) : Str :=
  let content := toLowerCase sec
  if includes content "formula".toList || includes content "equation".toList then
    "formula".toList
  else if includes content "example".toList || includes content "problem".toList then
    "example".toList
  else if includes content "definition".toList || includes content "concept".toList then
    "concept".toList
  else "general".toList

/-- The callback of `sections.slice(1).map((section, index) => ...)`, applied from
`index` on. -/
def noteSections (draws : Nat → Nat) : Nat → Nat → List Str → Option (List NoteSection)
  | _, _, [] => some []
  | used, index, sec :: rest =>
    match extractSectionTitle draws used sec with
    | none => none
    | some (title, used1) =>
      match noteSections draws used1 (index + 1) rest with
      | none => none
      | some more =>
        some ({ id := "section_".toList ++ (Nat.repr index).toList
                title := title
                content := sec
                type := determineSectionType sec } :: more)

/-- Models `AIIntegration.formatNotes` run with the random source `draws`; `none` stands
for a thrown exception. -/
def formatNotes (draws : Nat → Nat) (content : Str) : Option Notes :=
  let sections := (splitParagraphs content).filter nonBlank
  match noteSections draws 0 0 (sections.drop 1) with
  | none => none
  | some secs =>
    some { title := (sections.head?).getD "Study Notes".toList
           sections := secs }

/-- The condition under which `extractSectionTitle` takes the title from the first line
of the section: the line, trimmed, contains `:` or is shorter than 50. -/
def hasOwnTitle (sec : Str) : Bool :=
  match (splitLines sec).head? with
  | none => false
  | some line0 => includes (trim line0) [':'] || decide (utf16Length (trim line0) < 50)

/-! ## ConfigUtils.checkRateLimit -/

/-- The record kept under `rate_limit_<action>`. -/
structure RateData where
  count : Int
  timestamp : Int
  deriving DecidableEq, Repr

/-- The rate-limit records of `localStorage`, seen through `JSON.parse` and
`JSON.stringify`: `none` is a key for which `getItem` returns `null`. -/
abbrev RateStore := Str → Option RateData

/-- Models `localStorage.setItem(key, JSON.stringify(data))`. -/
def setItem (store : RateStore) (key : Str) (data : RateData) : RateStore :=
  fun k => if k = key then some data else store k

/-- What the property read `limits[action]` evaluates to. -/
inductive LimitEntry where
  /-- An own property of the object literal. -/
  | number (n : Int)
  /-- A property found on `Object.prototype`: a function or an object. -/
  | inherited
  /-- The value `undefined`. -/
  | absent
  deriving DecidableEq, Repr

/-- The property names every object literal inherits from `Object.prototype`
(ECMAScript, with the browser additions of its Annex B). -/
def objectPrototypeKeys : List Str :=
  ["constructor".toList, "hasOwnProperty".toList, "isPrototypeOf".toList,
   "propertyIsEnumerable".toList, "toLocaleString".toList, "toString".toList,
   "valueOf".toList, "__proto__".toList, "__defineGetter__".toList,
   "__defineSetter__".toList, "__lookupGetter__".toList, "__lookupSetter__".toList]

/-- `CONFIG.RATE_LIMIT.QUESTIONS_PER_HOUR`. -/
def QUESTIONS_PER_HOUR : Int := 50

/-- `CONFIG.RATE_LIMIT.PHOTOS_PER_HOUR`. -/
def PHOTOS_PER_HOUR : Int := 20

/-- `CONFIG.RATE_LIMIT.TESTS_PER_DAY`. -/
def TESTS_PER_DAY : Int := 10

/-- Models `limits[action]` for the object literal `limits` of `checkRateLimit`. -/
def limitsLookup (action : Str) : LimitEntry :=
  if action = "questions_hour".toList then LimitEntry.number QUESTIONS_PER_HOUR
  else if action = "photos_hour".toList then LimitEntry.number PHOTOS_PER_HOUR
  else if action = "tests_day".toList then LimitEntry.number TESTS_PER_DAY
  else if action ∈ objectPrototypeKeys then LimitEntry.inherited
  else LimitEntry.absent

/-- Models `data.count >= (limits[action] || 100)`. A number `n` is truthy unless it is
`0`; an inherited function or object is truthy and converts to `NaN`, and every
comparison with `NaN` is false. -/
def reachedLimit (count : Int) (action : Str) : Bool :=
  match limitsLookup action with
  | LimitEntry.number n => if n ≠ 0 then decide (n ≤ count) else decide (100 ≤ count)
  | LimitEntry.inherited => false
  | LimitEntry.absent => decide (100 ≤ count)

/-- The two `if` branches that reset the window. -/
def resetWindow (action : Str) (data : RateData) (now : Nat) : RateData :=
  let hourAgo : Int := now - 60 * 60 * 1000
  let dayAgo : Int := now - 24 * 60 * 60 * 1000
  if includes action "hour".toList ∧ data.timestamp < hourAgo then
    { count := 0, timestamp := now }
  else if includes action "day".toList ∧ data.timestamp < dayAgo then
    { count := 0, timestamp := now }
  else data

/-- The storage key of an action. -/
def rateKey (action : Str) : Str :=
  "rate_limit_".toList ++ action

/-- Models `ConfigUtils.checkRateLimit(action)` called when `Date.now()`, the number of
milliseconds elapsed since the epoch, is `now`: the returned boolean and the store after
the call. -/
def checkRateLimit (store : RateStore) (action : Str) (now : Nat) : Bool × RateStore :=
  let key := rateKey action
  let data := resetWindow action ((store key).getD { count := 0, timestamp := 0 }) now
  if reachedLimit data.count action then (false, store)
  else
    (true, setItem store key
      { count := data.count + 1
        timestamp := if data.timestamp ≠ 0 then data.timestamp else now })

/-- A store in which `getItem` returns `null` for every key. -/
def emptyStore : RateStore :=
  fun _ => none

/-- Calls `checkRateLimit` once at each of the given times, in order; returns the
answers and the final store. -/
def checkRateLimitAll (store : RateStore) (action : Str) : List Nat → List Bool × RateStore
  | [] => ([], store)
  | now :: rest =>
    let r := checkRateLimit store action now
    let rs := checkRateLimitAll r.2 action rest
    (r.1 :: rs.1, rs.2)

/-- The ceiling the configuration gives an action: the configured one, or 100. -/
def ceilingOf (action : Str) : Nat :=
  if action = "questions_hour".toList then 50
  else if action = "photos_hour".toList then 20
  else if action = "tests_day".toList then 10
  else 100

/-- The length of the window an action key names, if it names one. -/
def windowLength (action : Str) : Option Nat :=
  if includes action "hour".toList then some 3600000
  else if includes action "day".toList then some 86400000
  else none

/-! ## AuthManager: failed attempts and lockout -/

/-- `CONFIG.SESSION.MAX_ATTEMPTS`. -/
def MAX_ATTEMPTS : Int := 3

/-- `CONFIG.SESSION.LOCKOUT_TIME`. -/
def LOCKOUT_TIME : Int := 15 * 60 * 1000

/-- `CONFIG.PINS.STUDENT`. -/
def PIN_STUDENT : Str := "BPS2025".toList

/-- `CONFIG.PINS.ADMIN`. -/
def PIN_ADMIN : Str := "ANUBHaw@12".toList

/-- The fields of `AuthManager` that the lockout logic uses, and the `lockout_time`
item of `localStorage` (`none` is `null`). -/
structure GuardState where
  attemptCount : Int
  lockoutTime : Option Int
  storedLockout : Option Int
  deriving DecidableEq, Repr

/-- The state the constructor leaves when nothing is stored. -/
def GuardState.init : GuardState :=
  { attemptCount := 0, lockoutTime := none, storedLockout := none }

/-- Truthiness of `this.lockoutTime`: neither `null` nor `0`. -/
def truthy (v : Option Int) : Bool :=
  match v with
  | none => false
  | some n => n != 0

/-- The user types `validatePin` can report. -/
inductive UserType where
  | student | admin
  deriving DecidableEq, Repr

/-- Models `validatePin(pin)`: `none` is `{ success: false }`. -/
def validatePin (pin : Str) : Option UserType :=
  if pin = PIN_STUDENT then some UserType.student
  else if pin = PIN_ADMIN then some UserType.admin
  else none

/-- Models `handleFailedAttempt()` called when `Date.now()` is `now`. -/
def handleFailedAttempt (s : GuardState) (now : Nat) : GuardState :=
  let attempts := s.attemptCount + 1
  if MAX_ATTEMPTS ≤ attempts then
    { attemptCount := attempts
      lockoutTime := some (now + LOCKOUT_TIME)
      storedLockout := some (now + LOCKOUT_TIME) }
  else { s with attemptCount := attempts }

/-- Models `isLockedOut()` called when `Date.now()` is `now`: the returned boolean and
the state after the call. -/
def isLockedOut (s : GuardState) (now : Nat) : Bool × GuardState :=
  let s1 : GuardState :=
    if truthy s.lockoutTime then s else { s with lockoutTime := s.storedLockout }
  match s1.lockoutTime with
  | some t =>
    if t ≠ 0 ∧ (now : Int) < t then (true, s1)
    else if t ≠ 0 ∧ t ≤ (now : Int) then
      (false, { attemptCount := 0, lockoutTime := none, storedLockout := none })
    else (false, s1)
  | none => (false, s1)

/-- How a call of `handleLogin` ends. -/
inductive LoginOutcome where
  /-- The message `Too many failed attempts. Please try again later.` -/
  | lockedOut
  /-- The message `Please enter a PIN`. -/
  | noPin
  /-- A session is created for the user type. -/
  | loggedIn (userType : UserType)
  /-- The message `CONFIG.ERRORS.INVALID_PIN`. -/
  | invalidPin
  deriving DecidableEq, Repr

/-- Models `handleLogin(event)` for the text `input` of the PIN field. `now` is the
clock when the lockout is checked and `later` the clock when the failed attempt is
recorded, after the simulated authentication delay. -/
def handleLogin (s : GuardState) (input : Str) (now later : Nat) : LoginOutcome × GuardState :=
  let r := isLockedOut s now
  if r.1 then (LoginOutcome.lockedOut, r.2)
  else
    let pin := trim input
    if pin = [] then (LoginOutcome.noPin, r.2)
    else
      match validatePin pin with
      | some userType =>
        (LoginOutcome.loggedIn userType, { r.2 with attemptCount := 0, lockoutTime := none })
      | none => (LoginOutcome.invalidPin, handleFailedAttempt r.2 later)

/-- One submission of the PIN form: the text of the field, the clock when the lockout
is checked and the clock when a failed attempt is recorded. -/
structure Submission where
  input : Str
  now : Nat
  later : Nat
  deriving DecidableEq, Repr

/-- The state after one submission. -/
def submit (s : GuardState) (e : Submission) : GuardState :=
  (handleLogin s e.input e.now e.later).2

/-- The state after a sequence of submissions. -/
def submitAll (s : GuardState) (es : List Submission) : GuardState :=
  es.foldl submit s

/-- A successful submission: the PIN is one of the two configured ones. -/
def Submission.succeeds (e : Submission) : Bool :=
  (validatePin (trim e.input)).isSome

/-- A failed PIN submission: a PIN was entered and it is not a configured one. -/
def Submission.fails (e : Submission) : Bool :=
  trim e.input ≠ [] && (validatePin (trim e.input)).isNone

/-- The number of failed PIN submissions since the last successful one. -/
def consecutiveFailures (es : List Submission) : Nat :=
  es.foldl (fun n e => if e.succeeds then 0 else if e.fails then n + 1 else n) 0

/-! ## Texts in the layout of the first end-to-end example -/

/-- Models `lines.join('\n')`. -/
def joinLines : List Str → Str
  | [] => []
  | [l] => l
  | l :: m :: rest => l ++ '\n' :: joinLines (m :: rest)

/-- The line `Step <i>: <d>`. -/
def stepLine (i : Nat) (d : Str) : Str :=
  "Step ".toList ++ ((Nat.repr i).toList ++ (':' :: ' ' :: d))

/-- The lines `Step <k+1>: <d_1>`, `Step <k+2>: <d_2>`, ... -/
def stepLinesFrom (k : Nat) : List Str → List Str
  | [] => []
  | d :: ds => stepLine (k + 1) d :: stepLinesFrom (k + 1) ds

/-- The entries numbered `k+1`, `k+2`, ... with the given descriptions. -/
def numberedFrom (k : Nat) : List Str → List Step
  | [] => []
  | d :: ds => { number := k + 1, description := d } :: numberedFrom (k + 1) ds

/-- The text `Step 1: d_1`, ..., `Step n: d_n`, `Answer: a`, `Key Concepts: c`, one line
each. -/
def exampleText (ds : List Str) (a c : Str) : Str :=
  joinLines (stepLinesFrom 0 ds ++ ["Answer: ".toList ++ a, "Key Concepts: ".toList ++ c])

/-! ## Auxiliary notions -/

/-- Every character of every piece is a character of the text. -/
def PiecesWithin (pieces : List Str) (s : Str) : Prop :=
  ∀ l ∈ pieces, ∀ x ∈ l, x ∈ s

/-! ## The recorded lockout deadline -/

/-- The deadline `isLockedOut` works with: `this.lockoutTime` when that is truthy, and
otherwise what is stored under `lockout_time`. -/
def recordedDeadline (s : GuardState) : Option Int :=
  if truthy s.lockoutTime then s.lockoutTime else s.storedLockout

/-! ## calculateConfidence -/

/-- The test `content.includes('Step') || content.includes('step')`. -/
def hasStep (content : Str) : Bool :=
  includes content "Step".toList || includes content "step".toList

/-- The test `content.includes('Answer') || content.includes('answer')`. -/
def hasAnswer (content : Str) : Bool :=
  includes content "Answer".toList || includes content "answer".toList

/-- The test `content.includes('Formula') || content.includes('formula')`. -/
def hasFormula (content : Str) : Bool :=
  includes content "Formula".toList || includes content "formula".toList

/-- The test `content.includes('Example') || content.includes('example')`. -/
def hasExample (content : Str) : Bool :=
  includes content "Example".toList || includes content "example".toList

/-- The test `content.length > 500`. -/
def isLong (content : Str) : Bool :=
  decide (utf16Length content > 500)

/-- The test `content.length > 1000`. -/
def isVeryLong (content : Str) : Bool :=
  decide (utf16Length content > 1000)

/-- The test `content.match(/[=+\-*/()]/)`. -/
def hasMathSymbol (content : Str) : Bool :=
  content.any fun c =>
    c == '=' || c == '+' || c == '-' || c == '*' || c == '/' || c == '(' || c == ')'

/-- The test `content.includes('\n')`. -/
def hasNewline (content : Str) : Bool :=
  includes content ['\n']

/-- Models `calculateConfidence(content)`, the score taken as an exact rational. -/
def calculateConfidence (content : Str) : ℚ :=
  let score : ℚ := 0.5
  let score := if hasStep content then score + 0.1 else score
  let score := if hasAnswer content then score + 0.1 else score
  let score := if hasFormula content then score + 0.1 else score
  let score := if hasExample content then score + 0.1 else score
  let score := if isLong content then score + 0.1 else score
  let score := if isVeryLong content then score + 0.1 else score
  let score := if hasMathSymbol content then score + 0.05 else score
  let score := if hasNewline content then score + 0.05 else score
  min score 0.95

/-- The value 1 for a condition that holds and 0 for one that does not. -/
def indicator (b : Bool) : ℚ :=
  if b then 1 else 0

/-- The formula of the specification read with case-insensitive keyword tests: the
lower-cased text is searched for the lower-case keyword. -/
def caseInsensitiveConfidence (content : Str) : ℚ :=
  min 0.95
    (0.5 + 0.1 * indicator (includes (toLowerCase content) "step".toList)
      + 0.1 * indicator (includes (toLowerCase content) "answer".toList)
      + 0.1 * indicator (includes (toLowerCase content) "formula".toList)
      + 0.1 * indicator (includes (toLowerCase content) "example".toList)
      + 0.1 * indicator (isLong content) + 0.1 * indicator (isVeryLong content)
      + 0.05 * indicator (hasMathSymbol content) + 0.05 * indicator (hasNewline content))

/-! ## enhancePrompt -/

/-- The properties of the `options` argument that the source reads. `none` stands for
`undefined`; `classLevel` is `options.class`. -/
structure PromptOptions where
  subject : Option Str
  difficulty : Option Str
  language : Option Str
  type : Option Str
  classLevel : Option Str
  temperature : Option ℚ
  topK : Option Nat
  topP : Option ℚ
  maxTokens : Option Nat
  questionCount : Option Nat
  deriving DecidableEq, Repr

/-- The argument `{}`. -/
def PromptOptions.empty : PromptOptions :=
  { subject := none, difficulty := none, language := none, type := none, classLevel := none
    temperature := none, topK := none, topP := none, maxTokens := none, questionCount := none }

/-- What the property read `CONFIG.SUBJECTS[subject]` evaluates to, as far as
`enhancePrompt` looks at it: whether it is truthy and what its `name` is in a template. -/
inductive SubjectEntry where
  /-- An entry of the catalog, with its `name`. -/
  | config (name : Str)
  /-- A property found on `Object.prototype`, with the text its `name` gives. -/
  | inherited (name : Str)
  /-- The value `undefined`. -/
  | absent
  deriving DecidableEq, Repr

/-- The text of `${value.name}` for the value that `Object.prototype` holds under `key`:
the constructor function is called `Object`, the prototype object has no `name`, and
every other inherited function is called like its key. -/
def inheritedName (key : Str) : Str :=
  if key = "constructor".toList then "Object".toList
  else if key = "__proto__".toList then "undefined".toList
  else key

/-- Models `CONFIG.SUBJECTS[subject]`. -/
def subjectsLookup (subject : Str) : SubjectEntry :=
  if subject = "mathematics".toList then SubjectEntry.config "Mathematics".toList
  else if subject = "science".toList then SubjectEntry.config "Science".toList
  else if subject = "social-studies".toList then SubjectEntry.config "Social Studies".toList
  else if subject = "english".toList then SubjectEntry.config "English".toList
  else if subject = "hindi".toList then SubjectEntry.config "Hindi".toList
  else if subject ∈ objectPrototypeKeys then SubjectEntry.inherited (inheritedName subject)
  else SubjectEntry.absent

/-- The text of `${options.class || '9th/10th'}`. -/
def classText (options : PromptOptions) : Str :=
  match options.classLevel with
  | some (c :: cs) => c :: cs
  | _ => "9th/10th".toList

/-- The `switch (type)` statement: the context a type selects. -/
def typeContext (options : PromptOptions) : Str :=
  if options.type = some "doubt-solver".toList then
    "You are an expert CBSE tutor helping a Class ".toList ++ classText options
      ++ " student. ".toList
  else if options.type = some "homework".toList then
    "You are helping a CBSE student solve their homework problem. ".toList
  else if options.type = some "notes".toList then
    "Generate comprehensive study notes for CBSE Class ".toList ++ classText options
      ++ ". ".toList
  else if options.type = some "test".toList then
    "Create a practice test question for CBSE Class ".toList ++ classText options
      ++ ". ".toList
  else "You are an AI tutor for CBSE students. ".toList

/-- What `if (subject) { ... }` appends. -/
def subjectContext (options : PromptOptions) : Str :=
  match options.subject with
  | some (c :: cs) =>
    match subjectsLookup (c :: cs) with
    | SubjectEntry.config name => "Subject: ".toList ++ name ++ ". ".toList
    | SubjectEntry.inherited name => "Subject: ".toList ++ name ++ ". ".toList
    | SubjectEntry.absent => []
  | _ => []

/-- What `if (difficulty) { ... }` appends. -/
def difficultyContext (options : PromptOptions) : Str :=
  match options.difficulty with
  | some (c :: cs) => "Difficulty level: ".toList ++ (c :: cs) ++ ". ".toList
  | _ => []

/-- What `if (language === 'HI') { ... }` appends. -/
def languagePreference (options : PromptOptions) : Str :=
  if options.language = some "HI".toList then
    "Provide explanations in both Hindi and English where helpful. ".toList
  else []

/-- What the `if (type === ...)` chain appends. -/
def typeInstructions (options : PromptOptions) : Str :=
  if options.type = some "doubt-solver".toList then
    ("Provide a step-by-step solution with clear explanations. Include:\n" ++
     "1. Problem understanding\n2. Step-by-step solution\n3. Final answer\n" ++
     "4. Key concepts used\n5. Tips to remember\n\n").toList
  else if options.type = some "homework".toList then
    ("Provide detailed homework help including:\n" ++
     "1. Problem analysis\n2. Solution approach\n3. Step-by-step working\n" ++
     "4. Final answer\n5. Similar practice problems\n\n").toList
  else if options.type = some "notes".toList then
    ("Create comprehensive notes including:\n" ++
     "1. Key concepts\n2. Important formulas/facts\n3. Examples\n" ++
     "4. Practice questions\n5. Memory tips\n\n").toList
  else []

/-- The label in front of the prompt. -/
def promptLabel : Str :=
  "\n\nStudent\x27s question/request: ".toList

/-- Models `AIIntegration.enhancePrompt(prompt, options)`. -/
def enhancePrompt (prompt : Str) (options : PromptOptions) : Str :=
  let enhancedPrompt := typeContext options
  let enhancedPrompt := enhancedPrompt ++ subjectContext options
  let enhancedPrompt := enhancedPrompt ++ difficultyContext options
  let enhancedPrompt := enhancedPrompt ++ languagePreference options
  let enhancedPrompt := enhancedPrompt ++ typeInstructions options
  enhancedPrompt ++ (promptLabel ++ prompt)

/-- The subject catalog: the keys of `CONFIG.SUBJECTS` with their names. -/
def subjectCatalog : List (Str × Str) :=
  [("mathematics".toList, "Mathematics".toList), ("science".toList, "Science".toList),
   ("social-studies".toList, "Social Studies".toList), ("english".toList, "English".toList),
   ("hindi".toList, "Hindi".toList)]

/-! ## The generation operations -/

/-- `CONFIG.ERRORS.RATE_LIMIT_EXCEEDED`. -/
def RATE_LIMIT_EXCEEDED : Str :=
  "Rate limit exceeded. Please try again later.".toList

/-- How the request to the endpoint ends. -/
inductive FetchOutcome where
  /-- The call `fetch`, the call `response.json()` or the read of
  `data.candidates[0].content.parts[0].text` raises an error with this message. -/
  | rejected (message : Str)
  /-- The field `response.ok` is false. -/
  | notOk (status : Nat) (statusText : Str)
  /-- The response has a first candidate with this text. -/
  | text (content : Str)
  /-- The response has no first candidate with a content. -/
  | noCandidate
  deriving DecidableEq, Repr

/-- The object `generationConfig` of the request body. -/
structure GenerationConfig where
  temperature : ℚ
  topK : Nat
  topP : ℚ
  maxOutputTokens : Nat
  deriving DecidableEq, Repr

/-- What an operation does to the outside. -/
inductive Effect where
  /-- One `fetch` with this prompt text and configuration in the body. -/
  | fetch (text : Str) (config : GenerationConfig)
  /-- One run of the response parsers on this content. -/
  | parse (content : Str)
  deriving DecidableEq, Repr

/-- The outcome of a run: what is returned (or raised), the store and the effects. -/
structure Run (α : Type) where
  result : α
  store : RateStore
  effects : List Effect

/-- Models `value || fallback` for a number that may be `undefined`. -/
def orDefault {α : Type} [Zero α] [DecidableEq α] (value : Option α) (fallback : α) : α :=
  match value with
  | some v => if v = 0 then fallback else v
  | none => fallback

/-- Models `generateContent(prompt, options)` called when `Date.now()` is `now` and the
endpoint answers with `reply`. The result is the content of the returned object or the
message of the error raised. -/
def generateContent (reply : FetchOutcome) (store : RateStore) (now : Nat) (prompt : Str)
    (options : PromptOptions) : Run (Except Str Str) :=
  let allowed := checkRateLimit store "questions_hour".toList now
  if allowed.1 = false then
    { result := Except.error RATE_LIMIT_EXCEEDED, store := allowed.2, effects := [] }
  else
    let request := Effect.fetch (enhancePrompt prompt options)
      { temperature := orDefault options.temperature 0.7
        topK := orDefault options.topK 40
        topP := orDefault options.topP 0.95
        maxOutputTokens := orDefault options.maxTokens 2048 }
    match reply with
    | FetchOutcome.rejected message =>
      { result := Except.error message, store := allowed.2, effects := [request] }
    | FetchOutcome.notOk status statusText =>
      { result := Except.error
          ("AI API Error: ".toList ++ (Nat.repr status).toList ++ [' '] ++ statusText)
        store := allowed.2, effects := [request] }
    | FetchOutcome.text content =>
      { result := Except.ok content, store := allowed.2, effects := [request] }
    | FetchOutcome.noCandidate =>
      { result := Except.error "Invalid response from AI service".toList
        store := allowed.2, effects := [request] }

/-- The object an operation resolves to. -/
inductive OperationResult where
  /-- The object with `success: false` and the error message. -/
  | failure (error : Str)
  /-- The object with `success: true`, a solution and a confidence. -/
  | solution (solution : Solution) (confidence : ℚ)
  /-- The object with `success: true`, notes and a mind map. -/
  | notes (notes : Notes) (mindMap : MindMap)
  /-- The object with `success: true` and a quiz. -/
  | quiz (quiz : Quiz)
  deriving DecidableEq, Repr

/-- Models `solveDoubt(question, options)`. -/
def solveDoubt (reply : FetchOutcome) (store : RateStore) (now : Nat) (question : Str)
    (options : PromptOptions) : Run OperationResult :=
  let g := generateContent reply store now question
    { options with type := some "doubt-solver".toList }
  match g.result with
  | Except.ok content =>
    { result := OperationResult.solution (formatSolution content) (calculateConfidence content)
      store := g.store, effects := g.effects ++ [Effect.parse content] }
  | Except.error message =>
    { result := OperationResult.failure message, store := g.store, effects := g.effects }

/-- Models `analyzeHomework(problem, options)`; `formatHomeworkSolution` is
`formatSolution`. -/
def analyzeHomework (reply : FetchOutcome) (store : RateStore) (now : Nat) (problem : Str)
    (options : PromptOptions) : Run OperationResult :=
  let g := generateContent reply store now problem { options with type := some "homework".toList }
  match g.result with
  | Except.ok content =>
    { result := OperationResult.solution (formatSolution content) (calculateConfidence content)
      store := g.store, effects := g.effects ++ [Effect.parse content] }
  | Except.error message =>
    { result := OperationResult.failure message, store := g.store, effects := g.effects }

/-- The message of the TypeError that `lines[0].trim()` would raise on an undefined
`lines[0]`. -/
def UNDEFINED_TRIM : Str :=
  "Cannot read properties of undefined (reading \x27trim\x27)".toList

/-- Models `generateNotes(topic, options)` run with the random source `draws`. -/
def generateNotes (draws : Nat → Nat) (reply : FetchOutcome) (store : RateStore) (now : Nat)
    (topic : Str) (options : PromptOptions) : Run OperationResult :=
  let prompt := "Generate comprehensive study notes for the topic: ".toList ++ topic
  let g := generateContent reply store now prompt { options with type := some "notes".toList }
  match g.result with
  | Except.ok content =>
    match formatNotes draws content with
    | some notes =>
      { result := OperationResult.notes notes (generateMindMapData content)
        store := g.store, effects := g.effects ++ [Effect.parse content] }
    | none =>
      { result := OperationResult.failure UNDEFINED_TRIM
        store := g.store, effects := g.effects ++ [Effect.parse content] }
  | Except.error message =>
    { result := OperationResult.failure message, store := g.store, effects := g.effects }

/-- Models `generateQuiz(subject, topic, options)`. -/
def generateQuiz (reply : FetchOutcome) (store : RateStore) (now : Nat) (subject topic : Str)
    (options : PromptOptions) : Run OperationResult :=
  let prompt := "Generate a ".toList ++ (Nat.repr (orDefault options.questionCount 10)).toList
    ++ " question quiz on ".toList ++ topic ++ " for ".toList ++ subject ++
    (". \n            Include multiple choice, short answer, and numerical questions as " ++
     "appropriate.\n            Provide correct answers and explanations.").toList
  let g := generateContent reply store now prompt { options with type := some "test".toList }
  match g.result with
  | Except.ok content =>
    { result := OperationResult.quiz (parseQuizContent content)
      store := g.store, effects := g.effects ++ [Effect.parse content] }
  | Except.error message =>
    { result := OperationResult.failure message, store := g.store, effects := g.effects }

/-! ## The request queue -/

/-- An invocation of `processQueue` that is suspended at one of its two `await`s. -/
inductive Worker (ρ : Type) where
  /-- Suspended at `await request()`: the request has been called and has not settled. -/
  | awaitingRequest (request : ρ)
  /-- Suspended at the delay of one second that follows a request. -/
  | awaitingDelay
  deriving DecidableEq, Repr

/-- The fields `requestQueue` and `isProcessing`, the suspended invocations of
`processQueue`, and a record of the requests enqueued, started and completed so far. -/
structure QueueState (ρ : Type) where
  requestQueue : List ρ
  isProcessing : Bool
  workers : List (Worker ρ)
  enqueued : List ρ
  started : List ρ
  completed : List ρ
  deriving DecidableEq, Repr

/-- The state the constructor leaves. -/
def QueueState.init {ρ : Type} : QueueState ρ :=
  { requestQueue := [], isProcessing := false, workers := [], enqueued := [], started := []
    completed := [] }

/-- The test of `while (this.requestQueue.length > 0)` and what follows it up to the next
`await`: either the first request is taken off the queue and called, or `isProcessing` is
set to `false` and the invocation returns (`none`). -/
def loopHead {ρ : Type} (s : QueueState ρ) : QueueState ρ × Option (Worker ρ) :=
  match s.requestQueue with
  | [] => ({ s with isProcessing := false }, none)
  | request :: rest =>
    ({ s with requestQueue := rest, started := s.started ++ [request] },
      some (Worker.awaitingRequest request))

/-- Models a call of `processQueue()` up to its first `await`. -/
def processQueue {ρ : Type} (s : QueueState ρ) : QueueState ρ :=
  if s.isProcessing || s.requestQueue.isEmpty then s
  else
    let r := loopHead { s with isProcessing := true }
    { r.1 with workers := r.1.workers ++ r.2.toList }

/-- Models `addToQueue(request)`: the executor of the promise pushes the request and
calls `processQueue()`. -/
def addToQueue {ρ : Type} (s : QueueState ρ) (request : ρ) : QueueState ρ :=
  processQueue
    { s with requestQueue := s.requestQueue ++ [request], enqueued := s.enqueued ++ [request] }

/-- What can happen next: a call of `addToQueue`, the request of the `i`-th suspended
invocation settling, or the delay of the `i`-th suspended invocation running out. -/
inductive QueueEvent (ρ : Type) where
  | add (request : ρ)
  | settle (i : Nat)
  | wake (i : Nat)
  deriving DecidableEq, Repr

/-- One step of the queue; `none` when the event cannot happen in the state. -/
def queueStep {ρ : Type} (s : QueueState ρ) : QueueEvent ρ → Option (QueueState ρ)
  | QueueEvent.add request => some (addToQueue s request)
  | QueueEvent.settle i =>
    match s.workers[i]? with
    | some (Worker.awaitingRequest request) =>
      some { s with workers := s.workers.set i Worker.awaitingDelay
                    completed := s.completed ++ [request] }
    | _ => none
  | QueueEvent.wake i =>
    match s.workers[i]? with
    | some Worker.awaitingDelay =>
      let r := loopHead s
      match r.2 with
      | some w => some { r.1 with workers := r.1.workers.set i w }
      | none => some { r.1 with workers := r.1.workers.eraseIdx i }
    | _ => none

/-- The state after a sequence of events, if each of them can happen in its turn. -/
def queueRun {ρ : Type} (s : QueueState ρ) : List (QueueEvent ρ) → Option (QueueState ρ)
  | [] => some s
  | e :: es =>
    match queueStep s e with
    | some s1 => queueRun s1 es
    | none => none

/-- The requests in flight: called and not settled. -/
def inFlight {ρ : Type} (s : QueueState ρ) : List ρ :=
  s.workers.filterMap fun w =>
    match w with
    | Worker.awaitingRequest request => some request
    | Worker.awaitingDelay => none

/-- What holds in every state the queue can reach. -/
def QueueInvariant {ρ : Type} (s : QueueState ρ) : Prop :=
  ((s.isProcessing = false ∧ s.workers = [] ∧ s.requestQueue = []) ∨
    (s.isProcessing = true ∧ ∃ w, s.workers = [w])) ∧
  s.enqueued = s.started ++ s.requestQueue ∧
  s.started = s.completed ++ inFlight s

/-! ## AuthManager: the session and its two timers -/

/-- `CONFIG.SESSION.TIMEOUT`. -/
def SESSION_TIMEOUT : Nat := 30 * 60 * 1000

/-- `CONFIG.SESSION.WARNING_TIME`. -/
def WARNING_TIME : Nat := 5 * 60 * 1000

/-- The session record, without its `sessionId` and `pinHash`, which no timer reads. -/
structure SessionData where
  userType : UserType
  loginTime : Nat
  lastActivity : Nat
  deriving DecidableEq, Repr

/-- The field `currentUser`, the session item of `localStorage`, and the times at which
the callbacks registered under `warningTimeout` and `sessionTimeout` are due (`none` is
`null`: no callback registered). -/
structure SessionState where
  currentUser : Option SessionData
  storedSession : Option SessionData
  warningTimeout : Option Nat
  sessionTimeout : Option Nat
  deriving DecidableEq, Repr

/-- The state before a login. -/
def SessionState.init : SessionState :=
  { currentUser := none, storedSession := none, warningTimeout := none, sessionTimeout := none }

/-- Models `clearTimeouts()`. -/
def clearTimeouts (s : SessionState) : SessionState :=
  { s with warningTimeout := none, sessionTimeout := none }

/-- Models `startSessionTimeout()` called when the clock is `now`: `setTimeout` with a
delay makes the callback due at `now` plus the delay. -/
def startSessionTimeout (s : SessionState) (now : Nat) : SessionState :=
  { clearTimeouts s with
    warningTimeout := some (now + (SESSION_TIMEOUT - WARNING_TIME))
    sessionTimeout := some (now + SESSION_TIMEOUT) }

/-- Models `createSession(userType, pin)`: the record is built when the clock is `now`
and the timers are started when the hash of the PIN has arrived, at `later`. -/
def createSession (s : SessionState) (userType : UserType) (now later : Nat) : SessionState :=
  let sessionData : SessionData := { userType := userType, loginTime := now, lastActivity := now }
  startSessionTimeout { s with storedSession := some sessionData, currentUser := some sessionData }
    later

/-- Models `updateLastActivity()` called when the clock is `now`; it is what the
throttled listener of click, keypress, scroll and mousemove calls. -/
def updateLastActivity (s : SessionState) (now : Nat) : SessionState :=
  match s.currentUser with
  | some user =>
    { s with currentUser := some { user with lastActivity := now }
             storedSession := some { user with lastActivity := now } }
  | none => s

/-- Models `extendSession()` called when the clock is `now`. -/
def extendSession (s : SessionState) (now : Nat) : SessionState :=
  match s.currentUser with
  | some _ => startSessionTimeout (updateLastActivity s now) now
  | none => s

/-! ## Counting option lines -/

/-- The number of non-blank lines of a section that start with one of the letters `a`
to `d`, in either case, and `)`. -/
def optionLineCount (sec : Str) : Nat :=
  ((nonBlankLines sec).filter fun l => startsWithOptionLetter (trim l)).length

/-! ## How formatSolution classifies a line -/

/-- A line that reaches the answer branch of `formatSolution`, in terms of the two
conditions of the source. -/
def isAnswerClassified (line : Str) : Bool :=
  !isStepLine (trim line) && isAnswerLine (trim line)

/-- A line that matches one of the step, answer, concept and tip rules. -/
def matchesSomeRule (line : Str) : Bool :=
  isStepLine (trim line) || isAnswerLine (trim line) || isConceptLine (trim line) ||
    isTipLine (trim line)

/-! ## The mind map and the notes, line by line -/

/-- A line that takes the first branch of the callback of `generateMindMapData`, in terms
of the condition of the source. -/
def isBranchLine (line : Str) : Bool :=
  includes (trim line) [':'] || startsWithNumberDot (trim line)

/-- The items pushed between a branch line and the next one, in terms of the helpers of
the source. -/
def itemsUntilNextBranch (following : List Str) : List Str :=
  ((following.takeWhile fun l => !isBranchLine l).filter fun l =>
    startsWith (trim l) ['-']).map fun l => stripDash (trim l)

/-- The branches pushed for a list of lines, in terms of the helpers of the source. -/
def describedBranches : List Str → List Branch
  | [] => []
  | line :: following =>
    if isBranchLine line then
      { title := trim (removeTitleMarks line), items := itemsUntilNextBranch following }
        :: describedBranches following
    else describedBranches following

/-- The pairs of id and content of the sections numbered from `k`: `section_k` with the
first paragraph, `section_(k+1)` with the second, and so on. -/
def sectionLabels (k : Nat) : List Str → List (Str × Str)
  | [] => []
  | paragraph :: rest =>
    ("section_".toList ++ (Nat.repr k).toList, paragraph) :: sectionLabels (k + 1) rest

/-! ## The answer and the mind map as the specification describes them -/

/-- A text that begins with one or more digits followed by `.`. -/
def beginsWithDigitsDot (s : Str) : Bool :=
  !(s.takeWhile isDigit).isEmpty && (s.dropWhile isDigit).head? == some '.'

/-- A line that is an answer line: trimmed, it contains "answer" or "final" in any
letter case, and it is not a step line (one that contains "step" in any letter case or
begins with digits and `.`). -/
def readsAsAnswerLine (line : Str) : Bool :=
  !(includes (toLowerCase (trim line)) "step".toList || beginsWithDigitsDot (trim line)) &&
    (includes (toLowerCase (trim line)) "answer".toList ||
      includes (toLowerCase (trim line)) "final".toList)

/-- A text that begins with a label written in lower case, whatever the case of the
letters `A` to `Z` in the text. -/
def beginsWithLabel (label s : Str) : Bool :=
  decide ((s.take label.length).map Char.toLower = label)

/-- What follows a label once an optional colon and the white space after it are
removed. -/
def afterLabel (rest : Str) : Str :=
  (if rest.head? = some ':' then rest.drop 1 else rest).dropWhile isWhiteSpace

/-- A text without its leading label `answer` or `final answer`. -/
def withoutAnswerLabel (s : Str) : Str :=
  if beginsWithLabel "answer".toList s then afterLabel (s.drop "answer".length)
  else if beginsWithLabel "final answer".toList s then
    afterLabel (s.drop "final answer".length)
  else s

/-- A line that starts a branch: trimmed, it contains `:` or begins with digits followed
by `.`. -/
def startsBranch (line : Str) : Bool :=
  decide (':' ∈ trim line) || beginsWithDigitsDot (trim line)

/-- The title of a branch line: the line with every digit, colon and period removed and
then trimmed. -/
def branchTitle (line : Str) : Str :=
  trim (line.filter fun c => !(isDigit c || c == ':' || c == '.'))

/-- A line that, trimmed, starts with `-`. -/
def startsItem (line : Str) : Bool :=
  (trim line).head? == some '-'

/-- The text of an item line: the trimmed line after its first character and the white
space that follows it. -/
def itemText (line : Str) : Str :=
  ((trim line).drop 1).dropWhile isWhiteSpace

/-- The items of a branch: the item lines among the lines that follow, up to the next
branch line. -/
def itemsAfter (following : List Str) : List Str :=
  ((following.takeWhile fun l => !startsBranch l).filter startsItem).map itemText

/-- One branch for each branch line, in order, with its title and its items; lines in
front of the first branch line give nothing. -/
def branchesOf : List Str → List Branch
  | [] => []
  | line :: following =>
    if startsBranch line then
      { title := branchTitle line, items := itemsAfter following } :: branchesOf following
    else branchesOf following

/-! ## The deadline in force -/

/-- The lockout deadline in force: the recorded one, unless it is `0`, which the code
reads as no deadline (`0` is falsy, and a deadline is a clock reading plus
`LOCKOUT_TIME`). -/
def deadlineInForce (s : GuardState) : Option Int :=
  match recordedDeadline s with
  | some d => if d ≠ 0 then some d else none
  | none => none

/-! ## ProgressManager: points, levels and achievements -/

/-- An entry of `CONFIG.ACHIEVEMENTS`. -/
structure Achievement where
  id : Str
  name : Str
  description : Str
  icon : Str
  points : Nat
  deriving DecidableEq, Repr

/-- An entry of `this.achievements`: the achievement with the time it was earned. -/
structure EarnedAchievement where
  achievement : Achievement
  earnedAt : Nat
  deriving DecidableEq, Repr

/-- The object `userProgress.daily`. -/
structure Daily where
  questionsToday : Nat
  timeToday : Nat
  pointsToday : Nat
  date : Str
  deriving DecidableEq, Repr

/-- A call of `showPointsNotification` or of `showLevelUpNotification`. -/
inductive Notice where
  | points (points : Nat) (reason : Str)
  | levelUp (level : Nat)
  deriving DecidableEq, Repr

/-- The fields of `ProgressManager` that awarding points and unlocking achievements read
and write: `this.totalPoints`, `userProgress.overall.totalPoints`,
`userProgress.overall.level` (0 for a missing level), `userProgress.daily`,
`this.achievements`, and the notifications shown so far. -/
structure ProgressState where
  totalPoints : Nat
  overallTotalPoints : Nat
  level : Nat
  daily : Daily
  achievements : List EarnedAchievement
  notices : List Notice
  deriving DecidableEq, Repr

mutual
/-- Models `awardPoints(points, reason)` on the day `today`. The first argument bounds
the depth of the calls; `none` means the bound was reached. -/
def awardPoints : Nat → ProgressState → Str → Nat → Str → Option ProgressState
  | 0, _, _, _, _ => none
  | fuel + 1, s, today, points, reason =>
    let total := s.totalPoints + points
    let daily : Daily :=
      if s.daily.date = today then { s.daily with pointsToday := s.daily.pointsToday + points }
      else { questionsToday := 0, timeToday := 0, pointsToday := points, date := today }
    checkLevelUp fuel
      { s with totalPoints := total, overallTotalPoints := total, daily := daily
               notices := s.notices ++ [Notice.points points reason] }
      today
/-- Models `checkLevelUp()`. -/
def checkLevelUp : Nat → ProgressState → Str → Option ProgressState
  | 0, _, _ => none
  | fuel + 1, s, today =>
    let currentLevel := if s.level ≠ 0 then s.level else 1
    let newLevel := s.totalPoints / 500 + 1
    if newLevel > currentLevel then
      awardPoints fuel
        { s with level := newLevel, notices := s.notices ++ [Notice.levelUp newLevel] }
        today 100 "Level Up Bonus".toList
    else some s
end

/-- The number of level-up bonuses among the notifications. -/
def levelUpBonuses (notices : List Notice) : Nat :=
  (notices.filter fun n => n == Notice.points 100 "Level Up Bonus".toList).length

/-- The entries of `CONFIG.ACHIEVEMENTS`, by key. -/
def achievementCatalog : List (Str × Achievement) :=
  [("FIRST_QUESTION".toList,
      ⟨"first_question".toList, "First Steps".toList, "Solve your first question".toList,
        "fas fa-baby".toList, 50⟩),
   ("STREAK_7".toList,
      ⟨"streak_7".toList, "7-Day Streak".toList, "Study for 7 consecutive days".toList,
        "fas fa-fire".toList, 100⟩),
   ("TOP_PERFORMER".toList,
      ⟨"top_performer".toList, "Top Performer".toList, "Score above 90% in 5 tests".toList,
        "fas fa-star".toList, 200⟩),
   ("QUICK_LEARNER".toList,
      ⟨"quick_learner".toList, "Quick Learner".toList, "Complete 10 lessons in a day".toList,
        "fas fa-brain".toList, 150⟩),
   ("MATH_MASTER".toList,
      ⟨"math_master".toList, "Math Master".toList, "Score 95%+ in 3 math tests".toList,
        "fas fa-trophy".toList, 300⟩),
   ("SPEED_SOLVER".toList,
      ⟨"speed_solver".toList, "Speed Solver".toList, "Solve 50 questions in an hour".toList,
        "fas fa-rocket".toList, 250⟩),
   ("KNOWLEDGE_KING".toList,
      ⟨"knowledge_king".toList, "Knowledge King".toList, "Master all subjects".toList,
        "fas fa-crown".toList, 500⟩)]

/-- Models `hasAchievement(achievementId)`: some earned achievement has this `id`. -/
def hasAchievement (s : ProgressState) (achievementId : Str) : Bool :=
  s.achievements.any fun a => a.achievement.id == achievementId

/-- Models `unlockAchievement(achievementId)` called when the clock is `now`. For a key
that is not in the catalog but is inherited from `Object.prototype` the points awarded
are `undefined` and the total becomes `NaN`, which this state cannot hold: `none`. -/
def unlockAchievement (fuel : Nat) (s : ProgressState) (today : Str) (now : Nat)
    (achievementId : Str) : Option ProgressState :=
  match achievementCatalog.lookup achievementId with
  | some achievement =>
    if hasAchievement s achievementId then some s
    else
      awardPoints fuel
        { s with achievements := s.achievements ++ [{ achievement := achievement, earnedAt := now }] }
        today achievement.points ("Achievement: ".toList ++ achievement.name)
  | none => if achievementId ∈ objectPrototypeKeys then none else some s

/-! ## Test analysis: weak and strong areas -/

/-- An entry of `testResults.questionResults`, as far as `analyzeTestPerformance` reads
it: `topic` is `none` when the field is missing. -/
structure QuestionResult where
  subject : Str
  topic : Option Str
  isCorrect : Bool
  deriving DecidableEq, Repr

/-- A value of the object `topicPerformance`. -/
structure TopicPerformance where
  correct : Nat
  total : Nat
  subject : Str
  deriving DecidableEq, Repr

/-- The own properties of `topicPerformance`, in the order of their creation. -/
abbrev TopicTable := List (Str × TopicPerformance)

/-- The statements `.total++` and `if (result.isCorrect) .correct++`. -/
def countResult (perf : TopicPerformance) (isCorrect : Bool) : TopicPerformance :=
  { perf with total := perf.total + 1,
              correct := if isCorrect then perf.correct + 1 else perf.correct }

/-- Adds one to the counters of the first entry with this key. -/
def countInTable : TopicTable → Str → Bool → TopicTable
  | [], _, _ => []
  | (key, perf) :: rest, topic, isCorrect =>
    if key = topic then (key, countResult perf isCorrect) :: rest
    else (key, perf) :: countInTable rest topic isCorrect

/-- The topic part of the first `forEach` callback. A missing or empty topic is falsy.
A topic that names a property inherited from `Object.prototype` reads as truthy, so no
own property is created and the counters go on the inherited object. -/
def recordTopic (table : TopicTable) (result : QuestionResult) : TopicTable :=
  match result.topic with
  | none => table
  | some topic =>
    if topic = [] then table
    else if (table.lookup topic).isSome then countInTable table topic result.isCorrect
    else if topic ∈ objectPrototypeKeys then table
    else table ++ [(topic, countResult ⟨0, 0, result.subject⟩ result.isCorrect)]

/-- The object `topicPerformance` after the first `forEach`. -/
def topicTable (results : List QuestionResult) : TopicTable :=
  results.foldl recordTopic []

/-- The number a property key stands for when it is an array index: a decimal numeral
without a leading zero, below `2^32 - 1`. -/
def arrayIndex (key : Str) : Option Nat :=
  match key with
  | [] => none
  | c :: rest =>
    let value := key.foldl (fun n d => 10 * n + (d.toNat - '0'.toNat)) 0
    if key.all Char.isDigit ∧ (c ≠ '0' ∨ rest = []) ∧ value < 2 ^ 32 - 1 then some value
    else none

/-- Models `Object.entries(topicPerformance)`: the keys that are array indices in
ascending numeric order, then the other keys in the order of their creation. -/
def objectEntries (table : TopicTable) : TopicTable :=
  (table.filter fun e => (arrayIndex e.1).isSome).insertionSort
      (fun a b => (arrayIndex a.1).getD 0 ≤ (arrayIndex b.1).getD 0)
    ++ table.filter fun e => !(arrayIndex e.1).isSome

/-- The three lists of a subject record of `userProgress.subjects` that the analysis
reads and writes. -/
structure SubjectData where
  weakAreas : List Str
  strongAreas : List Str
  topicsCompleted : List Str
  deriving DecidableEq, Repr

/-- The own properties of `userProgress.subjects`, by subject name. -/
abbrev Subjects := Str → Option SubjectData

/-- The state of an analysis: the subject records, and whether no callback has thrown. -/
structure Analysis where
  subjects : Subjects
  completed : Bool

/-- `perf.correct / perf.total`, as an exact rational. -/
def accuracy (perf : TopicPerformance) : ℚ :=
  (perf.correct : ℚ) / (perf.total : ℚ)

/-- The branch `accuracy < 0.6` on a subject record. -/
def markWeak (d : SubjectData) (topic : Str) : SubjectData :=
  { d with weakAreas := if topic ∈ d.weakAreas then d.weakAreas else d.weakAreas ++ [topic],
           strongAreas := d.strongAreas.filter fun t => t ≠ topic }

/-- The branch `accuracy >= 0.8` on a subject record. -/
def markStrong (d : SubjectData) (topic : Str) : SubjectData :=
  { weakAreas := d.weakAreas.filter fun t => t ≠ topic,
    strongAreas := if topic ∈ d.strongAreas then d.strongAreas else d.strongAreas ++ [topic],
    topicsCompleted :=
      if topic ∈ d.topicsCompleted then d.topicsCompleted else d.topicsCompleted ++ [topic] }

/-- The callback of the second `forEach` for one entry `[topic, perf]`. With `total = 0`
the quotient is `NaN` and neither comparison holds. A subject without a record returns
early; a subject that only names a property inherited from `Object.prototype` is truthy
without a `weakAreas` list, and the first list access throws. -/
def updateAreas (subjects : Subjects) (topic : Str) (perf : TopicPerformance) : Analysis :=
  match subjects perf.subject with
  | some d =>
    if perf.total = 0 then ⟨subjects, true⟩
    else if accuracy perf < 0.6 then
      ⟨Function.update subjects perf.subject (some (markWeak d topic)), true⟩
    else if accuracy perf ≥ 0.8 then
      ⟨Function.update subjects perf.subject (some (markStrong d topic)), true⟩
    else ⟨subjects, true⟩
  | none =>
    if perf.subject ∈ objectPrototypeKeys then
      if perf.total = 0 then ⟨subjects, true⟩
      else if accuracy perf < 0.6 ∨ accuracy perf ≥ 0.8 then ⟨subjects, false⟩
      else ⟨subjects, true⟩
    else ⟨subjects, true⟩

/-- One round of the second `forEach`: nothing runs after a throw. -/
def analysisStep (a : Analysis) (entry : Str × TopicPerformance) : Analysis :=
  if a.completed then updateAreas a.subjects entry.1 entry.2 else a

/-- Models `analyzeTestPerformance(testResults)` on the subject records. -/
def analyzeTestPerformance (subjects : Subjects) (results : List QuestionResult) : Analysis :=
  (objectEntries (topicTable results)).foldl analysisStep ⟨subjects, true⟩

/-- The number of results of the test on a topic. -/
def answersOn (results : List QuestionResult) (topic : Str) : Nat :=
  results.countP fun r => r.topic == some topic

/-- The number of correct results of the test on a topic. -/
def correctAnswersOn (results : List QuestionResult) (topic : Str) : Nat :=
  results.countP fun r => r.topic == some topic && r.isCorrect

/-- The subject of the first result of the test on a topic. -/
def subjectOf (results : List QuestionResult) (topic : Str) : Option Str :=
  (results.find? fun r => r.topic == some topic).map fun r => r.subject

/-- What the table of topics holds after the results `results`: distinct non-empty keys,
each with the counts of the results on that topic and the subject of the first of
them, and a key for every topic that is neither empty nor an inherited name. -/
def TopicTableInvariant (results : List QuestionResult) (table : TopicTable) : Prop :=
  (table.map Prod.fst).Nodup ∧
  (∀ k p, (k, p) ∈ table →
    k ≠ [] ∧ p.total = answersOn results k ∧ p.correct = correctAnswersOn results k ∧
      0 < p.total ∧ subjectOf results k = some p.subject) ∧
  (∀ r ∈ results, ∀ t, r.topic = some t → t ≠ [] → t ∉ objectPrototypeKeys →
    t ∈ table.map Prod.fst)

/-- For every subject with a record, the weak and the strong areas have no duplicates
and share no topic. -/
def AreasInvariant (subjects : Subjects) : Prop :=
  ∀ name d, subjects name = some d →
    d.weakAreas.Nodup ∧ d.strongAreas.Nodup ∧ List.Disjoint d.weakAreas d.strongAreas

/-- The three lists of the subject records of `getDefaultProgress()`. -/
def defaultSubjects : Subjects := fun name =>
  if name = "mathematics".toList then
    some ⟨["Coordinate Geometry".toList, "Triangles".toList],
      ["Algebra".toList, "Number Systems".toList],
      ["Number Systems".toList, "Polynomials".toList, "Linear Equations".toList]⟩
  else if name = "science".toList then
    some ⟨["Sound".toList, "Gravitation".toList],
      ["Chemistry".toList, "Biology".toList],
      ["Matter".toList, "Atoms and Molecules".toList, "Motion".toList]⟩
  else if name = "social-studies".toList then
    some ⟨["Geography".toList],
      ["History".toList, "Civics".toList],
      ["French Revolution".toList, "Democracy".toList, "Constitutional Design".toList]⟩
  else none

/-! ## Properties of checkRateLimit -/

theorem reachedLimit_of_inherited (action : Str) (count : Int)
    (h : action ∈ objectPrototypeKeys) : reachedLimit count action = false := by
  have h1 : limitsLookup action = LimitEntry.inherited := by
    simp only [objectPrototypeKeys, List.mem_cons, List.mem_singleton, List.not_mem_nil,
      or_false] at h
    rcases h with h | h | h | h | h | h | h | h | h | h | h | h <;> subst h <;> decide
  simp [reachedLimit, h1]

theorem reachedLimit_of_not_inherited (action : Str) (count : Int)
    (h : action ∉ objectPrototypeKeys) :
    reachedLimit count action = decide ((ceilingOf action : Int) ≤ count) := by
  unfold reachedLimit limitsLookup ceilingOf
  split_ifs <;> simp [QUESTIONS_PER_HOUR, PHOTOS_PER_HOUR, TESTS_PER_DAY]

theorem ceilingOf_pos (action : Str) : 0 < ceilingOf action := by
  unfold ceilingOf
  split_ifs <;> decide

theorem reachedLimit_zero (action : Str) : reachedLimit 0 action = false := by
  by_cases h : action ∈ objectPrototypeKeys
  · exact reachedLimit_of_inherited action 0 h
  · rw [reachedLimit_of_not_inherited action 0 h]
    have := ceilingOf_pos action
    simp
    omega

/-- C8. Whenever `checkRateLimit` returns `false`, the store after the call is the store
before the call: no key, the action's own included, is written. -/
theorem checkRateLimit_denied_keeps_store (store : RateStore) (action : Str) (now : Nat)
    (h : (checkRateLimit store action now).1 = false) :
    (checkRateLimit store action now).2 = store := by
  unfold checkRateLimit at h ⊢
  dsimp only at h ⊢
  split_ifs at h ⊢ with hlim
  · rfl

theorem checkRateLimit_denied_keeps_store_witness :
    (checkRateLimit (setItem emptyStore (rateKey "questions_hour".toList) ⟨50, 1000⟩)
        "questions_hour".toList 2000).1 = false ∧
    (checkRateLimit (setItem emptyStore (rateKey "questions_hour".toList) ⟨50, 1000⟩)
        "questions_hour".toList 2000).2
      = setItem emptyStore (rateKey "questions_hour".toList) ⟨50, 1000⟩ :=
  ⟨by decide, checkRateLimit_denied_keeps_store _ _ _ (by decide)⟩

theorem windowLength_of_hour (action : Str) (h : includes action "hour".toList = true) :
    windowLength action = some 3600000 := by
  unfold windowLength
  rw [if_pos h]

theorem windowLength_of_day (action : Str) (h : ¬ includes action "hour".toList = true)
    (h2 : includes action "day".toList = true) : windowLength action = some 86400000 := by
  unfold windowLength
  rw [if_neg h, if_pos h2]

theorem resetWindow_eq_self (action : Str) (d : RateData) (now : Nat)
    (h : ∀ W, windowLength action = some W → ¬ d.timestamp < (now : Int) - W) :
    resetWindow action d now = d := by
  unfold resetWindow
  dsimp only
  split_ifs with h1 h2
  · exfalso
    have := h 3600000 (windowLength_of_hour action h1.1)
    apply this
    have := h1.2
    push_cast
    omega
  · exfalso
    have hh : ¬ includes action "hour".toList = true := by
      intro hc
      have := h 3600000 (windowLength_of_hour action hc)
      have := h2.2
      push_cast at *
      omega
    have := h 86400000 (windowLength_of_day action hh h2.1)
    apply this
    have := h2.2
    push_cast
    omega
  · rfl

theorem resetWindow_of_elapsed (action : Str) (d : RateData) (now W : Nat)
    (hW : windowLength action = some W) (h : (W : Int) < now - d.timestamp) :
    resetWindow action d now = { count := 0, timestamp := now } := by
  unfold resetWindow
  unfold windowLength at hW
  dsimp only
  split_ifs at hW with h1 h2
  · simp only [Option.some.injEq] at hW
    subst hW
    rw [if_pos]
    refine ⟨h1, ?_⟩
    push_cast at h
    omega
  · simp only [Option.some.injEq] at hW
    subst hW
    rw [if_neg (fun hc => h1 hc.1), if_pos]
    refine ⟨h2, ?_⟩
    push_cast at h
    omega

theorem checkRateLimit_of_data (store : RateStore) (action : Str) (now : Nat) (d : RateData)
    (hd : resetWindow action ((store (rateKey action)).getD { count := 0, timestamp := 0 }) now
      = d) :
    checkRateLimit store action now =
      if reachedLimit d.count action then (false, store)
      else (true, setItem store (rateKey action)
        { count := d.count + 1, timestamp := if d.timestamp ≠ 0 then d.timestamp else now }) := by
  unfold checkRateLimit
  dsimp only
  rw [hd]

/-- The first call for an action without a stored record is allowed and stores a count
of 1 with the time of the call. -/
theorem checkRateLimit_first (store : RateStore) (action : Str) (now : Nat)
    (h : store (rateKey action) = none) :
    checkRateLimit store action now
      = (true, setItem store (rateKey action) { count := 1, timestamp := now }) := by
  have hcases : resetWindow action { count := 0, timestamp := 0 } now = { count := 0, timestamp := 0 }
      ∨ resetWindow action { count := 0, timestamp := 0 } now = { count := 0, timestamp := now } := by
    unfold resetWindow
    dsimp only
    split_ifs <;> simp
  rcases hcases with hc | hc
  · rw [checkRateLimit_of_data store action now ⟨0, 0⟩ (by rw [h]; exact hc)]
    simp [reachedLimit_zero]
  · rw [checkRateLimit_of_data store action now ⟨0, now⟩ (by rw [h]; exact hc)]
    simp [reachedLimit_zero]

/-- For an action key that names an hourly or a daily window of length `W`
and any stored record: when `now` minus the stored window start exceeds `W`, the call
returns `true` and stores a count of 1 with window start `now`; when it does not, no
reset happens, and the call either is denied and leaves the store alone or is allowed and
stores the count plus one with the same window start, provided that start is not `0`. -/
theorem checkRateLimit_window (store : RateStore) (action : Str) (now W : Nat) (d : RateData)
    (hW : windowLength action = some W) (hd : store (rateKey action) = some d) :
    ((W : Int) < now - d.timestamp →
      checkRateLimit store action now
        = (true, setItem store (rateKey action) { count := 1, timestamp := now })) ∧
    (¬ (W : Int) < now - d.timestamp →
      resetWindow action d now = d ∧
      (d.timestamp ≠ 0 →
        checkRateLimit store action now =
          if reachedLimit d.count action then (false, store)
          else (true, setItem store (rateKey action)
            { count := d.count + 1, timestamp := d.timestamp }))) := by
  constructor
  · intro h
    have hr := resetWindow_of_elapsed action d now W hW h
    rw [checkRateLimit_of_data store action now ⟨0, now⟩ (by rw [hd]; exact hr)]
    simp [reachedLimit_zero]
  · intro h
    have hr : resetWindow action d now = d := by
      apply resetWindow_eq_self
      intro W2 hW2
      rw [hW] at hW2
      simp only [Option.some.injEq] at hW2
      subst hW2
      omega
    refine ⟨hr, fun hts => ?_⟩
    rw [checkRateLimit_of_data store action now d (by rw [hd]; exact hr)]
    simp [hts]

theorem checkRateLimit_window_witness :
    ((3600000 : Nat) : Int) < (5000000 : Nat) - (1000 : Int) ∧
    checkRateLimit (setItem emptyStore (rateKey "questions_hour".toList) ⟨50, 1000⟩)
        "questions_hour".toList 5000000
      = (true, setItem (setItem emptyStore (rateKey "questions_hour".toList) ⟨50, 1000⟩)
          (rateKey "questions_hour".toList) { count := 1, timestamp := (5000000 : Nat) }) :=
  ⟨by decide,
   (checkRateLimit_window (setItem emptyStore (rateKey "questions_hour".toList) ⟨50, 1000⟩)
      "questions_hour".toList 5000000 3600000 ⟨50, 1000⟩ (by decide) (by decide)).1 (by decide)⟩

/-- A record the function never writes: with `count 3, timestamp 0` stored for
`questions_hour` and the clock at 1000, the window has not elapsed, yet the allowed call
replaces the stored window start `0` by 1000. -/
theorem checkRateLimit_window_start_replaced :
    windowLength "questions_hour".toList = some 3600000 ∧
    ¬ ((3600000 : Int) < 1000 - 0) ∧
    (checkRateLimit (setItem emptyStore (rateKey "questions_hour".toList) ⟨3, 0⟩)
        "questions_hour".toList 1000).1 = true ∧
    (checkRateLimit (setItem emptyStore (rateKey "questions_hour".toList) ⟨3, 0⟩)
        "questions_hour".toList 1000).2 (rateKey "questions_hour".toList)
      = some ⟨4, 1000⟩ := by
  decide

/-- Calls within one window, for an action whose ceiling the configuration decides:
from a record with count `k` and a window start not before `lo`, the `i`-th further call
(counted from 0) is allowed exactly when `k + i` is below the ceiling. -/
theorem checkRateLimitAll_from (action : Str) (hn : action ∉ objectPrototypeKeys) (lo : Nat)
    (times : List Nat)
    (hwin : ∀ t ∈ times, ∀ W, windowLength action = some W → t ≤ lo + W) :
    ∀ (store : RateStore) (k : Nat) (s : Int),
      store (rateKey action) = some { count := k, timestamp := s } → (lo : Int) ≤ s →
      (checkRateLimitAll store action times).1
        = (List.range times.length).map fun i => decide (k + i < ceilingOf action) := by
  induction times with
  | nil => intro store k s _ _; rfl
  | cons t rest ih =>
    intro store k s hs hlo
    have hr : resetWindow action { count := k, timestamp := s } t
        = { count := k, timestamp := s } := by
      apply resetWindow_eq_self
      intro W hW
      have := hwin t (List.mem_cons_self _ _) W hW
      show ¬ s < (t : Int) - W
      omega
    have hstep := checkRateLimit_of_data store action t { count := k, timestamp := s }
      (by rw [hs]; exact hr)
    have hrest : ∀ t2 ∈ rest, ∀ W, windowLength action = some W → t2 ≤ lo + W :=
      fun t2 ht2 => hwin t2 (List.mem_cons_of_mem _ ht2)
    rw [reachedLimit_of_not_inherited action _ hn] at hstep
    simp only [checkRateLimitAll, List.length_cons, List.range_succ_eq_map, List.map_cons,
      List.map_map]
    by_cases hk : k < ceilingOf action
    · have hk2 : ¬ ((ceilingOf action : Int) ≤ (k : Int)) := by omega
      simp only [hk2, decide_False, Bool.false_eq_true, if_false] at hstep
      rw [hstep]
      have hnew : setItem store (rateKey action)
          { count := (k : Int) + 1, timestamp := if s ≠ 0 then s else (t : Int) }
          (rateKey action)
          = some { count := ((k + 1 : Nat) : Int), timestamp := if s ≠ 0 then s else (t : Int) } := by
        simp [setItem]
      have hlo2 : (lo : Int) ≤ if s ≠ 0 then s else (t : Int) := by
        split_ifs with h0
        · exact hlo
        · push_neg at h0
          omega
      rw [ih hrest _ (k + 1) _ hnew hlo2]
      simp only [add_zero, hk, decide_True, List.cons.injEq, true_and]
      apply List.map_congr_left
      intro i _
      simp only [Function.comp, Nat.succ_eq_add_one]
      congr 1
      apply propext
      omega
    · have hk2 : (ceilingOf action : Int) ≤ (k : Int) := by omega
      simp only [hk2, decide_True, if_true] at hstep
      rw [hstep]
      rw [ih hrest store k s hs hlo]
      simp only [add_zero, hk, decide_False, List.cons.injEq, true_and]
      apply List.map_congr_left
      intro i _
      simp only [Function.comp, Nat.succ_eq_add_one]
      congr 1
      apply propext
      omega

/-- For an action whose ceiling the configuration decides (50, 20, 10, or the default
100), starting from no stored record and with every call made within one window of the
first, call number `i` (counted from 0) is allowed exactly when `i` is below the ceiling:
the first `c` calls return `true` and the calls after them return `false`. -/
theorem checkRateLimitAll_ceiling (action : Str) (hn : action ∉ objectPrototypeKeys)
    (first : Nat) (rest : List Nat)
    (hwin : ∀ t ∈ rest, ∀ W, windowLength action = some W → t ≤ first + W) :
    (checkRateLimitAll emptyStore action (first :: rest)).1
      = (List.range (rest.length + 1)).map fun i => decide (i < ceilingOf action) := by
  have h1 := checkRateLimit_first emptyStore action first rfl
  simp only [checkRateLimitAll, h1, List.range_succ_eq_map, List.map_cons, List.map_map]
  have hnew : setItem emptyStore (rateKey action) { count := 1, timestamp := (first : Int) }
      (rateKey action) = some { count := ((1 : Nat) : Int), timestamp := (first : Int) } := by
    simp [setItem]
  rw [checkRateLimitAll_from action hn first rest hwin _ 1 _ hnew
    (le_refl _)]
  have hc := ceilingOf_pos action
  simp only [hc, decide_True, List.cons.injEq, true_and]
  apply List.map_congr_left
  intro i _
  simp only [Function.comp, Nat.succ_eq_add_one]
  congr 1
  apply propext
  omega

/-- For an action named like a property inherited from `Object.prototype`, every call
is allowed. -/
theorem checkRateLimitAll_of_inherited (action : Str) (h : action ∈ objectPrototypeKeys)
    (times : List Nat) :
    ∀ store : RateStore,
      (checkRateLimitAll store action times).1 = List.replicate times.length true := by
  induction times with
  | nil => intro store; rfl
  | cons t rest ih =>
    intro store
    have h1 : (checkRateLimit store action t).1 = true := by
      unfold checkRateLimit
      dsimp only
      rw [reachedLimit_of_inherited action _ h]
      simp
    simp only [checkRateLimitAll, h1, ih, List.length_cons, List.replicate_succ]

/-- Outside the keys the callers pass: for the action key `constructor`, which names a
property inherited from `Object.prototype`, all of 101 calls made at the same instant
from no stored record return `true`. -/
theorem checkRateLimit_constructor_not_denied :
    (checkRateLimitAll emptyStore "constructor".toList (List.replicate 101 1700000000000)).1
      = List.replicate 101 true := by
  have h := checkRateLimitAll_of_inherited "constructor".toList (by decide)
    (List.replicate 101 1700000000000) emptyStore
  rw [List.length_replicate] at h
  exact h

theorem resetWindow_count_le (action : Str) (d : RateData) (now : Nat) (c : Int)
    (hc : 0 ≤ c) (h : d.count ≤ c) : (resetWindow action d now).count ≤ c := by
  unfold resetWindow
  dsimp only
  split_ifs <;> simp [hc, h]

/-- For an action whose ceiling the configuration decides: a call returns `true` exactly
when the count it observes after the window-reset check is below the ceiling, and a
stored count that does not exceed the ceiling before the call does not exceed it after. -/
theorem checkRateLimit_count_le_ceiling (action : Str) (hn : action ∉ objectPrototypeKeys)
    (store : RateStore) (now : Nat)
    (h : ∀ d, store (rateKey action) = some d → d.count ≤ ceilingOf action) :
    ((checkRateLimit store action now).1 = true ↔
      (resetWindow action ((store (rateKey action)).getD { count := 0, timestamp := 0 })
        now).count < ceilingOf action) ∧
    (∀ d, (checkRateLimit store action now).2 (rateKey action) = some d →
      d.count ≤ ceilingOf action) := by
  have hpos := ceilingOf_pos action
  have hle : (resetWindow action ((store (rateKey action)).getD { count := 0, timestamp := 0 })
      now).count ≤ ceilingOf action := by
    apply resetWindow_count_le _ _ _ _ (by omega)
    cases hs : store (rateKey action) with
    | none => simp
    | some d => simpa using h d hs
  rw [checkRateLimit_of_data store action now _ rfl, reachedLimit_of_not_inherited action _ hn]
  by_cases hlt : (resetWindow action ((store (rateKey action)).getD { count := 0, timestamp := 0 })
      now).count < ceilingOf action
  · have hnot : ¬ ((ceilingOf action : Int) ≤ (resetWindow action
        ((store (rateKey action)).getD { count := 0, timestamp := 0 }) now).count) := by omega
    simp only [hnot, decide_False, Bool.false_eq_true, if_false, hlt, iff_true, true_and]
    intro d hd
    simp only [setItem, if_true, Option.some.injEq] at hd
    subst hd
    show _ + 1 ≤ _
    omega
  · have hyes : (ceilingOf action : Int) ≤ (resetWindow action
        ((store (rateKey action)).getD { count := 0, timestamp := 0 }) now).count := by omega
    simp only [hyes, decide_True, if_true, hlt, iff_false, Bool.false_eq_true, not_false_eq_true,
      true_and]
    exact h

/-- For an action whose ceiling the configuration decides, after any sequence of calls at
any times the stored count does not exceed the ceiling if it did not before. -/
theorem checkRateLimitAll_count_le_ceiling (action : Str) (hn : action ∉ objectPrototypeKeys)
    (times : List Nat) :
    ∀ store : RateStore,
      (∀ d, store (rateKey action) = some d → d.count ≤ ceilingOf action) →
      ∀ d, (checkRateLimitAll store action times).2 (rateKey action) = some d →
        d.count ≤ ceilingOf action := by
  induction times with
  | nil => intro store h; exact h
  | cons t rest ih =>
    intro store h
    exact ih _ (checkRateLimit_count_le_ceiling action hn store t h).2

set_option maxRecDepth 100000 in
/-- Outside the keys the callers pass: for the action key `constructor`, 101 calls from
no stored record leave a stored count of 101. -/
theorem checkRateLimit_constructor_count_exceeds :
    (checkRateLimitAll emptyStore "constructor".toList (List.replicate 101 1700000000000)).2
        (rateKey "constructor".toList)
      = some { count := 101, timestamp := 1700000000000 } ∧
    ceilingOf "constructor".toList = 100 := by
  decide

/-! ## Properties of the lockout -/

theorem isLockedOut_of_clear (n : Int) (now : Nat) :
    isLockedOut { attemptCount := n, lockoutTime := none, storedLockout := none } now
      = (false, { attemptCount := n, lockoutTime := none, storedLockout := none }) := by
  simp [isLockedOut, truthy]

theorem consecutiveFailures_append (es : List Submission) (e : Submission) :
    consecutiveFailures (es ++ [e])
      = if e.succeeds then 0
        else if e.fails then consecutiveFailures es + 1 else consecutiveFailures es := by
  simp [consecutiveFailures, List.foldl_append]

theorem submitAll_append (s : GuardState) (es : List Submission) (e : Submission) :
    submitAll s (es ++ [e]) = submit (submitAll s es) e := by
  simp [submitAll, List.foldl_append]

theorem validatePin_nil : validatePin [] = none := by
  decide

/-- One submission from a state without lockout whose counter is below the maximum. -/
theorem submit_of_clear (n : Nat) (e : Submission) :
    submit { attemptCount := n, lockoutTime := none, storedLockout := none } e
      = if e.succeeds then { attemptCount := 0, lockoutTime := none, storedLockout := none }
        else if e.fails then
          handleFailedAttempt
            { attemptCount := n, lockoutTime := none, storedLockout := none } e.later
        else { attemptCount := n, lockoutTime := none, storedLockout := none } := by
  unfold submit handleLogin
  rw [isLockedOut_of_clear]
  unfold Submission.succeeds Submission.fails
  by_cases hp : trim e.input = []
  · simp [hp, validatePin_nil]
  · cases hv : validatePin (trim e.input) with
    | none => simp [hp, hv]
    | some u => simp [hp, hv]

/-- As long as no three failed submissions have followed one another, the counter is the
number of failed submissions since the last successful one and no lockout is recorded. -/
theorem submitAll_of_no_lockout (es : List Submission)
    (h : ∀ k, consecutiveFailures (es.take k) < 3) :
    submitAll GuardState.init es
      = { attemptCount := consecutiveFailures es, lockoutTime := none, storedLockout := none } := by
  induction es using List.reverseRecOn with
  | nil => rfl
  | append_singleton es e ih =>
    have hpre : ∀ k, consecutiveFailures (es.take k) < 3 := by
      intro k
      by_cases hk : k ≤ es.length
      · have := h k
        rwa [List.take_append_of_le_length hk] at this
      · have := h es.length
        rw [List.take_append_of_le_length (le_refl _), List.take_length] at this
        rwa [List.take_of_length_le (by omega)]
    have hall := h (es ++ [e]).length
    rw [List.take_length, consecutiveFailures_append] at hall
    rw [submitAll_append, ih hpre, submit_of_clear, consecutiveFailures_append]
    by_cases hs : e.succeeds = true
    · simp [hs]
    · by_cases hf : e.fails = true
      · simp only [hs, hf, if_true, if_false, Bool.false_eq_true] at hall ⊢
        unfold handleFailedAttempt MAX_ATTEMPTS
        dsimp only
        rw [if_neg (by omega)]
        simp
      · simp [hs, hf]

/-- C10. Starting from zero attempts and no lockout, let `es` be submissions among which
no three failed ones have followed one another without a success between them, and let
`e` be the next submission. The counter after `e` is the number of failed submissions
since the last successful one (a success makes it 0) and the guard is not locked out
while that number is 1 or 2 (or 0); when `e` is the third failure in a row, the deadline
is the time of that failure plus 900000 ms and the guard is locked out exactly before
that deadline. -/
theorem lockout_after_three_consecutive_failures (es : List Submission) (e : Submission)
    (now : Nat) (h : ∀ k, consecutiveFailures (es.take k) < 3) :
    consecutiveFailures (es ++ [e]) ≤ 3 ∧
    (consecutiveFailures (es ++ [e]) < 3 →
      (submitAll GuardState.init (es ++ [e])).attemptCount = consecutiveFailures (es ++ [e]) ∧
      (isLockedOut (submitAll GuardState.init (es ++ [e])) now).1 = false) ∧
    (consecutiveFailures (es ++ [e]) = 3 →
      e.fails = true ∧
      (submitAll GuardState.init (es ++ [e])).attemptCount = 3 ∧
      (submitAll GuardState.init (es ++ [e])).lockoutTime = some ((e.later : Int) + 900000) ∧
      ((isLockedOut (submitAll GuardState.init (es ++ [e])) now).1 = true ↔
        now < e.later + 900000)) := by
  have hes := h es.length
  rw [List.take_length] at hes
  have hst := submitAll_of_no_lockout es h
  rw [submitAll_append, hst, submit_of_clear, consecutiveFailures_append]
  by_cases hs : e.succeeds = true
  · simp [hs, isLockedOut_of_clear]
  · by_cases hf : e.fails = true
    · simp only [hs, hf, if_true, if_false, Bool.false_eq_true]
      refine ⟨by omega, ?_, ?_⟩
      · intro hlt
        unfold handleFailedAttempt MAX_ATTEMPTS
        dsimp only
        rw [if_neg (by omega)]
        simp [isLockedOut_of_clear]
      · intro h3
        unfold handleFailedAttempt MAX_ATTEMPTS LOCKOUT_TIME
        dsimp only
        rw [if_pos (by omega)]
        refine ⟨trivial, by show (consecutiveFailures es : Int) + 1 = 3; omega,
          by norm_num, ?_⟩
        have hne : ((e.later : Int) + 15 * 60 * 1000) ≠ 0 := by omega
        simp only [isLockedOut, truthy, bne_iff_ne, ne_eq, hne, not_false_eq_true,
          decide_True, if_true, true_and]
        split_ifs with h1 h2
        · simp only [true_iff]
          omega
        · simp only [Bool.false_eq_true, false_iff]
          omega
        · exfalso
          omega
    · have hle : consecutiveFailures es ≤ 3 := by omega
      have hne : consecutiveFailures es ≠ 3 := by omega
      simp [hs, hf, isLockedOut_of_clear, hes, hle, hne]

theorem lockout_after_three_consecutive_failures_witness :
    (∀ k, consecutiveFailures
      (([⟨"1111".toList, 1000, 2000⟩, ⟨"2222".toList, 3000, 4000⟩] : List Submission).take k)
        < 3) ∧
    (submitAll GuardState.init
      ([⟨"1111".toList, 1000, 2000⟩, ⟨"2222".toList, 3000, 4000⟩]
        ++ [⟨"3333".toList, 5000, 6000⟩])).lockoutTime = some 906000 := by
  have hk : ∀ k, consecutiveFailures
      (([⟨"1111".toList, 1000, 2000⟩, ⟨"2222".toList, 3000, 4000⟩] : List Submission).take k)
        < 3 := by
    intro k
    match k with
    | 0 => decide
    | 1 => decide
    | k + 2 =>
      simp only [List.take_succ_cons, List.take_nil]
      decide
  exact ⟨hk, ((lockout_after_three_consecutive_failures _ ⟨"3333".toList, 5000, 6000⟩ 0 hk).2.2
    (by decide)).2.2.1⟩

/-! ## Properties of the string primitives -/

theorem lowerChar_of_whiteSpace (c : Char) (h : isWhiteSpace c = true) : lowerChar c = [c] := by
  unfold isWhiteSpace at h
  unfold lowerChar
  simp only [Bool.or_eq_true, beq_iff_eq, Bool.and_eq_true, decide_eq_true_eq] at h
  have h1 : ¬ (0x41 ≤ c.toNat ∧ c.toNat ≤ 0x5A) := by omega
  have h2 : ¬ c.toNat = 0x212A := by omega
  have h3 : ¬ c.toNat = 0x130 := by omega
  rw [if_neg h1, if_neg h2, if_neg h3]

theorem toLowerCase_of_whiteSpace (w : Str) (h : ∀ c ∈ w, isWhiteSpace c = true) :
    toLowerCase w = w := by
  induction w with
  | nil => rfl
  | cons c w ih =>
    have hc := lowerChar_of_whiteSpace c (h c (List.mem_cons_self _ _))
    have hw := ih fun x hx => h x (List.mem_cons_of_mem _ hx)
    unfold toLowerCase at hw ⊢
    rw [List.flatMap_cons, hc, hw]
    rfl

theorem toLowerCase_append (x y : Str) :
    toLowerCase (x ++ y) = toLowerCase x ++ toLowerCase y := by
  unfold toLowerCase
  exact List.flatMap_append x y lowerChar

theorem startsWith_append_whiteSpace (w : Str) (hw : ∀ c ∈ w, isWhiteSpace c = true) :
    ∀ (kw y : Str), (∀ k ∈ kw, isWhiteSpace k = false) →
      startsWith (y ++ w) kw = startsWith y kw := by
  intro kw
  induction kw with
  | nil => intro y _; cases y <;> cases w <;> rfl
  | cons k kw ih =>
    intro y hk
    cases y with
    | nil =>
      cases w with
      | nil => rfl
      | cons c w =>
        have h1 := hw c (List.mem_cons_self _ _)
        have h2 := hk k (List.mem_cons_self _ _)
        have hne : c ≠ k := by
          intro hc
          rw [hc, h2] at h1
          exact Bool.noConfusion h1
        simp [startsWith, hne]
    | cons c y =>
      show (c == k && startsWith (y ++ w) kw) = (c == k && startsWith y kw)
      rw [ih y fun x hx => hk x (List.mem_cons_of_mem _ hx)]

/-- A keyword without white space occurs in a text exactly when it occurs in the text
with white space added in front and behind. -/
theorem includes_whiteSpace_around (kw : Str) (hne : kw ≠ [])
    (hk : ∀ k ∈ kw, isWhiteSpace k = false) (w1 w2 : Str)
    (h1 : ∀ c ∈ w1, isWhiteSpace c = true) (h2 : ∀ c ∈ w2, isWhiteSpace c = true) (y : Str) :
    includes (w1 ++ (y ++ w2)) kw = includes y kw := by
  have hback : ∀ z : Str, includes (z ++ w2) kw = includes z kw := by
    intro z
    induction z with
    | nil =>
      induction w2 with
      | nil => rfl
      | cons c w ih =>
        cases kw with
        | nil => exact absurd rfl hne
        | cons k kw =>
          have hc := h2 c (List.mem_cons_self _ _)
          have hkk := hk k (List.mem_cons_self _ _)
          have hck : (c == k) = false := by
            rw [beq_eq_false_iff_ne]
            intro hc2
            rw [hc2, hkk] at hc
            exact Bool.noConfusion hc
          have ih2 := ih fun x hx => h2 x (List.mem_cons_of_mem _ hx)
          show (c == k && startsWith w kw || includes ([] ++ w) (k :: kw)) = includes [] (k :: kw)
          rw [hck, ih2]
          rfl
    | cons c z ih =>
      have hs := startsWith_append_whiteSpace w2 h2 kw (c :: z) hk
      simp only [List.cons_append] at hs ⊢
      simp only [includes, hs, ih]
  induction w1 with
  | nil => exact hback y
  | cons c w ih =>
    cases kw with
    | nil => exact absurd rfl hne
    | cons k kw =>
      have hc := h1 c (List.mem_cons_self _ _)
      have hkk := hk k (List.mem_cons_self _ _)
      have hck : (c == k) = false := by
        rw [beq_eq_false_iff_ne]
        intro hc2
        rw [hc2, hkk] at hc
        exact Bool.noConfusion hc
      have ih2 := ih fun x hx => h1 x (List.mem_cons_of_mem _ hx)
      show (c == k && startsWith (w ++ (y ++ w2)) kw || includes (w ++ (y ++ w2)) (k :: kw))
        = includes y (k :: kw)
      rw [hck, ih2]
      rfl

/-- A string is its trimmed form with white space in front and behind. -/
theorem trim_decompose (s : Str) :
    ∃ w1 w2 : Str, (∀ c ∈ w1, isWhiteSpace c = true) ∧ (∀ c ∈ w2, isWhiteSpace c = true) ∧
      s = w1 ++ (trim s ++ w2) := by
  refine ⟨s.takeWhile isWhiteSpace,
    ((s.dropWhile isWhiteSpace).reverse.takeWhile isWhiteSpace).reverse, ?_, ?_, ?_⟩
  · intro c hc
    exact List.mem_takeWhile_imp hc
  · intro c hc
    exact List.mem_takeWhile_imp (List.mem_reverse.mp hc)
  · unfold trim trimEnd trimStart
    rw [← List.reverse_append, List.takeWhile_append_dropWhile, List.reverse_reverse,
      List.takeWhile_append_dropWhile]

theorem includes_toLowerCase_trim (kw : Str) (hne : kw ≠ [])
    (hk : ∀ k ∈ kw, isWhiteSpace k = false) (s : Str) :
    includes (toLowerCase (trim s)) kw = includes (toLowerCase s) kw := by
  obtain ⟨w1, w2, h1, h2, hs⟩ := trim_decompose s
  conv_rhs => rw [hs]
  rw [toLowerCase_append, toLowerCase_append, toLowerCase_of_whiteSpace w1 h1,
    toLowerCase_of_whiteSpace w2 h2]
  exact (includes_whiteSpace_around kw hne hk w1 w2 h1 h2 _).symm

theorem trim_eq_nil_iff (s : Str) : trim s = [] ↔ ∀ c ∈ s, isWhiteSpace c = true := by
  constructor
  · intro h
    obtain ⟨w1, w2, h1, h2, hs⟩ := trim_decompose s
    rw [h] at hs
    intro c hc
    rw [hs] at hc
    simp only [List.nil_append, List.mem_append] at hc
    rcases hc with hc | hc
    · exact h1 c hc
    · exact h2 c hc
  · intro h
    unfold trim trimEnd trimStart
    rw [List.reverse_eq_nil_iff, List.dropWhile_eq_nil_iff]
    intro c hc
    exact h c ((List.dropWhile_sublist _).subset (List.mem_reverse.mp hc))

theorem nonBlank_eq_false_iff (s : Str) :
    nonBlank s = false ↔ ∀ c ∈ s, isWhiteSpace c = true := by
  unfold nonBlank
  rw [← trim_eq_nil_iff]
  cases trim s <;> simp

/-! ## Properties of formatSolution -/

theorem formatSolution_split (content : Str) (before after : List Str) (line : Str)
    (hsplit : splitLines content = before ++ line :: after) (hb : nonBlank line = true) :
    formatSolution content
      = ((after.filter nonBlank).foldl solutionLine
          (solutionLine ((before.filter nonBlank).foldl solutionLine SolutionState.init)
            line)).solution := by
  unfold formatSolution nonBlankLines
  rw [hsplit, List.filter_append, List.filter_cons_of_pos hb, List.foldl_append,
    List.foldl_cons]

/-- C1. For every raw text and every non-blank line of it that contains "step" and
"answer" (both case-insensitively), processing that line appends exactly one entry to
`steps`, numbered with the next step number, and leaves `answer` as it was; the result of
`formatSolution` is what the remaining lines make of that state. -/
theorem formatSolution_step_precedence (content : Str) (before after : List Str) (line : Str)
    (hsplit : splitLines content = before ++ line :: after)
    (hb : nonBlank line = true)
    (hs : includes (toLowerCase line) "step".toList = true)
    (_ha : includes (toLowerCase line) "answer".toList = true) :
    (solutionLine ((before.filter nonBlank).foldl solutionLine SolutionState.init)
        line).solution.steps
      = ((before.filter nonBlank).foldl solutionLine SolutionState.init).solution.steps ++
          [{ number :=
               ((before.filter nonBlank).foldl solutionLine SolutionState.init).stepCounter + 1
             description := stripStepLabel (stripNumberDot (trim line)) }] ∧
    (solutionLine ((before.filter nonBlank).foldl solutionLine SolutionState.init)
        line).solution.answer
      = ((before.filter nonBlank).foldl solutionLine SolutionState.init).solution.answer ∧
    formatSolution content
      = ((after.filter nonBlank).foldl solutionLine
          (solutionLine ((before.filter nonBlank).foldl solutionLine SolutionState.init)
            line)).solution := by
  have hstep : isStepLine (trim line) = true := by
    unfold isStepLine
    rw [includes_toLowerCase_trim "step".toList (by decide) (by decide) line, hs]
    rfl
  refine ⟨?_, ?_, formatSolution_split content before after line hsplit hb⟩
  · unfold solutionLine
    dsimp only
    rw [if_pos hstep]
  · unfold solutionLine
    dsimp only
    rw [if_pos hstep]

theorem formatSolution_step_precedence_witness :
    (solutionLine ((["Answer: 3".toList].filter nonBlank).foldl solutionLine SolutionState.init)
        "Step 2: the answer is 4".toList).solution.answer
      = ((["Answer: 3".toList].filter nonBlank).foldl solutionLine
          SolutionState.init).solution.answer :=
  (formatSolution_step_precedence "Answer: 3\nStep 2: the answer is 4".toList
    ["Answer: 3".toList] [] "Step 2: the answer is 4".toList (by decide) (by decide) (by decide)
    (by decide)).2.1

/-! ## Every parser returns a record -/

theorem piecesWithin_consHead (c : Char) (pieces : List Str) (s : Str)
    (h : PiecesWithin pieces s) : PiecesWithin (consHead c pieces) (c :: s) := by
  intro l hl x hx
  cases pieces with
  | nil =>
    simp only [consHead, List.mem_singleton] at hl
    subst hl
    simp only [List.mem_singleton] at hx
    subst hx
    exact List.mem_cons_self _ _
  | cons p ps =>
    simp only [consHead, List.mem_cons] at hl
    rcases hl with hl | hl
    · subst hl
      simp only [List.mem_cons] at hx
      rcases hx with hx | hx
      · subst hx
        exact List.mem_cons_self _ _
      · exact List.mem_cons_of_mem _ (h p (List.mem_cons_self _ _) x hx)
    · exact List.mem_cons_of_mem _ (h l (List.mem_cons_of_mem _ hl) x hx)

theorem piecesWithin_cons_nil (c : Char) (pieces : List Str) (s : Str)
    (h : PiecesWithin pieces s) : PiecesWithin ([] :: pieces) (c :: s) := by
  intro l hl x hx
  simp only [List.mem_cons] at hl
  rcases hl with hl | hl
  · subst hl
    exact absurd hx (List.not_mem_nil _)
  · exact List.mem_cons_of_mem _ (h l hl x hx)

theorem piecesWithin_tail (c : Char) (pieces : List Str) (s : Str)
    (h : PiecesWithin pieces s) : PiecesWithin pieces (c :: s) :=
  fun l hl x hx => List.mem_cons_of_mem _ (h l hl x hx)

theorem splitLines_within (s : Str) : PiecesWithin (splitLines s) s := by
  induction s with
  | nil =>
    intro l hl x hx
    simp only [splitLines, List.mem_singleton] at hl
    subst hl
    exact hx
  | cons c s ih =>
    unfold splitLines
    split_ifs
    · exact piecesWithin_cons_nil c _ s ih
    · exact piecesWithin_consHead c _ s ih

theorem splitParagraphs_within : ∀ s : Str, PiecesWithin (splitParagraphs s) s
  | [] => by
    intro l hl x hx
    simp only [splitParagraphs, List.mem_singleton] at hl
    subst hl
    exact hx
  | [c] => by
    intro l hl x hx
    simp only [splitParagraphs, List.mem_singleton] at hl
    subst hl
    exact hx
  | c :: d :: s => by
    unfold splitParagraphs
    split_ifs
    · exact piecesWithin_cons_nil c _ _ (piecesWithin_tail d _ _ (splitParagraphs_within s))
    · exact piecesWithin_consHead c _ _ (splitParagraphs_within (d :: s))

theorem splitMarkers_within (s : Str) : ∀ skip : Nat, PiecesWithin (splitMarkers skip s) s := by
  induction s with
  | nil =>
    intro skip l hl x hx
    cases skip <;>
    · simp only [splitMarkers, List.mem_singleton] at hl
      subst hl
      exact hx
  | cons c s ih =>
    intro skip
    cases skip with
    | succ k => exact piecesWithin_tail c _ s (ih k)
    | zero =>
      unfold splitMarkers
      split
      · exact piecesWithin_cons_nil c _ s (ih _)
      · exact piecesWithin_consHead c _ s (ih 0)

theorem filter_nonBlank_of_blank (pieces : List Str) (s : Str) (h : PiecesWithin pieces s)
    (hs : nonBlank s = false) : pieces.filter nonBlank = [] := by
  rw [List.filter_eq_nil_iff]
  intro l hl
  have hws := (nonBlank_eq_false_iff s).mp hs
  have : nonBlank l = false := (nonBlank_eq_false_iff l).mpr fun x hx => hws x (h l hl x hx)
  simp [this]

theorem splitLines_ne_nil (s : Str) : splitLines s ≠ [] := by
  cases s with
  | nil => simp [splitLines]
  | cons c s =>
    unfold splitLines
    split_ifs
    · simp
    · cases splitLines s <;> simp [consHead]

theorem extractSectionTitle_isSome (draws : Nat → Nat) (used : Nat) (sec : Str) :
    ∃ r, extractSectionTitle draws used sec = some r := by
  unfold extractSectionTitle
  cases h : splitLines sec with
  | nil => exact absurd h (splitLines_ne_nil sec)
  | cons l ls =>
    simp only [List.head?_cons]
    split_ifs
    · exact ⟨_, rfl⟩
    · exact ⟨_, rfl⟩

theorem noteSections_isSome (draws : Nat → Nat) (secs : List Str) :
    ∀ used index : Nat, ∃ r, noteSections draws used index secs = some r := by
  induction secs with
  | nil => intro used index; exact ⟨[], rfl⟩
  | cons sec rest ih =>
    intro used index
    obtain ⟨⟨title, used1⟩, ht⟩ := extractSectionTitle_isSome draws used sec
    obtain ⟨more, hm⟩ := ih used1 (index + 1)
    refine ⟨⟨"section_".toList ++ (Nat.repr index).toList, title, sec,
      determineSectionType sec⟩ :: more, ?_⟩
    simp only [noteSections, ht, hm]

theorem formatNotes_isSome (draws : Nat → Nat) (content : Str) :
    ∃ notes, formatNotes draws content = some notes := by
  unfold formatNotes
  dsimp only
  obtain ⟨secs, hs⟩ := noteSections_isSome draws
    (((splitParagraphs content).filter nonBlank).drop 1) 0 0
  rw [hs]
  exact ⟨_, rfl⟩

/-- Lines that match none of the four rules leave the four lists and strings they fill
untouched. -/
theorem foldl_solutionLine_of_no_match (lines : List Str)
    (h : ∀ l ∈ lines, isStepLine (trim l) = false ∧ isAnswerLine (trim l) = false ∧
      isConceptLine (trim l) = false ∧ isTipLine (trim l) = false) :
    ∀ st : SolutionState,
      (lines.foldl solutionLine st).solution.steps = st.solution.steps ∧
      (lines.foldl solutionLine st).solution.answer = st.solution.answer ∧
      (lines.foldl solutionLine st).solution.concepts = st.solution.concepts ∧
      (lines.foldl solutionLine st).solution.tips = st.solution.tips := by
  induction lines with
  | nil => intro st; exact ⟨rfl, rfl, rfl, rfl⟩
  | cons l ls ih =>
    intro st
    obtain ⟨h1, h2, h3, h4⟩ := h l (List.mem_cons_self _ _)
    have hone : (solutionLine st l).solution.steps = st.solution.steps ∧
        (solutionLine st l).solution.answer = st.solution.answer ∧
        (solutionLine st l).solution.concepts = st.solution.concepts ∧
        (solutionLine st l).solution.tips = st.solution.tips := by
      unfold solutionLine
      dsimp only
      rw [h1, h2, h3, h4]
      simp only [Bool.false_eq_true, if_false]
      split_ifs <;> exact ⟨rfl, rfl, rfl, rfl⟩
    obtain ⟨i1, i2, i3, i4⟩ := ih (fun x hx => h x (List.mem_cons_of_mem _ hx))
      (solutionLine st l)
    rw [List.foldl_cons, i1, i2, i3, i4]
    exact hone

/-- Lines that start no branch leave an empty list of branches empty. -/
theorem foldl_mindMapLine_of_no_branch (lines : List Str)
    (h : ∀ l ∈ lines, includes (trim l) [':'] = false ∧ startsWithNumberDot (trim l) = false) :
    lines.foldl mindMapLine [] = [] := by
  induction lines with
  | nil => rfl
  | cons l ls ih =>
    obtain ⟨h1, h2⟩ := h l (List.mem_cons_self _ _)
    have hone : mindMapLine [] l = [] := by
      unfold mindMapLine
      dsimp only
      rw [h1, h2]
      rfl
    rw [List.foldl_cons, hone]
    exact ih fun x hx => h x (List.mem_cons_of_mem _ hx)

/-- C3. For every input string, `formatNotes` returns a record (the only access that
could raise, `lines[0].trim()`, always finds a first line), and so do the three parsers
without such an access. Where nothing matched the fields are empty: lines matching none
of the four rules leave `steps`, `answer`, `concepts` and `tips` empty; without a branch
line `branches` is empty; without a question section `questions` is empty; and for a
text without any non-blank character every parser returns its default record. -/
theorem parsers_return_records (draws : Nat → Nat) (content : Str) :
    (∃ notes, formatNotes draws content = some notes) ∧
    ((∀ l ∈ nonBlankLines content, isStepLine (trim l) = false ∧ isAnswerLine (trim l) = false ∧
        isConceptLine (trim l) = false ∧ isTipLine (trim l) = false) →
      (formatSolution content).steps = [] ∧ (formatSolution content).answer = [] ∧
      (formatSolution content).concepts = [] ∧ (formatSolution content).tips = []) ∧
    ((∀ l ∈ nonBlankLines content,
        includes (trim l) [':'] = false ∧ startsWithNumberDot (trim l) = false) →
      generateMindMapData content = { central := "Topic".toList, branches := [] }) ∧
    (((splitMarkers 0 content).filter nonBlank).length ≤ 1 →
      parseQuizContent content = { questions := [], totalQuestions := 0, timeLimit := 0 }) ∧
    (nonBlank content = false →
      formatSolution content
        = { understanding := [], steps := [], answer := [], concepts := [], tips := [] } ∧
      generateMindMapData content = { central := "Topic".toList, branches := [] } ∧
      parseQuizContent content = { questions := [], totalQuestions := 0, timeLimit := 0 } ∧
      formatNotes draws content = some { title := "Study Notes".toList, sections := [] }) := by
  refine ⟨formatNotes_isSome draws content, ?_, ?_, ?_, ?_⟩
  · intro h
    exact foldl_solutionLine_of_no_match _ h SolutionState.init
  · intro h
    unfold generateMindMapData
    rw [foldl_mindMapLine_of_no_branch _ h]
  · intro h
    unfold parseQuizContent
    dsimp only
    have hq : quizSections 0 ((splitMarkers 0 content).filter nonBlank) = [] := by
      cases hsec : (splitMarkers 0 content).filter nonBlank with
      | nil => rfl
      | cons a rest =>
        cases rest with
        | nil => simp [quizSections]
        | cons b rest2 =>
          rw [hsec] at h
          simp at h
    rw [hq]
    rfl
  · intro hb
    have h1 : nonBlankLines content = [] :=
      filter_nonBlank_of_blank _ content (splitLines_within content) hb
    have h2 : (splitMarkers 0 content).filter nonBlank = [] :=
      filter_nonBlank_of_blank _ content (splitMarkers_within content 0) hb
    have h3 : (splitParagraphs content).filter nonBlank = [] :=
      filter_nonBlank_of_blank _ content (splitParagraphs_within content) hb
    refine ⟨?_, ?_, ?_, ?_⟩
    · unfold formatSolution
      rw [h1]
      rfl
    · unfold generateMindMapData
      rw [h1]
      rfl
    · unfold parseQuizContent
      dsimp only
      rw [h2]
      rfl
    · unfold formatNotes
      dsimp only
      rw [h3]
      rfl

theorem parsers_return_records_witness :
    ((formatSolution "hello world".toList).steps = [] ∧
      (formatSolution "hello world".toList).answer = [] ∧
      (formatSolution "hello world".toList).concepts = [] ∧
      (formatSolution "hello world".toList).tips = []) ∧
    generateMindMapData "hello world".toList = { central := "Topic".toList, branches := [] } ∧
    parseQuizContent "hello world".toList
      = { questions := [], totalQuestions := 0, timeLimit := 0 } ∧
    formatNotes (fun _ => 0) " \n ".toList
      = some { title := "Study Notes".toList, sections := [] } :=
  ⟨(parsers_return_records (fun _ => 0) "hello world".toList).2.1 (by decide),
   (parsers_return_records (fun _ => 0) "hello world".toList).2.2.1 (by decide),
   (parsers_return_records (fun _ => 0) "hello world".toList).2.2.2.1 (by decide),
   ((parsers_return_records (fun _ => 0) " \n ".toList).2.2.2.2 (by decide)).2.2.2⟩

/-! ## What the parsers depend on -/

theorem extractSectionTitle_of_hasOwnTitle (d1 d2 : Nat → Nat) (used : Nat) (sec : Str)
    (h : hasOwnTitle sec = true) :
    extractSectionTitle d1 used sec = extractSectionTitle d2 used sec ∧
    ∃ title, extractSectionTitle d1 used sec = some (title, used) := by
  unfold hasOwnTitle at h
  unfold extractSectionTitle
  cases hl : (splitLines sec).head? with
  | none => rw [hl] at h; exact Bool.noConfusion h
  | some l =>
    rw [hl] at h
    dsimp only at h ⊢
    rw [if_pos h, if_pos h]
    exact ⟨rfl, _, rfl⟩

theorem noteSections_of_hasOwnTitle (d1 d2 : Nat → Nat) (secs : List Str)
    (h : ∀ sec ∈ secs, hasOwnTitle sec = true) :
    ∀ used index : Nat, noteSections d1 used index secs = noteSections d2 used index secs := by
  induction secs with
  | nil => intro used index; rfl
  | cons sec rest ih =>
    intro used index
    obtain ⟨heq, title, ht⟩ :=
      extractSectionTitle_of_hasOwnTitle d1 d2 used sec (h sec (List.mem_cons_self _ _))
    have ht2 : extractSectionTitle d2 used sec = some (title, used) := by rw [← heq, ht]
    simp only [noteSections, ht, ht2, ih (fun x hx => h x (List.mem_cons_of_mem _ hx))]

theorem extractSectionTitle_congr (d1 d2 : Nat → Nat) (hd : ∀ k, d1 k % 100 = d2 k % 100)
    (used : Nat) (sec : Str) :
    extractSectionTitle d1 used sec = extractSectionTitle d2 used sec := by
  unfold extractSectionTitle
  rw [hd used]

theorem noteSections_congr (d1 d2 : Nat → Nat) (hd : ∀ k, d1 k % 100 = d2 k % 100)
    (secs : List Str) :
    ∀ used index : Nat, noteSections d1 used index secs = noteSections d2 used index secs := by
  induction secs with
  | nil => intro used index; rfl
  | cons sec rest ih =>
    intro used index
    simp only [noteSections, extractSectionTitle_congr d1 d2 hd, ih]

/-- C4 (amended). The results of `formatSolution`, `parseQuizContent` and
`generateMindMapData` are functions of the raw text alone. The result of `formatNotes` is
a function of the raw text and of the random draws: two runs on the same text agree when
their draws agree, and they agree whatever the draws when the first line of every section
contains `:` or is shorter than 50 characters. -/
theorem parsers_depend_on_text (content : Str) (d1 d2 : Nat → Nat) :
    ((∀ sec ∈ ((splitParagraphs content).filter nonBlank).drop 1, hasOwnTitle sec = true) →
      formatNotes d1 content = formatNotes d2 content) ∧
    ((∀ k, d1 k % 100 = d2 k % 100) → formatNotes d1 content = formatNotes d2 content) ∧
    (∀ again : Str, again = content →
      formatSolution again = formatSolution content ∧
      parseQuizContent again = parseQuizContent content ∧
      generateMindMapData again = generateMindMapData content) := by
  refine ⟨?_, ?_, ?_⟩
  · intro h
    unfold formatNotes
    dsimp only
    rw [noteSections_of_hasOwnTitle d1 d2 _ h 0 0]
  · intro h
    unfold formatNotes
    dsimp only
    rw [noteSections_congr d1 d2 h _ 0 0]
  · intro again h
    subst h
    exact ⟨rfl, rfl, rfl⟩

theorem parsers_depend_on_text_witness :
    formatNotes (fun _ => 1) "Algebra\n\nIntro: terms\nmore\n\nA short line".toList
      = formatNotes (fun _ => 2) "Algebra\n\nIntro: terms\nmore\n\nA short line".toList :=
  (parsers_depend_on_text "Algebra\n\nIntro: terms\nmore\n\nA short line".toList
    (fun _ => 1) (fun _ => 2)).1 (by decide)

set_option maxRecDepth 100000 in
/-- C4 as stated fails for `formatNotes`: on a text whose second paragraph starts with a
line of 50 characters without `:`, a run that draws 1 and a run that draws 2 give the
section the titles `Section 1` and `Section 2`. -/
theorem formatNotes_depends_on_draw :
    formatNotes (fun _ => 1)
        "Algebra\n\naaaaaaaaaaaaaaaaaaaaaaaaaaaaaaaaaaaaaaaaaaaaaaaaaa".toList
      = some { title := "Algebra".toList
               sections := [{ id := "section_0".toList
                              title := "Section 1".toList
                              content := "aaaaaaaaaaaaaaaaaaaaaaaaaaaaaaaaaaaaaaaaaaaaaaaaaa".toList
                              type := "general".toList }] } ∧
    formatNotes (fun _ => 2)
        "Algebra\n\naaaaaaaaaaaaaaaaaaaaaaaaaaaaaaaaaaaaaaaaaaaaaaaaaa".toList
      = some { title := "Algebra".toList
               sections := [{ id := "section_0".toList
                              title := "Section 2".toList
                              content := "aaaaaaaaaaaaaaaaaaaaaaaaaaaaaaaaaaaaaaaaaaaaaaaaaa".toList
                              type := "general".toList }] } ∧
    formatNotes (fun _ => 1)
        "Algebra\n\naaaaaaaaaaaaaaaaaaaaaaaaaaaaaaaaaaaaaaaaaaaaaaaaaa".toList
      ≠ formatNotes (fun _ => 2)
        "Algebra\n\naaaaaaaaaaaaaaaaaaaaaaaaaaaaaaaaaaaaaaaaaaaaaaaaaa".toList := by
  decide

/-! ## parseQuizContent and the text before the first marker -/

set_option maxRecDepth 100000 in
/-- C5 (the code at the failing input). A text that starts with its first marker and has
two markers, each followed by a question line and its option, answer and explanation
lines, gives one question, the second, and a time limit of 2. -/
theorem parseQuizContent_without_preamble :
    parseQuizContent
        ("Question 1\nWhat is 2+2?\na) 3\nb) 4\nAnswer: b\nExplanation: sum\n" ++
         "Question 2\nWhat is 3+3?\na) 6\nb) 7\nAnswer: a\nExplanation: double").toList
      = { questions := [{ id := "q_1".toList
                          question := "What is 3+3?".toList
                          type := "mcq".toList
                          options := ["6".toList, "7".toList]
                          correctAnswer := "a".toList
                          explanation := "double".toList }]
          totalQuestions := 1
          timeLimit := 2 } := by
  decide

set_option maxRecDepth 100000 in
/-- The same two questions after one line of introduction give two questions and a time
limit of 4. -/
theorem parseQuizContent_with_preamble :
    (parseQuizContent
        ("Quiz\nQuestion 1\nWhat is 2+2?\na) 3\nb) 4\nAnswer: b\nExplanation: sum\n" ++
         "Question 2\nWhat is 3+3?\na) 6\nb) 7\nAnswer: a\nExplanation: double").toList).questions.length
      = 2 ∧
    (parseQuizContent
        ("Quiz\nQuestion 1\nWhat is 2+2?\na) 3\nb) 4\nAnswer: b\nExplanation: sum\n" ++
         "Question 2\nWhat is 3+3?\na) 6\nb) 7\nAnswer: a\nExplanation: double").toList).timeLimit
      = 4 := by
  decide

/-! ## The first end-to-end example, for every number of steps -/

theorem isDigit_digitChar (k : Nat) (h : k < 10) : isDigit (Nat.digitChar k) = true := by
  interval_cases k <;> decide

theorem toDigitsCore_digits (fuel : Nat) :
    ∀ (n : Nat) (ds : List Char), (∀ c ∈ ds, isDigit c = true) →
      ∀ c ∈ Nat.toDigitsCore 10 fuel n ds, isDigit c = true := by
  induction fuel with
  | zero => intro n ds h; simpa [Nat.toDigitsCore] using h
  | succ f ih =>
    intro n ds h
    have hd : ∀ c ∈ Nat.digitChar (n % 10) :: ds, isDigit c = true := by
      intro c hc
      rcases List.mem_cons.mp hc with hc | hc
      · rw [hc]
        exact isDigit_digitChar _ (Nat.mod_lt _ (by decide))
      · exact h c hc
    simp only [Nat.toDigitsCore]
    split_ifs
    · exact hd
    · exact ih _ _ hd

theorem toDigitsCore_ne_nil (fuel : Nat) :
    ∀ (n : Nat) (ds : List Char), (fuel ≠ 0 ∨ ds ≠ []) → Nat.toDigitsCore 10 fuel n ds ≠ [] := by
  induction fuel with
  | zero =>
    intro n ds h
    rcases h with h | h
    · exact absurd rfl h
    · simpa [Nat.toDigitsCore] using h
  | succ f ih =>
    intro n ds _
    simp only [Nat.toDigitsCore]
    split_ifs
    · exact List.cons_ne_nil _ _
    · exact ih _ _ (Or.inr (List.cons_ne_nil _ _))

theorem repr_digits (n : Nat) :
    (∀ c ∈ (Nat.repr n).toList, isDigit c = true) ∧ (Nat.repr n).toList ≠ [] := by
  have h : (Nat.repr n).toList = Nat.toDigitsCore 10 (n + 1) n [] := rfl
  rw [h]
  exact ⟨toDigitsCore_digits _ _ _ (fun c hc => absurd hc (List.not_mem_nil _)),
    toDigitsCore_ne_nil _ _ _ (Or.inl (Nat.succ_ne_zero _))⟩

theorem splitLines_single (l : Str) (h : '\n' ∉ l) : splitLines l = [l] := by
  induction l with
  | nil => rfl
  | cons c l ih =>
    have hc : c ≠ '\n' := fun hc => h (hc ▸ List.mem_cons_self _ _)
    have hl : '\n' ∉ l := fun hl => h (List.mem_cons_of_mem _ hl)
    simp only [splitLines, if_neg hc, ih hl, consHead]

theorem splitLines_append (l r : Str) (h : '\n' ∉ l) :
    splitLines (l ++ '\n' :: r) = l :: splitLines r := by
  induction l with
  | nil => simp [splitLines]
  | cons c l ih =>
    have hc : c ≠ '\n' := fun hc => h (hc ▸ List.mem_cons_self _ _)
    have hl : '\n' ∉ l := fun hl => h (List.mem_cons_of_mem _ hl)
    show splitLines (c :: (l ++ '\n' :: r)) = (c :: l) :: splitLines r
    rw [splitLines, if_neg hc, ih hl]
    rfl

theorem splitLines_joinLines : ∀ ls : List Str, ls ≠ [] → (∀ l ∈ ls, '\n' ∉ l) →
    splitLines (joinLines ls) = ls
  | [], h, _ => absurd rfl h
  | [l], _, h => splitLines_single l (h l (List.mem_cons_self _ _))
  | l :: m :: rest, _, h => by
    rw [joinLines, splitLines_append l _ (h l (List.mem_cons_self _ _)),
      splitLines_joinLines (m :: rest) (List.cons_ne_nil _ _)
        (fun x hx => h x (List.mem_cons_of_mem _ hx))]

theorem isWhiteSpace_of_isDigit (c : Char) (h : isDigit c = true) : isWhiteSpace c = false := by
  unfold isDigit at h
  unfold isWhiteSpace
  simp only [Bool.and_eq_true, decide_eq_true_eq] at h
  simp only [Bool.or_eq_false_iff, beq_eq_false_iff_ne, ne_eq, Bool.and_eq_false_imp,
    decide_eq_true_eq, decide_eq_false_iff_not]
  omega

theorem trimStart_cons (c : Char) (s : Str) (h : isWhiteSpace c = false) :
    trimStart (c :: s) = c :: s := by
  unfold trimStart
  rw [List.dropWhile_cons_of_neg (by simp [h])]

theorem trimEnd_append (p a : Str) (hne : a ≠ []) (h : trimEnd a = a) :
    trimEnd (p ++ a) = p ++ a := by
  have h1 : List.rdropWhile isWhiteSpace a = a := h
  show List.rdropWhile isWhiteSpace (p ++ a) = p ++ a
  rw [List.rdropWhile_eq_self_iff] at h1 ⊢
  intro hl
  rw [List.getLast_append_of_ne_nil hne]
  exact h1 hne

theorem trimEnd_blank (p : Str) : trimEnd (p ++ [' ']) = trimEnd p :=
  List.rdropWhile_concat_pos isWhiteSpace p ' ' (by decide)

theorem trimEnd_concat (p : Str) (c : Char) (h : isWhiteSpace c = false) :
    trimEnd (p ++ [c]) = p ++ [c] :=
  List.rdropWhile_concat_neg isWhiteSpace p c (by simp [h])

theorem nonBlank_cons (c : Char) (s : Str) (h : isWhiteSpace c = false) :
    nonBlank (c :: s) = true := by
  cases hb : nonBlank (c :: s) with
  | true => rfl
  | false =>
    have := (nonBlank_eq_false_iff _).mp hb c (List.mem_cons_self _ _)
    rw [h] at this
    exact Bool.noConfusion this

theorem stepText_parts (r tail : Str) (hr : ∀ c ∈ r, isDigit c = true) (hne : r ≠ []) :
    isStepLine ('S' :: 't' :: 'e' :: 'p' :: ' ' :: (r ++ ':' :: tail)) = true ∧
    stripStepLabel (stripNumberDot ('S' :: 't' :: 'e' :: 'p' :: ' ' :: (r ++ ':' :: tail)))
      = skipSpaces tail := by
  constructor
  · simp [isStepLine, toLowerCase, lowerChar, includes, startsWith]
  · have h1 : stripNumberDot ('S' :: 't' :: 'e' :: 'p' :: ' ' :: (r ++ ':' :: tail))
        = 'S' :: 't' :: 'e' :: 'p' :: ' ' :: (r ++ ':' :: tail) := by
      have : isDigit 'S' = false := by decide
      simp [stripNumberDot, startsWithNumberDot, this]
    rw [h1]
    have h2 : matchLiteralCI "step".toList ('S' :: 't' :: 'e' :: 'p' :: ' ' :: (r ++ ':' :: tail))
        = some (' ' :: (r ++ ':' :: tail)) := by
      have e1 : eqIgnoreCase 's' 'S' = true := by decide
      have e2 : eqIgnoreCase 't' 't' = true := by decide
      have e3 : eqIgnoreCase 'e' 'e' = true := by decide
      have e4 : eqIgnoreCase 'p' 'p' = true := by decide
      show matchLiteralCI ['s', 't', 'e', 'p'] _ = _
      simp only [matchLiteralCI, e1, e2, e3, e4, if_true]
    unfold stripStepLabel
    rw [h2]
    dsimp only
    have h3 : skipSpaces (' ' :: (r ++ ':' :: tail)) = r ++ ':' :: tail := by
      cases r with
      | nil => exact absurd rfl hne
      | cons c r =>
        have hc := isWhiteSpace_of_isDigit c (hr c (List.mem_cons_self _ _))
        unfold skipSpaces
        rw [List.dropWhile_cons_of_pos (by decide), List.cons_append,
          List.dropWhile_cons_of_neg (by simp [hc])]
    have h4 : skipDigits (r ++ ':' :: tail) = ':' :: tail := by
      unfold skipDigits
      rw [List.dropWhile_append_of_pos hr, List.dropWhile_cons_of_neg (by decide)]
    rw [h3, h4]
    rfl

theorem stepLine_result (i : Nat) (d : Str) (h1 : trimStart d = d) (h2 : trimEnd d = d) :
    isStepLine (trim (stepLine i d)) = true ∧
    stripStepLabel (stripNumberDot (trim (stepLine i d))) = d := by
  obtain ⟨hr, hne⟩ := repr_digits i
  have e : stepLine i d
      = 'S' :: 't' :: 'e' :: 'p' :: ' ' :: ((Nat.repr i).toList ++ (':' :: ' ' :: d)) := rfl
  by_cases hd : d = []
  · subst hd
    have ht : trim (stepLine i [])
        = 'S' :: 't' :: 'e' :: 'p' :: ' ' :: ((Nat.repr i).toList ++ ':' :: []) := by
      unfold trim
      rw [e, trimStart_cons _ _ (by decide)]
      have e2 : 'S' :: 't' :: 'e' :: 'p' :: ' ' :: ((Nat.repr i).toList ++ [':', ' '])
          = ('S' :: 't' :: 'e' :: 'p' :: ' ' :: ((Nat.repr i).toList ++ [':'])) ++ [' '] := by
        simp
      rw [e2, trimEnd_blank]
      have e3 : 'S' :: 't' :: 'e' :: 'p' :: ' ' :: ((Nat.repr i).toList ++ [':'])
          = ('S' :: 't' :: 'e' :: 'p' :: ' ' :: (Nat.repr i).toList) ++ [':'] := by
        simp
      rw [e3, trimEnd_concat _ _ (by decide)]
    rw [ht]
    exact stepText_parts _ [] hr hne
  · have ht : trim (stepLine i d) = stepLine i d := by
      unfold trim
      rw [e, trimStart_cons _ _ (by decide)]
      have e2 : 'S' :: 't' :: 'e' :: 'p' :: ' ' :: ((Nat.repr i).toList ++ (':' :: ' ' :: d))
          = ('S' :: 't' :: 'e' :: 'p' :: ' ' :: ((Nat.repr i).toList ++ [':', ' '])) ++ d := by
        simp
      rw [e2, trimEnd_append _ d hd h2]
    rw [ht, e]
    have := stepText_parts (Nat.repr i).toList (' ' :: d) hr hne
    refine ⟨this.1, ?_⟩
    rw [this.2]
    unfold skipSpaces
    rw [List.dropWhile_cons_of_pos (by decide)]
    exact h1

theorem answerLine_result (a : Str) (hne : a ≠ []) (h1 : trimStart a = a) (h2 : trimEnd a = a)
    (hs : includes (toLowerCase a) "step".toList = false) :
    trim ("Answer: ".toList ++ a) = "Answer: ".toList ++ a ∧
    isStepLine ("Answer: ".toList ++ a) = false ∧
    isAnswerLine ("Answer: ".toList ++ a) = true ∧
    stripAnswerLabel ("Answer: ".toList ++ a) = a := by
  have hlow : toLowerCase ("Answer: ".toList ++ a)
      = 'a' :: 'n' :: 's' :: 'w' :: 'e' :: 'r' :: ':' :: ' ' :: toLowerCase a := by
    rw [toLowerCase_append]
    rfl
  have e : "Answer: ".toList ++ a = 'A' :: 'n' :: 's' :: 'w' :: 'e' :: 'r' :: ':' :: ' ' :: a :=
    rfl
  refine ⟨?_, ?_, ?_, ?_⟩
  · unfold trim
    rw [e, trimStart_cons _ _ (by decide), ← e, trimEnd_append _ a hne h2]
  · unfold isStepLine
    rw [hlow]
    have hs2 : includes (toLowerCase a) ['s', 't', 'e', 'p'] = false := hs
    have hd : isDigit 'A' = false := by decide
    simp [includes, startsWith, hs2, e, startsWithNumberDot, hd]
  · unfold isAnswerLine
    rw [hlow]
    simp [includes, startsWith]
  · have hm : matchLiteralCI "answer".toList ("Answer: ".toList ++ a) = some (':' :: ' ' :: a) := by
      have e1 : eqIgnoreCase 'a' 'A' = true := by decide
      have e2 : eqIgnoreCase 'n' 'n' = true := by decide
      have e3 : eqIgnoreCase 's' 's' = true := by decide
      have e4 : eqIgnoreCase 'w' 'w' = true := by decide
      have e5 : eqIgnoreCase 'e' 'e' = true := by decide
      have e6 : eqIgnoreCase 'r' 'r' = true := by decide
      rw [e]
      show matchLiteralCI ['a', 'n', 's', 'w', 'e', 'r'] _ = _
      simp only [matchLiteralCI, e1, e2, e3, e4, e5, e6, if_true]
    unfold stripAnswerLabel
    rw [hm]
    dsimp only
    show skipSpaces (' ' :: a) = a
    unfold skipSpaces
    rw [List.dropWhile_cons_of_pos (by decide)]
    exact h1

theorem conceptLine_result (c : Str) (hne : c ≠ []) (h1 : trimStart c = c) (h2 : trimEnd c = c)
    (hs : includes (toLowerCase c) "step".toList = false)
    (ha : includes (toLowerCase c) "answer".toList = false)
    (hf : includes (toLowerCase c) "final".toList = false) :
    trim ("Key Concepts: ".toList ++ c) = "Key Concepts: ".toList ++ c ∧
    isStepLine ("Key Concepts: ".toList ++ c) = false ∧
    isAnswerLine ("Key Concepts: ".toList ++ c) = false ∧
    isConceptLine ("Key Concepts: ".toList ++ c) = true ∧
    stripConceptLabel ("Key Concepts: ".toList ++ c) = c := by
  have hlow : toLowerCase ("Key Concepts: ".toList ++ c)
      = 'k' :: 'e' :: 'y' :: ' ' :: 'c' :: 'o' :: 'n' :: 'c' :: 'e' :: 'p' :: 't' :: 's' :: ':' ::
          ' ' :: toLowerCase c := by
    rw [toLowerCase_append]
    rfl
  have e : "Key Concepts: ".toList ++ c
      = 'K' :: 'e' :: 'y' :: ' ' :: 'C' :: 'o' :: 'n' :: 'c' :: 'e' :: 'p' :: 't' :: 's' :: ':' ::
          ' ' :: c := rfl
  have hs2 : includes (toLowerCase c) ['s', 't', 'e', 'p'] = false := hs
  have ha2 : includes (toLowerCase c) ['a', 'n', 's', 'w', 'e', 'r'] = false := ha
  have hf2 : includes (toLowerCase c) ['f', 'i', 'n', 'a', 'l'] = false := hf
  refine ⟨?_, ?_, ?_, ?_, ?_⟩
  · unfold trim
    rw [e, trimStart_cons _ _ (by decide), ← e, trimEnd_append _ c hne h2]
  · unfold isStepLine
    rw [hlow]
    have hd : isDigit 'K' = false := by decide
    simp [includes, startsWith, hs2, e, startsWithNumberDot, hd]
  · unfold isAnswerLine
    rw [hlow]
    simp [includes, startsWith, ha2, hf2]
  · unfold isConceptLine
    rw [hlow]
    simp [includes, startsWith]
  · have hm1 : matchLiteralCI "concept".toList ("Key Concepts: ".toList ++ c) = none := by
      have e1 : eqIgnoreCase 'c' 'K' = false := by decide
      rw [e]
      show matchLiteralCI ['c', 'o', 'n', 'c', 'e', 'p', 't'] _ = _
      simp only [matchLiteralCI, e1, Bool.false_eq_true, if_false]
    have hm2 : matchLiteralCI "key concept".toList ("Key Concepts: ".toList ++ c)
        = some ('s' :: ':' :: ' ' :: c) := by
      have e1 : eqIgnoreCase 'k' 'K' = true := by decide
      have e2 : eqIgnoreCase 'e' 'e' = true := by decide
      have e3 : eqIgnoreCase 'y' 'y' = true := by decide
      have e4 : eqIgnoreCase ' ' ' ' = true := by decide
      have e5 : eqIgnoreCase 'c' 'C' = true := by decide
      have e6 : eqIgnoreCase 'o' 'o' = true := by decide
      have e7 : eqIgnoreCase 'n' 'n' = true := by decide
      have e8 : eqIgnoreCase 'c' 'c' = true := by decide
      have e9 : eqIgnoreCase 'p' 'p' = true := by decide
      have e10 : eqIgnoreCase 't' 't' = true := by decide
      rw [e]
      show matchLiteralCI ['k', 'e', 'y', ' ', 'c', 'o', 'n', 'c', 'e', 'p', 't'] _ = _
      simp only [matchLiteralCI, e1, e2, e3, e4, e5, e6, e7, e8, e9, e10, if_true]
    unfold stripConceptLabel
    rw [hm1]
    dsimp only
    rw [hm2]
    dsimp only
    have e11 : eqIgnoreCase 's' 's' = true := by decide
    show skipSpaces (skipColon (skipLetterS ('s' :: ':' :: ' ' :: c))) = c
    rw [skipLetterS, if_pos e11]
    show skipSpaces (' ' :: c) = c
    unfold skipSpaces
    rw [List.dropWhile_cons_of_pos (by decide)]
    exact h1

theorem solutionLine_stepLine (st : SolutionState) (i : Nat) (d : Str)
    (h1 : trimStart d = d) (h2 : trimEnd d = d) :
    solutionLine st (stepLine i d)
      = { solution := { st.solution with
            steps := st.solution.steps ++ [{ number := st.stepCounter + 1, description := d }] }
          currentSection := Section.steps
          stepCounter := st.stepCounter + 1 } := by
  obtain ⟨hstep, hdesc⟩ := stepLine_result i d h1 h2
  unfold solutionLine
  dsimp only
  rw [if_pos hstep, hdesc]

theorem solutionLine_answerLine (st : SolutionState) (a : Str) (hne : a ≠ [])
    (h1 : trimStart a = a) (h2 : trimEnd a = a)
    (hs : includes (toLowerCase a) "step".toList = false) :
    solutionLine st ("Answer: ".toList ++ a)
      = { st with
          solution := { st.solution with answer := a }
          currentSection := Section.answer } := by
  obtain ⟨ht, hstep, hans, hstrip⟩ := answerLine_result a hne h1 h2 hs
  unfold solutionLine
  dsimp only
  rw [ht, hstep, hans, hstrip]
  simp

theorem solutionLine_conceptLine (st : SolutionState) (c : Str) (hne : c ≠ [])
    (h1 : trimStart c = c) (h2 : trimEnd c = c)
    (hs : includes (toLowerCase c) "step".toList = false)
    (ha : includes (toLowerCase c) "answer".toList = false)
    (hf : includes (toLowerCase c) "final".toList = false) :
    solutionLine st ("Key Concepts: ".toList ++ c)
      = { st with
          solution := { st.solution with concepts := st.solution.concepts ++ [c] }
          currentSection := Section.concepts } := by
  obtain ⟨ht, hstep, hans, hcon, hstrip⟩ := conceptLine_result c hne h1 h2 hs ha hf
  unfold solutionLine
  dsimp only
  rw [ht, hstep, hans, hcon, hstrip]
  simp

theorem foldl_stepLines (ds : List Str)
    (h : ∀ d ∈ ds, trimStart d = d ∧ trimEnd d = d) :
    ∀ (k : Nat) (st : SolutionState),
      (stepLinesFrom k ds).foldl solutionLine st
        = { solution := { st.solution with
              steps := st.solution.steps ++ numberedFrom st.stepCounter ds }
            currentSection := if ds = [] then st.currentSection else Section.steps
            stepCounter := st.stepCounter + ds.length } := by
  induction ds with
  | nil => intro k st; simp [stepLinesFrom, numberedFrom]
  | cons d ds ih =>
    intro k st
    obtain ⟨h1, h2⟩ := h d (List.mem_cons_self _ _)
    rw [stepLinesFrom, List.foldl_cons, solutionLine_stepLine st (k + 1) d h1 h2,
      ih (fun x hx => h x (List.mem_cons_of_mem _ hx))]
    simp only [numberedFrom, List.append_assoc, List.singleton_append, List.length_cons,
      if_neg (List.cons_ne_nil _ _)]
    congr 1
    · split_ifs <;> rfl
    · omega

theorem stepLine_singleLine (i : Nat) (d : Str) (h : '\n' ∉ d) : '\n' ∉ stepLine i d := by
  obtain ⟨hr, _⟩ := repr_digits i
  intro hmem
  have e : stepLine i d
      = 'S' :: 't' :: 'e' :: 'p' :: ' ' :: ((Nat.repr i).toList ++ (':' :: ' ' :: d)) := rfl
  rw [e] at hmem
  simp only [List.mem_cons, List.mem_append] at hmem
  rcases hmem with hm | hm | hm | hm | hm | hm | hm | hm | hm
  · exact absurd hm (by decide)
  · exact absurd hm (by decide)
  · exact absurd hm (by decide)
  · exact absurd hm (by decide)
  · exact absurd hm (by decide)
  · have := hr _ hm
    exact absurd this (by decide)
  · exact absurd hm (by decide)
  · exact absurd hm (by decide)
  · exact h hm

theorem stepLinesFrom_lines (ds : List Str) (h : ∀ d ∈ ds, '\n' ∉ d) :
    ∀ k : Nat, ∀ l ∈ stepLinesFrom k ds, '\n' ∉ l ∧ nonBlank l = true := by
  induction ds with
  | nil => intro k l hl; exact absurd hl (List.not_mem_nil _)
  | cons d ds ih =>
    intro k l hl
    rw [stepLinesFrom] at hl
    rcases List.mem_cons.mp hl with hl | hl
    · subst hl
      exact ⟨stepLine_singleLine _ d (h d (List.mem_cons_self _ _)),
        nonBlank_cons 'S' _ (by decide)⟩
    · exact ih (fun x hx => h x (List.mem_cons_of_mem _ hx)) (k + 1) l hl

/-- C2 (amended). For every `n ≥ 0`, all descriptions `d_1..d_n` and all strings `a` and
`c`, each on one line and without leading or trailing white space, with `a` and `c` not
empty, `a` not containing "step" and `c` not containing "step", "answer" or "final" (in
any letter case), `formatSolution` applied to the text `Step 1: d_1`, ..., `Step n: d_n`,
`Answer: a`, `Key Concepts: c` returns the steps numbered 1 to `n` with the descriptions
in order, the answer `a`, the concepts `[c]`, no tips and an empty understanding. -/
theorem formatSolution_exampleText (ds : List Str) (a c : Str)
    (hds : ∀ d ∈ ds, '\n' ∉ d ∧ trimStart d = d ∧ trimEnd d = d)
    (ha : '\n' ∉ a ∧ trimStart a = a ∧ trimEnd a = a ∧ a ≠ [])
    (hc : '\n' ∉ c ∧ trimStart c = c ∧ trimEnd c = c ∧ c ≠ [])
    (has : includes (toLowerCase a) "step".toList = false)
    (hcs : includes (toLowerCase c) "step".toList = false)
    (hca : includes (toLowerCase c) "answer".toList = false)
    (hcf : includes (toLowerCase c) "final".toList = false) :
    formatSolution (exampleText ds a c)
      = { understanding := []
          steps := numberedFrom 0 ds
          answer := a
          concepts := [c]
          tips := [] } := by
  have hsteps := stepLinesFrom_lines ds (fun d hd => (hds d hd).1) 0
  have hA : '\n' ∉ "Answer: ".toList ++ a := by
    intro hm
    rcases List.mem_append.mp hm with hm | hm
    · exact absurd hm (by decide)
    · exact ha.1 hm
  have hC : '\n' ∉ "Key Concepts: ".toList ++ c := by
    intro hm
    rcases List.mem_append.mp hm with hm | hm
    · exact absurd hm (by decide)
    · exact hc.1 hm
  have hlines : nonBlankLines (exampleText ds a c)
      = stepLinesFrom 0 ds ++ ["Answer: ".toList ++ a, "Key Concepts: ".toList ++ c] := by
    unfold nonBlankLines exampleText
    rw [splitLines_joinLines _ (by simp)]
    · rw [List.filter_eq_self]
      intro l hl
      rcases List.mem_append.mp hl with hl | hl
      · exact (hsteps l hl).2
      · simp only [List.mem_cons, List.mem_singleton, List.not_mem_nil, or_false] at hl
        rcases hl with hl | hl
        · rw [hl]
          exact nonBlank_cons 'A' _ (by decide)
        · rw [hl]
          exact nonBlank_cons 'K' _ (by decide)
    · intro l hl
      rcases List.mem_append.mp hl with hl | hl
      · exact (hsteps l hl).1
      · simp only [List.mem_cons, List.mem_singleton, List.not_mem_nil, or_false] at hl
        rcases hl with hl | hl
        · rw [hl]
          exact hA
        · rw [hl]
          exact hC
  unfold formatSolution
  rw [hlines, List.foldl_append, foldl_stepLines ds (fun d hd => (hds d hd).2) 0,
    List.foldl_cons, List.foldl_cons, List.foldl_nil,
    solutionLine_answerLine _ a ha.2.2.2 ha.2.1 ha.2.2.1 has,
    solutionLine_conceptLine _ c hc.2.2.2 hc.2.1 hc.2.2.1 hcs hca hcf]
  simp [SolutionState.init]

theorem formatSolution_exampleText_witness :
    formatSolution
        "Step 1: Add the numbers\nStep 2: Divide by 2\nAnswer: 5\nKey Concepts: Averages".toList
      = { understanding := []
          steps := [{ number := 1, description := "Add the numbers".toList },
                    { number := 2, description := "Divide by 2".toList }]
          answer := "5".toList
          concepts := ["Averages".toList]
          tips := [] } :=
  formatSolution_exampleText ["Add the numbers".toList, "Divide by 2".toList] "5".toList
    "Averages".toList (by decide) (by decide) (by decide) (by decide) (by decide) (by decide)
    (by decide)

set_option maxRecDepth 100000 in
/-- C2 as stated fails: a description with a trailing blank is returned without it, and
an answer that contains "step" in capitals turns its line into a step. -/
theorem formatSolution_exampleText_not_verbatim :
    ((formatSolution (exampleText ["x ".toList] "5".toList "Averages".toList)).steps
        = [{ number := 1, description := "x".toList }] ∧
      (formatSolution (exampleText ["x ".toList] "5".toList "Averages".toList)).steps
        ≠ numberedFrom 0 ["x ".toList]) ∧
    (includes "STEP".toList "step".toList = false ∧
      formatSolution (exampleText [] "STEP".toList "Averages".toList)
        = { understanding := []
            steps := [{ number := 1, description := "Answer: STEP".toList }]
            answer := []
            concepts := ["Averages".toList]
            tips := [] }) := by
  decide

/-! ## Submissions while locked out, and validatePin -/

/-- C11. While the guard is locked out, that is while `now` is before the recorded
deadline, a submission with any text in the PIN field, a correct PIN included, ends with
the lockout message, so no session is created; the attempt counter, the stored deadline
and the recorded deadline are as before. -/
theorem handleLogin_while_locked_out (s : GuardState) (input : Str) (now later : Nat)
    (deadline : Int) (hd : recordedDeadline s = some deadline) (hnow : (now : Int) < deadline) :
    (handleLogin s input now later).1 = LoginOutcome.lockedOut ∧
    (handleLogin s input now later).2.attemptCount = s.attemptCount ∧
    (handleLogin s input now later).2.storedLockout = s.storedLockout ∧
    recordedDeadline (handleLogin s input now later).2 = some deadline := by
  have hne : deadline ≠ 0 := by omega
  have hlock : isLockedOut s now
      = (true, { s with lockoutTime := some deadline }) := by
    obtain ⟨n, lt, st⟩ := s
    unfold recordedDeadline at hd
    by_cases ht : truthy lt = true
    · simp only [ht, if_true] at hd
      subst hd
      simp [isLockedOut, ht, hne, hnow]
    · simp only [ht, Bool.false_eq_true, if_false] at hd
      subst hd
      simp [isLockedOut, ht, hne, hnow]
  unfold handleLogin
  simp only [hlock, if_true]
  refine ⟨trivial, trivial, trivial, ?_⟩
  unfold recordedDeadline
  have : truthy (some deadline) = true := by simp [truthy, hne]
  simp [this]

theorem handleLogin_while_locked_out_witness :
    (handleLogin { attemptCount := 3, lockoutTime := some 906000, storedLockout := some 906000 }
      "BPS2025".toList 7000 8000).1 = LoginOutcome.lockedOut :=
  (handleLogin_while_locked_out
    { attemptCount := 3, lockoutTime := some 906000, storedLockout := some 906000 }
    "BPS2025".toList 7000 8000 906000 (by decide) (by decide)).1

/-- C12. For every string, `validatePin` reports the student type exactly for the
configured student PIN and the admin type exactly for the configured admin PIN, and
fails for every other string, such as a shortened, a lengthened or a lower-cased PIN. -/
theorem validatePin_exact (pin : Str) :
    (validatePin pin = some UserType.student ↔ pin = PIN_STUDENT) ∧
    (validatePin pin = some UserType.admin ↔ pin = PIN_ADMIN) ∧
    (validatePin pin = none ↔ pin ≠ PIN_STUDENT ∧ pin ≠ PIN_ADMIN) ∧
    validatePin "BPS202".toList = none ∧ validatePin "BPS20255".toList = none ∧
    validatePin "bps2025".toList = none ∧ validatePin "ANUBHaw@1".toList = none ∧
    validatePin "ANUBHaw@123".toList = none ∧ validatePin "ANUBHAW@12".toList = none := by
  have hdiff : PIN_STUDENT ≠ PIN_ADMIN := by decide
  refine ⟨?_, ?_, ?_, by decide, by decide, by decide, by decide, by decide, by decide⟩
  · unfold validatePin
    split_ifs with h1 h2 <;> simp_all
  · unfold validatePin
    split_ifs with h1 h2
    · have hne : ¬ pin = PIN_ADMIN := fun hc => hdiff (h1 ▸ hc)
      simp [hne]
    · simp [h2]
    · simp [h2]
  · unfold validatePin
    split_ifs with h1 h2 <;> simp_all

/-! ## Properties of calculateConfidence -/

theorem add_if_eq (b : Bool) (s x : ℚ) :
    (if b = true then s + x else s) = s + x * indicator b := by
  cases b <;> simp [indicator]

theorem calculateConfidence_sum (content : Str) :
    calculateConfidence content
      = min (0.5 + 0.1 * indicator (hasStep content) + 0.1 * indicator (hasAnswer content)
          + 0.1 * indicator (hasFormula content) + 0.1 * indicator (hasExample content)
          + 0.1 * indicator (isLong content) + 0.1 * indicator (isVeryLong content)
          + 0.05 * indicator (hasMathSymbol content) + 0.05 * indicator (hasNewline content))
          0.95 := by
  unfold calculateConfidence
  simp only [add_if_eq]

theorem indicator_mono (p q : Bool) (h : p = true → q = true) : indicator p ≤ indicator q := by
  cases p <;> cases q <;> simp [indicator] at h ⊢

theorem indicator_nonneg (p : Bool) : 0 ≤ indicator p := by
  cases p <;> simp [indicator]

/-- C13. If every boosting condition that the code finds satisfied by `a` (one of the
keywords step, answer, formula, example present in lower case or capitalised, length
above 500, length above 1000, an arithmetic symbol present, a newline present) is also
satisfied by `b`, the score of `a` is at most the score of `b`; and the score of every
text is at least 0.5 and at most 0.95. Scores are exact rationals. -/
theorem calculateConfidence_monotone (a b t : Str)
    (h1 : hasStep a = true → hasStep b = true)
    (h2 : hasAnswer a = true → hasAnswer b = true)
    (h3 : hasFormula a = true → hasFormula b = true)
    (h4 : hasExample a = true → hasExample b = true)
    (h5 : isLong a = true → isLong b = true)
    (h6 : isVeryLong a = true → isVeryLong b = true)
    (h7 : hasMathSymbol a = true → hasMathSymbol b = true)
    (h8 : hasNewline a = true → hasNewline b = true) :
    calculateConfidence a ≤ calculateConfidence b ∧
    0.5 ≤ calculateConfidence t ∧ calculateConfidence t ≤ 0.95 := by
  refine ⟨?_, ?_, ?_⟩
  · rw [calculateConfidence_sum a, calculateConfidence_sum b]
    apply min_le_min _ le_rfl
    have e1 := indicator_mono _ _ h1
    have e2 := indicator_mono _ _ h2
    have e3 := indicator_mono _ _ h3
    have e4 := indicator_mono _ _ h4
    have e5 := indicator_mono _ _ h5
    have e6 := indicator_mono _ _ h6
    have e7 := indicator_mono _ _ h7
    have e8 := indicator_mono _ _ h8
    linarith
  · rw [calculateConfidence_sum t]
    apply le_min
    · have e1 := indicator_nonneg (hasStep t)
      have e2 := indicator_nonneg (hasAnswer t)
      have e3 := indicator_nonneg (hasFormula t)
      have e4 := indicator_nonneg (hasExample t)
      have e5 := indicator_nonneg (isLong t)
      have e6 := indicator_nonneg (isVeryLong t)
      have e7 := indicator_nonneg (hasMathSymbol t)
      have e8 := indicator_nonneg (hasNewline t)
      linarith
    · norm_num
  · rw [calculateConfidence_sum t]
    exact min_le_right _ _

theorem calculateConfidence_monotone_witness :
    calculateConfidence "step".toList ≤ calculateConfidence "Step 1\nanswer = 4".toList :=
  (calculateConfidence_monotone "step".toList "Step 1\nanswer = 4".toList []
    (by decide) (by decide) (by decide) (by decide) (by decide) (by decide) (by decide)
    (by decide)).1

/-- C14 (amended). For every text the score is the smaller of 0.95 and 0.5 plus 0.1 for
each of the keywords step, answer, formula and example that the text contains written in
lower case or with a capital first letter, 0.1 for a length above 500, 0.1 more for a
length above 1000, 0.05 for one of the symbols `= + - * / ( )` and 0.05 for a newline. -/
theorem calculateConfidence_formula (content : Str) :
    calculateConfidence content
      = min 0.95
          (0.5
            + 0.1 * indicator (includes content "Step".toList || includes content "step".toList)
            + 0.1 * indicator
                (includes content "Answer".toList || includes content "answer".toList)
            + 0.1 * indicator
                (includes content "Formula".toList || includes content "formula".toList)
            + 0.1 * indicator
                (includes content "Example".toList || includes content "example".toList)
            + 0.1 * indicator (decide (utf16Length content > 500))
            + 0.1 * indicator (decide (utf16Length content > 1000))
            + 0.05 * indicator (hasMathSymbol content)
            + 0.05 * indicator (includes content ['\n'])) := by
  rw [calculateConfidence_sum, min_comm]
  rfl

/-- C14 as stated fails: the text `STEP` contains the keyword only in capitals, so the
code gives it the base score 0.5, while the formula with case-insensitive keyword tests
gives 0.6. -/
theorem calculateConfidence_capitals_not_counted :
    calculateConfidence "STEP".toList = 0.5 ∧ caseInsensitiveConfidence "STEP".toList = 0.6 ∧
    calculateConfidence "STEP".toList ≠ caseInsensitiveConfidence "STEP".toList := by
  have h1 : hasStep "STEP".toList = false := by decide
  have h2 : hasAnswer "STEP".toList = false := by decide
  have h3 : hasFormula "STEP".toList = false := by decide
  have h4 : hasExample "STEP".toList = false := by decide
  have h5 : isLong "STEP".toList = false := by decide
  have h6 : isVeryLong "STEP".toList = false := by decide
  have h7 : hasMathSymbol "STEP".toList = false := by decide
  have h8 : hasNewline "STEP".toList = false := by decide
  have k1 : includes (toLowerCase "STEP".toList) "step".toList = true := by decide
  have k2 : includes (toLowerCase "STEP".toList) "answer".toList = false := by decide
  have k3 : includes (toLowerCase "STEP".toList) "formula".toList = false := by decide
  have k4 : includes (toLowerCase "STEP".toList) "example".toList = false := by decide
  have e1 : calculateConfidence "STEP".toList = 0.5 := by
    rw [calculateConfidence_sum, h1, h2, h3, h4, h5, h6, h7, h8]
    norm_num [indicator]
  have e2 : caseInsensitiveConfidence "STEP".toList = 0.6 := by
    unfold caseInsensitiveConfidence
    rw [k1, k2, k3, k4, h5, h6, h7, h8]
    norm_num [indicator]
  refine ⟨e1, e2, ?_⟩
  rw [e1, e2]
  norm_num

/-! ## Properties of the questions of parseQuizContent -/

theorem quizLine_options_length (st : Question × QuizSection) (line : Str) :
    (quizLine st line).1.options.length
      = st.1.options.length + if startsWithOptionLetter (trim line) then 1 else 0 := by
  unfold quizLine
  dsimp only
  split_ifs <;> simp

theorem foldl_quizLine_options_length (lines : List Str) :
    ∀ st : Question × QuizSection,
      (lines.foldl quizLine st).1.options.length
        = st.1.options.length
          + (lines.filter fun l => startsWithOptionLetter (trim l)).length := by
  induction lines with
  | nil => intro st; simp
  | cons l ls ih =>
    intro st
    rw [List.foldl_cons, ih, quizLine_options_length]
    by_cases h : startsWithOptionLetter (trim l) = true
    · rw [if_pos h, List.filter_cons_of_pos (by simpa using h), List.length_cons]
      omega
    · rw [if_neg h, List.filter_cons_of_neg (by simpa using h)]
      omega

theorem parseQuestion_options_length (index : Nat) (sec : Str) :
    (parseQuestion index sec).options.length = optionLineCount sec := by
  unfold parseQuestion optionLineCount
  rw [foldl_quizLine_options_length]
  simp

theorem quizSections_mem (secs : List Str) :
    ∀ (index : Nat) (q : Question), q ∈ quizSections index secs →
      ∃ j sec, sec ∈ secs ∧ q = parseQuestion j sec ∧ q.question ≠ [] := by
  induction secs with
  | nil => intro index q hq; simp [quizSections] at hq
  | cons sec rest ih =>
    intro index q hq
    have lift : (∃ j s2, s2 ∈ rest ∧ q = parseQuestion j s2 ∧ q.question ≠ []) →
        ∃ j s2, s2 ∈ sec :: rest ∧ q = parseQuestion j s2 ∧ q.question ≠ [] := by
      rintro ⟨j, s2, hs, he, hn⟩
      exact ⟨j, s2, List.mem_cons_of_mem _ hs, he, hn⟩
    unfold quizSections at hq
    dsimp only at hq
    split_ifs at hq with h0 hne
    · exact lift (ih _ q hq)
    · rcases List.mem_cons.mp hq with hq | hq
      · exact ⟨index, sec, List.mem_cons_self _ _, hq, hq ▸ hne⟩
      · exact lift (ih _ q hq)
    · exact lift (ih _ q hq)

/-- C19 (amended). For every raw text, every question returned by `parseQuizContent`
comes from one section of the text and has as many options as that section has non-blank
lines that start with a letter `a` to `d` (in either case) followed by `)`: zero or
more, and five or more when a section has that many such lines. -/
theorem parseQuizContent_options_count (content : Str) (q : Question)
    (hq : q ∈ (parseQuizContent content).questions) :
    ∃ index sec, sec ∈ (splitMarkers 0 content).filter nonBlank ∧
      q = parseQuestion index sec ∧ q.options.length = optionLineCount sec := by
  unfold parseQuizContent at hq
  obtain ⟨j, sec, hs, he, _⟩ := quizSections_mem _ 0 q hq
  exact ⟨j, sec, hs, he, he ▸ parseQuestion_options_length j sec⟩

set_option maxRecDepth 100000 in
theorem parseQuizContent_options_count_witness :
    ∃ index sec,
      sec ∈ (splitMarkers 0 "Quiz\nQuestion 1\nPick one\na) 1\nb) 2\nAnswer: a".toList).filter
        nonBlank ∧
      ({ id := "q_1".toList, question := "Pick one".toList, type := "mcq".toList,
         options := ["1".toList, "2".toList], correctAnswer := "a".toList,
         explanation := [] } : Question) = parseQuestion index sec ∧
      ({ id := "q_1".toList, question := "Pick one".toList, type := "mcq".toList,
         options := ["1".toList, "2".toList], correctAnswer := "a".toList,
         explanation := [] } : Question).options.length = optionLineCount sec :=
  parseQuizContent_options_count "Quiz\nQuestion 1\nPick one\na) 1\nb) 2\nAnswer: a".toList
    ⟨"q_1".toList, "Pick one".toList, "mcq".toList, ["1".toList, "2".toList], "a".toList, []⟩
    (by decide)

set_option maxRecDepth 100000 in
/-- C19 as stated fails: a section with five option lines gives a question with five
options. -/
theorem parseQuizContent_five_options :
    parseQuizContent "Quiz\nQuestion 1\nPick one\na) 1\nb) 2\nc) 3\nd) 4\na) 5\nAnswer: a".toList
      = { questions := [{ id := "q_1".toList
                          question := "Pick one".toList
                          type := "mcq".toList
                          options := ["1".toList, "2".toList, "3".toList, "4".toList,
                            "5".toList]
                          correctAnswer := "a".toList
                          explanation := [] }]
          totalQuestions := 1
          timeLimit := 2 } := by
  decide

/-- C20. For every raw text, the record returned by `parseQuizContent` has
`totalQuestions` equal to the number of questions and `timeLimit` equal to twice that
number, and every question in it has a non-empty question text. -/
theorem parseQuizContent_counts (content : Str) :
    (parseQuizContent content).totalQuestions = (parseQuizContent content).questions.length ∧
    (parseQuizContent content).timeLimit = 2 * (parseQuizContent content).questions.length ∧
    ∀ q ∈ (parseQuizContent content).questions, q.question ≠ [] := by
  refine ⟨rfl, ?_, ?_⟩
  · show (parseQuizContent content).questions.length * 2 = _
    omega
  · intro q hq
    unfold parseQuizContent at hq
    obtain ⟨_, _, _, _, hn⟩ := quizSections_mem _ 0 q hq
    exact hn

set_option maxRecDepth 100000 in
theorem parseQuizContent_counts_witness :
    ({ id := "q_1".toList, question := "Pick one".toList, type := "mcq".toList,
       options := ["1".toList, "2".toList], correctAnswer := "a".toList,
       explanation := [] } : Question).question ≠ [] :=
  (parseQuizContent_counts "Quiz\nQuestion 1\nPick one\na) 1\nb) 2\nAnswer: a".toList).2.2
    ⟨"q_1".toList, "Pick one".toList, "mcq".toList, ["1".toList, "2".toList], "a".toList, []⟩
    (by decide)

/-! ## Properties of enhancePrompt -/

/-- For all inputs the result is the context of the type, the subject sentence, the
difficulty sentence, the bilingual sentence, the instructions of the type, the label and
the prompt, in this order; the prompt is a suffix of the result. -/
theorem enhancePrompt_parts (prompt : Str) (options : PromptOptions) :
    enhancePrompt prompt options
      = typeContext options ++ subjectContext options ++ difficultyContext options
          ++ languagePreference options ++ typeInstructions options ++ promptLabel ++ prompt ∧
    prompt <:+ enhancePrompt prompt options := by
  constructor
  · unfold enhancePrompt
    simp only [List.append_assoc]
  · unfold enhancePrompt
    exact ⟨typeContext options ++ subjectContext options ++ difficultyContext options
      ++ languagePreference options ++ typeInstructions options ++ promptLabel,
      by simp only [List.append_assoc]⟩

/-- For a subject that is not named like an inherited property, the subject sentence is
there exactly when the subject is a key of the catalog, and then carries its name. -/
theorem subjectContext_of_own_key (options : PromptOptions) (subject : Str)
    (hs : options.subject = some subject) (hn : subject ∉ objectPrototypeKeys) :
    subjectContext options
      = match subjectCatalog.lookup subject with
        | some name => "Subject: ".toList ++ name ++ ". ".toList
        | none => [] := by
  unfold subjectContext
  rw [hs]
  cases subject with
  | nil => rfl
  | cons c cs =>
    dsimp only
    unfold subjectsLookup
    split_ifs with h1 h2 h3 h4 h5
    · rw [h1]; rfl
    · rw [h2]; rfl
    · rw [h3]; rfl
    · rw [h4]; rfl
    · rw [h5]; rfl
    · have e1 : (c :: cs == "mathematics".toList) = false := beq_eq_false_iff_ne.mpr h1
      have e2 : (c :: cs == "science".toList) = false := beq_eq_false_iff_ne.mpr h2
      have e3 : (c :: cs == "social-studies".toList) = false := beq_eq_false_iff_ne.mpr h3
      have e4 : (c :: cs == "english".toList) = false := beq_eq_false_iff_ne.mpr h4
      have e5 : (c :: cs == "hindi".toList) = false := beq_eq_false_iff_ne.mpr h5
      simp only [subjectCatalog, List.lookup, e1, e2, e3, e4, e5]

/-- Outside the subjects the callers pass: with the subject `constructor`, which is not
a key of the subject catalog, and nothing else in the options, the result has the subject
sentence `Subject: Object. ` between the context and the label. -/
theorem enhancePrompt_constructor_subject :
    subjectCatalog.lookup "constructor".toList = none ∧
    enhancePrompt "hi".toList { PromptOptions.empty with subject := some "constructor".toList }
      = ("You are an AI tutor for CBSE students. Subject: Object. " ++
         "\n\nStudent\x27s question/request: hi").toList := by
  decide

/-! ## The generation operations under a denied rate limit -/

theorem checkRateLimit_eq_of_denied (store : RateStore) (action : Str) (now : Nat)
    (h : (checkRateLimit store action now).1 = false) :
    checkRateLimit store action now = (false, store) := by
  unfold checkRateLimit at h ⊢
  dsimp only at h ⊢
  split_ifs at h ⊢ with hlim
  rfl

theorem generateContent_of_denied (reply : FetchOutcome) (store : RateStore) (now : Nat)
    (prompt : Str) (options : PromptOptions)
    (h : (checkRateLimit store "questions_hour".toList now).1 = false) :
    generateContent reply store now prompt options
      = { result := Except.error RATE_LIMIT_EXCEEDED, store := store, effects := [] } := by
  unfold generateContent
  dsimp only
  rw [if_pos h, checkRateLimit_eq_of_denied store _ now h]

/-- C16. When `checkRateLimit('questions_hour')` returns `false`, each of `solveDoubt`,
`analyzeHomework`, `generateNotes` and `generateQuiz` resolves to the failure object with
the message `Rate limit exceeded. Please try again later.`, with no fetch and no parse
among its effects and with the store as it was. -/
theorem operations_of_denied (draws : Nat → Nat) (reply : FetchOutcome) (store : RateStore)
    (now : Nat) (text subject : Str) (options : PromptOptions)
    (h : (checkRateLimit store "questions_hour".toList now).1 = false) :
    solveDoubt reply store now text options
      = { result := OperationResult.failure RATE_LIMIT_EXCEEDED, store := store, effects := [] } ∧
    analyzeHomework reply store now text options
      = { result := OperationResult.failure RATE_LIMIT_EXCEEDED, store := store, effects := [] } ∧
    generateNotes draws reply store now text options
      = { result := OperationResult.failure RATE_LIMIT_EXCEEDED, store := store, effects := [] } ∧
    generateQuiz reply store now subject text options
      = { result := OperationResult.failure RATE_LIMIT_EXCEEDED, store := store, effects := [] } ∧
    RATE_LIMIT_EXCEEDED = "Rate limit exceeded. Please try again later.".toList := by
  refine ⟨?_, ?_, ?_, ?_, rfl⟩
  · unfold solveDoubt
    simp only [generateContent_of_denied _ _ _ _ _ h]
  · unfold analyzeHomework
    simp only [generateContent_of_denied _ _ _ _ _ h]
  · unfold generateNotes
    simp only [generateContent_of_denied _ _ _ _ _ h]
  · unfold generateQuiz
    simp only [generateContent_of_denied _ _ _ _ _ h]

theorem operations_of_denied_witness :
    (solveDoubt (FetchOutcome.text "Step 1: add".toList)
      (setItem emptyStore (rateKey "questions_hour".toList) ⟨50, 1000⟩) 2000
      "What is 2+2?".toList PromptOptions.empty).effects = [] :=
  congrArg Run.effects
    (operations_of_denied (fun _ => 0) (FetchOutcome.text "Step 1: add".toList)
      (setItem emptyStore (rateKey "questions_hour".toList) ⟨50, 1000⟩) 2000
      "What is 2+2?".toList "science".toList PromptOptions.empty (by decide)).1

/-! ## Properties of the request queue -/

theorem queueInvariant_init {ρ : Type} : QueueInvariant (QueueState.init : QueueState ρ) := by
  refine ⟨Or.inl ⟨rfl, rfl, rfl⟩, rfl, rfl⟩

theorem queueInvariant_addToQueue {ρ : Type} (s : QueueState ρ) (request : ρ)
    (h : QueueInvariant s) : QueueInvariant (addToQueue s request) := by
  obtain ⟨hA, hB, hC⟩ := h
  obtain ⟨q, p, ws, en, st, co⟩ := s
  simp only at hA hB hC
  rcases hA with ⟨hp, hw, hq⟩ | ⟨hp, w, hw⟩
  · subst hp hw hq
    simp only [inFlight, List.filterMap_nil, List.append_nil] at hB hC
    subst hB hC
    simp [addToQueue, processQueue, loopHead, QueueInvariant, inFlight]
  · subst hp hw
    subst hB
    simp only [addToQueue, processQueue, Bool.true_or, if_true]
    refine ⟨Or.inr ⟨rfl, w, rfl⟩, ?_, hC⟩
    simp

theorem queueInvariant_step {ρ : Type} (s s1 : QueueState ρ) (e : QueueEvent ρ)
    (h : QueueInvariant s) (hs : queueStep s e = some s1) : QueueInvariant s1 := by
  cases e with
  | add request =>
    simp only [queueStep, Option.some.injEq] at hs
    subst hs
    exact queueInvariant_addToQueue s request h
  | settle i =>
    obtain ⟨hA, hB, hC⟩ := h
    obtain ⟨q, p, ws, en, st, co⟩ := s
    simp only at hA hB hC
    rcases hA with ⟨hp, hw, hq⟩ | ⟨hp, w, hw⟩
    · subst hw
      simp [queueStep] at hs
    · subst hp hw hB
      cases i with
      | succ j => simp [queueStep] at hs
      | zero =>
        cases w with
        | awaitingDelay => simp [queueStep] at hs
        | awaitingRequest r =>
          simp only [queueStep, List.getElem?_cons_zero, List.set_cons_zero,
            Option.some.injEq] at hs
          subst hs
          simp only [inFlight, List.filterMap_cons, List.filterMap_nil] at hC
          subst hC
          refine ⟨Or.inr ⟨rfl, _, rfl⟩, rfl, ?_⟩
          simp [inFlight]
  | wake i =>
    obtain ⟨hA, hB, hC⟩ := h
    obtain ⟨q, p, ws, en, st, co⟩ := s
    simp only at hA hB hC
    rcases hA with ⟨hp, hw, hq⟩ | ⟨hp, w, hw⟩
    · subst hw
      simp [queueStep] at hs
    · subst hp hw hB
      cases i with
      | succ j => simp [queueStep] at hs
      | zero =>
        cases w with
        | awaitingRequest r => simp [queueStep] at hs
        | awaitingDelay =>
          simp only [inFlight, List.filterMap_cons, List.filterMap_nil, List.append_nil] at hC
          subst hC
          cases q with
          | nil =>
            simp only [queueStep, List.getElem?_cons_zero, loopHead, List.eraseIdx_cons_zero,
              Option.some.injEq] at hs
            subst hs
            refine ⟨Or.inl ⟨rfl, rfl, rfl⟩, rfl, ?_⟩
            simp [inFlight]
          | cons r rest =>
            simp only [queueStep, List.getElem?_cons_zero, loopHead, List.set_cons_zero,
              Option.some.injEq] at hs
            subst hs
            refine ⟨Or.inr ⟨rfl, _, rfl⟩, ?_, ?_⟩
            · simp
            · simp [inFlight]

theorem queueInvariant_run {ρ : Type} (es : List (QueueEvent ρ)) :
    ∀ s s1 : QueueState ρ, QueueInvariant s → queueRun s es = some s1 → QueueInvariant s1 := by
  induction es with
  | nil =>
    intro s s1 h hs
    simp only [queueRun, Option.some.injEq] at hs
    exact hs ▸ h
  | cons e es ih =>
    intro s s1 h hs
    unfold queueRun at hs
    cases hstep : queueStep s e with
    | none => rw [hstep] at hs; exact Option.noConfusion hs
    | some s2 =>
      rw [hstep] at hs
      exact ih s2 s1 (queueInvariant_step s s2 e h hstep) hs

/-- C17. In every state the queue reaches from its initial state, whatever the
interleaving of `addToQueue` calls with the steps of the drain loop: at most one
invocation of `processQueue` is suspended and at most one request is in flight; the
requests started so far are, in order, the first of the requests enqueued so far, the
rest of them waiting in the queue; and every started request except the one in flight
has completed, so a request is started only after the one before it has completed. -/
theorem queue_one_in_flight_fifo {ρ : Type} (es : List (QueueEvent ρ)) (s : QueueState ρ)
    (h : queueRun QueueState.init es = some s) :
    s.workers.length ≤ 1 ∧ (inFlight s).length ≤ 1 ∧
    s.enqueued = s.started ++ s.requestQueue ∧
    s.started = s.completed ++ inFlight s := by
  obtain ⟨hA, hB, hC⟩ := queueInvariant_run es _ s queueInvariant_init h
  refine ⟨?_, ?_, hB, hC⟩
  · rcases hA with ⟨_, hw, _⟩ | ⟨_, w, hw⟩ <;> simp [hw]
  · rcases hA with ⟨_, hw, _⟩ | ⟨_, w, hw⟩
    · simp [inFlight, hw]
    · cases w <;> simp [inFlight, hw]

theorem queue_one_in_flight_fifo_witness :
    queueRun (QueueState.init : QueueState Nat)
        [QueueEvent.add 1, QueueEvent.add 2, QueueEvent.settle 0, QueueEvent.add 3,
          QueueEvent.wake 0]
      = some { requestQueue := [3], isProcessing := true
               workers := [Worker.awaitingRequest 2], enqueued := [1, 2, 3]
               started := [1, 2], completed := [1] } ∧
    ([1, 2] : List Nat) = [1] ++ inFlight
      ({ requestQueue := [3], isProcessing := true
         workers := [Worker.awaitingRequest 2], enqueued := [1, 2, 3]
         started := [1, 2], completed := [1] } : QueueState Nat) :=
  ⟨by decide,
   (queue_one_in_flight_fifo
      [QueueEvent.add 1, QueueEvent.add 2, QueueEvent.settle 0, QueueEvent.add 3,
        QueueEvent.wake 0]
      ({ requestQueue := [3], isProcessing := true
         workers := [Worker.awaitingRequest 2], enqueued := [1, 2, 3]
         started := [1, 2], completed := [1] } : QueueState Nat) (by decide)).2.2.2⟩

/-! ## Properties of the session timers -/

/-- After a login the two callbacks are due 1,500,000 ms and 1,800,000 ms after the
start of the timers. -/
theorem createSession_timers (s : SessionState) (userType : UserType) (now later : Nat) :
    (createSession s userType now later).warningTimeout = some (later + 1500000) ∧
    (createSession s userType now later).sessionTimeout = some (later + 1800000) ∧
    (createSession s userType now later).currentUser
      = some { userType := userType, loginTime := now, lastActivity := now } := by
  refine ⟨rfl, rfl, rfl⟩

/-- The sibling `extendSession` records the activity and restarts both timers. -/
theorem extendSession_timers (s : SessionState) (user : SessionData) (now : Nat)
    (h : s.currentUser = some user) :
    (extendSession s now).currentUser = some { user with lastActivity := now } ∧
    (extendSession s now).warningTimeout = some (now + 1500000) ∧
    (extendSession s now).sessionTimeout = some (now + 1800000) := by
  unfold extendSession
  rw [h]
  simp only [updateLastActivity, h]
  refine ⟨rfl, rfl, rfl⟩

/-- A tracked activity leaves both timers as they were. -/
theorem updateLastActivity_timers (s : SessionState) (now : Nat) :
    (updateLastActivity s now).warningTimeout = s.warningTimeout ∧
    (updateLastActivity s now).sessionTimeout = s.sessionTimeout := by
  unfold updateLastActivity
  cases s.currentUser <;> exact ⟨rfl, rfl⟩

/-- C18 (the code at the failing input). After a login at 1000 and a tracked activity
recorded at 61000, the last activity is 61000 while the warning and the expiry are still
due at 1,501,000 and 1,801,000, that is relative to the login. -/
theorem updateLastActivity_keeps_login_timers :
    updateLastActivity (createSession SessionState.init UserType.student 1000 1000) 61000
      = { currentUser := some { userType := UserType.student, loginTime := 1000
                                lastActivity := 61000 }
          storedSession := some { userType := UserType.student, loginTime := 1000
                                  lastActivity := 61000 }
          warningTimeout := some 1501000
          sessionTimeout := some 1801000 } := by
  decide

/-! ## The answer and understanding fields of formatSolution -/

theorem solutionLine_answer (st : SolutionState) (line : Str) :
    (solutionLine st line).solution.answer
      = if isAnswerClassified line then stripAnswerLabel (trim line) else st.solution.answer := by
  unfold solutionLine isAnswerClassified
  dsimp only
  by_cases h1 : isStepLine (trim line) = true
  · simp [h1]
  · by_cases h2 : isAnswerLine (trim line) = true
    · simp [h1, h2]
    · simp only [h1, h2, Bool.false_eq_true, if_false, Bool.not_eq_true, Bool.not_false,
        Bool.true_and]
      split_ifs <;> simp_all

theorem foldl_solutionLine_answer (lines : List Str) :
    ∀ st : SolutionState,
      (lines.foldl solutionLine st).solution.answer
        = match (lines.filter isAnswerClassified).getLast? with
          | none => st.solution.answer
          | some l => stripAnswerLabel (trim l) := by
  induction lines with
  | nil => intro st; rfl
  | cons l ls ih =>
    intro st
    rw [List.foldl_cons, ih, solutionLine_answer]
    by_cases h : isAnswerClassified l = true
    · rw [List.filter_cons_of_pos h, if_pos h]
      cases hf : List.filter isAnswerClassified ls with
      | nil => rfl
      | cons y ys =>
        rw [List.getLast?_cons_cons]
        obtain ⟨z, hz⟩ : ∃ z, (y :: ys).getLast? = some z := ⟨_, List.getLast?_cons⟩
        rw [hz]
    · rw [List.filter_cons_of_neg h, if_neg h]

theorem solutionLine_understanding_kept (st : SolutionState) (line : Str)
    (h : st.currentSection ≠ Section.understanding ∨ st.solution.understanding ≠ []) :
    (solutionLine st line).solution.understanding = st.solution.understanding ∧
    ((solutionLine st line).currentSection ≠ Section.understanding ∨
      (solutionLine st line).solution.understanding ≠ []) := by
  unfold solutionLine
  dsimp only
  split_ifs with h1 h2 h3 h4 h5
  · exact ⟨rfl, Or.inl (by simp)⟩
  · exact ⟨rfl, Or.inl (by simp)⟩
  · exact ⟨rfl, Or.inl (by simp)⟩
  · exact ⟨rfl, Or.inl (by simp)⟩
  · rcases h with h | h
    · exact absurd h5.1 h
    · exact absurd h5.2 h
  · exact ⟨rfl, h⟩

theorem foldl_solutionLine_understanding_kept (lines : List Str) :
    ∀ st : SolutionState,
      (st.currentSection ≠ Section.understanding ∨ st.solution.understanding ≠ []) →
      (lines.foldl solutionLine st).solution.understanding = st.solution.understanding := by
  induction lines with
  | nil => intro st _; rfl
  | cons l ls ih =>
    intro st h
    obtain ⟨h1, h2⟩ := solutionLine_understanding_kept st l h
    rw [List.foldl_cons, ih _ h2, h1]

theorem solutionLine_init (line : Str) (hb : nonBlank line = true) :
    (solutionLine SolutionState.init line).solution.understanding
      = (if matchesSomeRule line then [] else trim line) ∧
    ((solutionLine SolutionState.init line).currentSection ≠ Section.understanding ∨
      (solutionLine SolutionState.init line).solution.understanding ≠ []) := by
  have hne : trim line ≠ [] := by
    intro hc
    unfold nonBlank at hb
    rw [hc] at hb
    exact Bool.noConfusion hb
  unfold solutionLine matchesSomeRule
  dsimp only
  by_cases h1 : isStepLine (trim line) = true
  · simp [h1, SolutionState.init]
  · by_cases h2 : isAnswerLine (trim line) = true
    · simp [h1, h2, SolutionState.init]
    · by_cases h3 : isConceptLine (trim line) = true
      · simp [h1, h2, h3, SolutionState.init]
      · by_cases h4 : isTipLine (trim line) = true
        · simp [h1, h2, h3, h4, SolutionState.init]
        · simp [h1, h2, h3, h4, SolutionState.init, hne]

/-- C22. For every raw text, the `understanding` returned by `formatSolution` is the
trimmed first non-blank line when that line matches none of the step, answer, concept and
tip rules, and is empty otherwise (also when the text has no non-blank line); no later
line sets or changes it. -/
theorem formatSolution_understanding (content : Str) :
    (formatSolution content).understanding
      = match nonBlankLines content with
        | [] => []
        | first :: _ => if matchesSomeRule first then [] else trim first := by
  unfold formatSolution
  cases h : nonBlankLines content with
  | nil => rfl
  | cons l ls =>
    have hb : nonBlank l = true := by
      have hm : l ∈ nonBlankLines content := by rw [h]; exact List.mem_cons_self _ _
      unfold nonBlankLines at hm
      exact (List.mem_filter.mp hm).2
    obtain ⟨h1, h2⟩ := solutionLine_init l hb
    rw [List.foldl_cons, foldl_solutionLine_understanding_kept ls _ h2, h1]

/-! ## determineSectionType -/

/-- C25. For every section text, `determineSectionType` returns `formula` if the
lower-cased text contains "formula" or "equation"; otherwise `example` if it contains
"example" or "problem"; otherwise `concept` if it contains "definition" or "concept";
otherwise `general`. A section with both "formula" and "example" is `formula`. -/
theorem determineSectionType_priority (sec : Str) :
    ((includes (toLowerCase sec) "formula".toList = true ∨
        includes (toLowerCase sec) "equation".toList = true) →
      determineSectionType sec = "formula".toList) ∧
    (includes (toLowerCase sec) "formula".toList = false →
      includes (toLowerCase sec) "equation".toList = false →
      ((includes (toLowerCase sec) "example".toList = true ∨
          includes (toLowerCase sec) "problem".toList = true) →
        determineSectionType sec = "example".toList) ∧
      (includes (toLowerCase sec) "example".toList = false →
        includes (toLowerCase sec) "problem".toList = false →
        ((includes (toLowerCase sec) "definition".toList = true ∨
            includes (toLowerCase sec) "concept".toList = true) →
          determineSectionType sec = "concept".toList) ∧
        (includes (toLowerCase sec) "definition".toList = false →
          includes (toLowerCase sec) "concept".toList = false →
          determineSectionType sec = "general".toList))) ∧
    (includes (toLowerCase sec) "formula".toList = true →
      includes (toLowerCase sec) "example".toList = true →
      determineSectionType sec = "formula".toList) := by
  unfold determineSectionType
  dsimp only
  refine ⟨?_, ?_, ?_⟩
  · intro h
    rw [if_pos (by rcases h with h | h <;> rw [h] <;> simp)]
  · intro h1 h2
    rw [h1, h2]
    refine ⟨?_, ?_⟩
    · intro h
      rw [if_neg (by simp), if_pos (by rcases h with h | h <;> rw [h] <;> simp)]
    · intro h3 h4
      rw [h3, h4]
      refine ⟨?_, ?_⟩
      · intro h
        rw [if_neg (by simp), if_neg (by simp), if_pos (by rcases h with h | h <;> rw [h] <;> simp)]
      · intro h5 h6
        rw [h5, h6]
        simp
  · intro h _
    rw [if_pos (by rw [h]; rfl)]

set_option maxRecDepth 100000 in
theorem determineSectionType_priority_witness :
    determineSectionType "The formula, with an Example".toList = "formula".toList :=
  (determineSectionType_priority "The formula, with an Example".toList).2.2 (by decide)
    (by decide)

/-! ## Properties of generateMindMapData -/

theorem trim_whiteSpace_around (w1 w2 x : Str) (h1 : ∀ c ∈ w1, isWhiteSpace c = true)
    (h2 : ∀ c ∈ w2, isWhiteSpace c = true) : trim (w1 ++ (x ++ w2)) = trim x := by
  unfold trim trimStart
  rw [List.dropWhile_append_of_pos h1]
  by_cases hx : ∀ c ∈ x, isWhiteSpace c = true
  · have hall : ∀ c ∈ x ++ w2, isWhiteSpace c = true := by
      intro c hc
      rcases List.mem_append.mp hc with hc | hc
      · exact hx c hc
      · exact h2 c hc
    rw [List.dropWhile_eq_nil_iff.mpr hall, List.dropWhile_eq_nil_iff.mpr hx]
  · have hsplit : List.dropWhile isWhiteSpace (x ++ w2) = List.dropWhile isWhiteSpace x ++ w2 := by
      rw [List.dropWhile_append]
      rw [if_neg]
      simp only [List.isEmpty_eq_true, List.dropWhile_eq_nil_iff]
      exact hx
    rw [hsplit]
    unfold trimEnd
    rw [List.reverse_append, List.dropWhile_append_of_pos
      (fun c hc => h2 c (List.mem_reverse.mp hc))]

theorem removeTitleMarks_of_whiteSpace (w : Str) (h : ∀ c ∈ w, isWhiteSpace c = true) :
    removeTitleMarks w = w := by
  unfold removeTitleMarks
  rw [List.filter_eq_self]
  intro c hc
  have hw := h c hc
  cases hd : isDigit c with
  | true =>
    rw [isWhiteSpace_of_isDigit c hd] at hw
    exact Bool.noConfusion hw
  | false =>
    have h1 : c ≠ ':' := by
      intro he
      rw [he] at hw
      exact absurd hw (by decide)
    have h2 : c ≠ '.' := by
      intro he
      rw [he] at hw
      exact absurd hw (by decide)
    simp [h1, h2]

/-- Removing the marks from a line and trimming gives what the code computes from the
trimmed line. -/
theorem trim_removeTitleMarks (line : Str) :
    trim (removeTitleMarks line) = trim (removeTitleMarks (trim line)) := by
  obtain ⟨w1, w2, h1, h2, hs⟩ := trim_decompose line
  conv_lhs => rw [hs]
  unfold removeTitleMarks at *
  rw [List.filter_append, List.filter_append]
  have e1 := removeTitleMarks_of_whiteSpace w1 h1
  have e2 := removeTitleMarks_of_whiteSpace w2 h2
  unfold removeTitleMarks at e1 e2
  rw [e1, e2]
  exact trim_whiteSpace_around w1 w2 _ h1 h2

theorem pushItem_append_singleton (acc : List Branch) (b : Branch) (item : Str) :
    pushItem (acc ++ [b]) item = acc ++ [{ b with items := b.items ++ [item] }] := by
  induction acc with
  | nil => rfl
  | cons a acc ih =>
    cases acc with
    | nil => rfl
    | cons a2 acc2 =>
      show a :: pushItem (a2 :: acc2 ++ [b]) item = _
      rw [ih]
      rfl

theorem foldl_pushItem_append_singleton (items : List Str) :
    ∀ (acc : List Branch) (b : Branch),
      items.foldl pushItem (acc ++ [b]) = acc ++ [{ b with items := b.items ++ items }] := by
  induction items with
  | nil => intro acc b; simp
  | cons x xs ih =>
    intro acc b
    rw [List.foldl_cons, pushItem_append_singleton, ih]
    simp

theorem mindMapLine_cases (acc : List Branch) (line : Str) :
    mindMapLine acc line
      = if isBranchLine line then
          acc ++ [{ title := trim (removeTitleMarks line), items := [] }]
        else if startsWith (trim line) ['-'] then pushItem acc (stripDash (trim line))
        else acc := by
  unfold mindMapLine isBranchLine
  dsimp only
  by_cases h1 : (includes (trim line) [':'] || startsWithNumberDot (trim line)) = true
  · rw [if_pos h1, if_pos h1, ← trim_removeTitleMarks line]
  · rw [if_neg h1, if_neg h1]
    by_cases h2 : startsWith (trim line) ['-'] = true
    · rw [if_pos h2]
      cases acc with
      | nil => rfl
      | cons a acc =>
        rw [if_pos]
        simp [h2]
    · rw [if_neg h2, if_neg]
      simp [h2]

theorem foldl_mindMapLine (lines : List Str) :
    ∀ acc : List Branch,
      lines.foldl mindMapLine acc
        = (itemsUntilNextBranch lines).foldl pushItem acc ++ describedBranches lines := by
  induction lines with
  | nil => intro acc; simp [itemsUntilNextBranch, describedBranches]
  | cons l ls ih =>
    intro acc
    rw [List.foldl_cons, ih, mindMapLine_cases]
    by_cases hb : isBranchLine l = true
    · rw [if_pos hb, foldl_pushItem_append_singleton]
      simp [itemsUntilNextBranch, describedBranches, hb]
    · by_cases hd : startsWith (trim l) ['-'] = true
      · rw [if_neg hb, if_pos hd]
        simp [itemsUntilNextBranch, describedBranches, hb, hd]
      · rw [if_neg hb, if_neg hd]
        simp [itemsUntilNextBranch, describedBranches, hb, hd]

/-- The fold of the source over the non-blank lines, in terms of the helpers of the
source. -/
theorem generateMindMapData_described (content : Str) :
    generateMindMapData content
      = { central := "Topic".toList
          branches := describedBranches (nonBlankLines content) } := by
  unfold generateMindMapData
  rw [foldl_mindMapLine]
  cases h : itemsUntilNextBranch (nonBlankLines content) with
  | nil => rfl
  | cons x xs =>
    have hnil : ∀ items : List Str, items.foldl pushItem [] = [] := by
      intro items
      induction items with
      | nil => rfl
      | cons y ys ih => exact ih
    rw [hnil]
    rfl

/-! ## The title and the sections of formatNotes -/

theorem noteSections_labels (draws : Nat → Nat) (secs : List Str) :
    ∀ used index : Nat, ∃ r, noteSections draws used index secs = some r ∧
      r.map (fun sec => (sec.id, sec.content)) = sectionLabels index secs := by
  induction secs with
  | nil => intro used index; exact ⟨[], rfl, rfl⟩
  | cons sec rest ih =>
    intro used index
    obtain ⟨⟨title, used1⟩, ht⟩ := extractSectionTitle_isSome draws used sec
    obtain ⟨more, hm, hl⟩ := ih used1 (index + 1)
    refine ⟨⟨"section_".toList ++ (Nat.repr index).toList, title, sec,
      determineSectionType sec⟩ :: more, ?_, ?_⟩
    · simp only [noteSections, ht, hm]
    · simp only [List.map_cons, sectionLabels, hl]

/-- C24. For every raw text and whatever the random draws, `formatNotes` returns notes
whose title is the first non-blank paragraph (a paragraph being a piece of the split at
`\n\n`), or `Study Notes` when there is none, and whose sections are the remaining
non-blank paragraphs in order, the `k`-th from 0 with the id `section_k` and the
paragraph, unchanged, as content. -/
theorem formatNotes_title_and_sections (draws : Nat → Nat) (content : Str) :
    ∃ notes, formatNotes draws content = some notes ∧
      notes.title = (((splitParagraphs content).filter nonBlank).head?).getD "Study Notes".toList ∧
      notes.sections.map (fun sec => (sec.id, sec.content))
        = sectionLabels 0 (((splitParagraphs content).filter nonBlank).drop 1) := by
  obtain ⟨secs, hs, hl⟩ := noteSections_labels draws
    (((splitParagraphs content).filter nonBlank).drop 1) 0 0
  refine ⟨⟨(((splitParagraphs content).filter nonBlank).head?).getD "Study Notes".toList,
    secs⟩, ?_, rfl, hl⟩
  unfold formatNotes
  dsimp only
  rw [hs]

/-! ## isLockedOut -/

theorem isLockedOut_of_deadline (s : GuardState) (now : Nat) (d : Int)
    (h : deadlineInForce s = some d) :
    isLockedOut s now
      = if (now : Int) < d then (true, { s with lockoutTime := some d })
        else (false, GuardState.init) := by
  obtain ⟨n, lt, st⟩ := s
  unfold deadlineInForce recordedDeadline at h
  by_cases ht : truthy lt = true
  · simp only [ht, if_true] at h
    cases lt with
    | none => simp at h
    | some t =>
      simp only at h
      split_ifs at h with hne
      simp only [Option.some.injEq] at h
      subst h
      unfold isLockedOut
      simp only [ht, if_true]
      by_cases hlt : (now : Int) < t
      · simp [hne, hlt]
      · have hle : t ≤ (now : Int) := by omega
        simp [hne, hlt, hle, GuardState.init]
  · simp only [ht, Bool.false_eq_true, if_false] at h
    cases st with
    | none => simp at h
    | some t =>
      simp only at h
      split_ifs at h with hne
      simp only [Option.some.injEq] at h
      subst h
      unfold isLockedOut
      simp only [ht, Bool.false_eq_true, if_false]
      by_cases hlt : (now : Int) < t
      · simp [hne, hlt]
      · have hle : t ≤ (now : Int) := by omega
        simp [hne, hlt, hle, GuardState.init]

theorem isLockedOut_of_no_deadline (s : GuardState) (now : Nat)
    (h : deadlineInForce s = none) :
    (isLockedOut s now).1 = false ∧ (isLockedOut s now).2.attemptCount = s.attemptCount := by
  obtain ⟨n, lt, st⟩ := s
  unfold deadlineInForce recordedDeadline at h
  unfold isLockedOut
  by_cases ht : truthy lt = true
  · simp only [ht, if_true] at h ⊢
    cases lt with
    | none => exact ⟨rfl, rfl⟩
    | some t =>
      simp only at h
      split_ifs at h with hne
      simp [hne]
  · simp only [ht, Bool.false_eq_true, if_false] at h ⊢
    cases st with
    | none => exact ⟨rfl, rfl⟩
    | some t =>
      simp only at h
      split_ifs at h with hne
      simp [hne]

theorem succeeds_of_fails (e : Submission) (h : e.fails = true) : e.succeeds = false := by
  unfold Submission.fails at h
  unfold Submission.succeeds
  simp only [Bool.and_eq_true, decide_eq_true_eq] at h
  cases hv : validatePin (trim e.input) with
  | none => rfl
  | some u =>
    rw [hv] at h
    exact absurd h.2 (by simp)

/-- C26 (amended). `isLockedOut` returns `true` exactly when a lockout deadline is in
force (the one in memory, or the stored one when none is in memory) and `now` is
strictly before it. Called
with `now` at or after a deadline in force, it returns `false`, removes the stored
deadline, clears the one in memory and sets the attempt counter to 0: the state is the
initial one, from which two failed submissions do not lock out and the third does. -/
theorem isLockedOut_iff_before_deadline (s : GuardState) (now : Nat) :
    ((isLockedOut s now).1 = true ↔ ∃ d, deadlineInForce s = some d ∧ (now : Int) < d) ∧
    (∀ d, deadlineInForce s = some d → d ≤ (now : Int) →
      isLockedOut s now
        = (false, { attemptCount := 0, lockoutTime := none, storedLockout := none }) ∧
      ∀ (e1 e2 e3 : Submission) (t : Nat),
        e1.fails = true → e2.fails = true → e3.fails = true →
        (isLockedOut (submitAll (isLockedOut s now).2 [e1, e2]) t).1 = false ∧
        (submitAll (isLockedOut s now).2 [e1, e2, e3]).lockoutTime
          = some ((e3.later : Int) + 900000)) := by
  constructor
  · cases hd : deadlineInForce s with
    | none =>
      have := (isLockedOut_of_no_deadline s now hd).1
      simp [this]
    | some d =>
      rw [isLockedOut_of_deadline s now d hd]
      by_cases hlt : (now : Int) < d
      · simp [hlt]
      · simp [hlt]
  · intro d hd hle
    have hexp : isLockedOut s now = (false, GuardState.init) := by
      rw [isLockedOut_of_deadline s now d hd, if_neg (by omega)]
    refine ⟨hexp, ?_⟩
    intro e1 e2 e3 t f1 f2 f3
    have n1 := succeeds_of_fails e1 f1
    have n2 := succeeds_of_fails e2 f2
    have n3 := succeeds_of_fails e3 f3
    rw [hexp]
    have c0 : GuardState.init
        = { attemptCount := ((0 : Nat) : Int), lockoutTime := none, storedLockout := none } := rfl
    have s1 : submit GuardState.init e1
        = { attemptCount := ((1 : Nat) : Int), lockoutTime := none, storedLockout := none } := by
      rw [c0, submit_of_clear, n1, f1]
      simp [handleFailedAttempt, MAX_ATTEMPTS]
    have s2 : submit (submit GuardState.init e1) e2
        = { attemptCount := ((2 : Nat) : Int), lockoutTime := none, storedLockout := none } := by
      rw [s1, submit_of_clear, n2, f2]
      simp [handleFailedAttempt, MAX_ATTEMPTS]
    constructor
    · show (isLockedOut (submit (submit GuardState.init e1) e2) t).1 = false
      rw [s2, isLockedOut_of_clear]
    · show (submit (submit (submit GuardState.init e1) e2) e3).lockoutTime = _
      rw [s2, submit_of_clear, n3, f3]
      simp [handleFailedAttempt, MAX_ATTEMPTS, LOCKOUT_TIME]

theorem isLockedOut_iff_before_deadline_witness :
    isLockedOut { attemptCount := 3, lockoutTime := some 906000, storedLockout := some 906000 }
        906000
      = (false, { attemptCount := 0, lockoutTime := none, storedLockout := none }) :=
  ((isLockedOut_iff_before_deadline
    { attemptCount := 3, lockoutTime := some 906000, storedLockout := some 906000 } 906000).2
    906000 (by decide) (by decide)).1

/-! ## Action keys that name no window -/

theorem ceilingOf_of_no_window (action : Str) (h : windowLength action = none) :
    ceilingOf action = 100 := by
  unfold ceilingOf
  split_ifs with h1 h2 h3
  · rw [h1] at h
    exact absurd h (by decide)
  · rw [h2] at h
    exact absurd h (by decide)
  · rw [h3] at h
    exact absurd h (by decide)
  · rfl

/-- For an action key that names no window and is not named like an inherited property,
starting from no stored record and whatever the times of the calls, call number `i`
(from 0) is allowed exactly when `i` is below 100. -/
theorem checkRateLimitAll_of_no_window (action : Str) (hn : action ∉ objectPrototypeKeys)
    (hw : windowLength action = none) (first : Nat) (rest : List Nat) :
    (checkRateLimitAll emptyStore action (first :: rest)).1
      = (List.range (rest.length + 1)).map fun i => decide (i < 100) := by
  rw [checkRateLimitAll_ceiling action hn first rest
    (fun t _ W hW => by rw [hw] at hW; exact Option.noConfusion hW),
    ceilingOf_of_no_window action hw]

/-- Outside the keys the callers pass: the action key `constructor` contains neither
"hour" nor "day"; from no stored record, after 100 calls that return `true`, a call made
much later returns `true` as well. -/
theorem checkRateLimit_constructor_after_hundred :
    includes "constructor".toList "hour".toList = false ∧
    includes "constructor".toList "day".toList = false ∧
    (checkRateLimitAll emptyStore "constructor".toList
      (List.replicate 100 1700000000000 ++ [1800000000000])).1
        = List.replicate 101 true := by
  refine ⟨by decide, by decide, ?_⟩
  have h := checkRateLimitAll_of_inherited "constructor".toList (by decide)
    (List.replicate 100 1700000000000 ++ [1800000000000]) emptyStore
  rw [h]
  rfl

/-! ## Awarding points and levelling up -/

theorem checkLevelUp_of_not_above (fuel : Nat) (s : ProgressState) (today : Str)
    (hl : s.level ≠ 0) (h : ¬ s.totalPoints / 500 + 1 > s.level) :
    checkLevelUp (fuel + 1) s today = some s := by
  simp only [checkLevelUp, hl, ne_eq, not_false_eq_true, if_true, h, if_false]

/-- A level-up followed by its bonus: the state with which `checkLevelUp` runs again. -/
theorem checkLevelUp_of_above (s : ProgressState) (today : Str)
    (hl : s.level ≠ 0) (h : s.totalPoints / 500 + 1 > s.level) :
    ∃ s1 : ProgressState,
      (∀ fuel, checkLevelUp (fuel + 2) s today = checkLevelUp fuel s1 today) ∧
      s1.totalPoints = s.totalPoints + 100 ∧
      s1.level = s.totalPoints / 500 + 1 ∧
      s1.notices = s.notices ++ [Notice.levelUp (s.totalPoints / 500 + 1),
        Notice.points 100 "Level Up Bonus".toList] ∧
      s1.achievements = s.achievements := by
  refine ⟨{ s with
      totalPoints := s.totalPoints + 100
      overallTotalPoints := s.totalPoints + 100
      level := s.totalPoints / 500 + 1
      daily := if s.daily.date = today then
          { s.daily with pointsToday := s.daily.pointsToday + 100 }
        else { questionsToday := 0, timeToday := 0, pointsToday := 100, date := today }
      notices := s.notices ++ [Notice.levelUp (s.totalPoints / 500 + 1)] ++
        [Notice.points 100 "Level Up Bonus".toList] }, ?_, rfl, rfl, ?_, rfl⟩
  · intro fuel
    simp only [checkLevelUp, awardPoints, hl, ne_eq, not_false_eq_true, if_true, h]
  · simp

/-- The state after `awardPoints` has added the points, before `checkLevelUp`. -/
theorem awardPoints_succ (fuel : Nat) (s : ProgressState) (today reason : Str) (points : Nat) :
    awardPoints (fuel + 1) s today points reason
      = checkLevelUp fuel
          { s with
            totalPoints := s.totalPoints + points
            overallTotalPoints := s.totalPoints + points
            daily := if s.daily.date = today then
                { s.daily with pointsToday := s.daily.pointsToday + points }
              else { questionsToday := 0, timeToday := 0, pointsToday := points, date := today }
            notices := s.notices ++ [Notice.points points reason] }
          today := by
  simp only [awardPoints]

theorem levelUpBonuses_pair (level : Nat) (rest : List Notice) :
    levelUpBonuses (Notice.levelUp level :: Notice.points 100 "Level Up Bonus".toList :: rest)
      = levelUpBonuses rest + 1 := by
  simp [levelUpBonuses, List.filter_cons]

/-- From a state with a level of at least 1, `checkLevelUp` returns within five further
calls, after at most two bonuses, with the level the larger of the old level and the
level of the final total. -/
theorem checkLevelUp_result (s : ProgressState) (today : Str) (hl : 1 ≤ s.level) :
    ∃ (s1 : ProgressState) (tail : List Notice),
      (∀ fuel, 5 ≤ fuel → checkLevelUp fuel s today = some s1) ∧
      s1.notices = s.notices ++ tail ∧
      levelUpBonuses tail ≤ 2 ∧
      s1.totalPoints = s.totalPoints + 100 * levelUpBonuses tail ∧
      s.level ≤ s1.level ∧
      s1.level = max s.level (s1.totalPoints / 500 + 1) ∧
      s1.achievements = s.achievements := by
  have hl0 : s.level ≠ 0 := by omega
  by_cases h1 : s.totalPoints / 500 + 1 > s.level
  · obtain ⟨x, hx, hxt, hxl, hxn, hxa⟩ := checkLevelUp_of_above s today hl0 h1
    have hxl0 : x.level ≠ 0 := by omega
    by_cases h2 : x.totalPoints / 500 + 1 > x.level
    · obtain ⟨y, hy, hyt, hyl, hyn, hya⟩ := checkLevelUp_of_above x today hxl0 h2
      have hy3 : ¬ y.totalPoints / 500 + 1 > y.level := by omega
      refine ⟨y, [Notice.levelUp (s.totalPoints / 500 + 1),
        Notice.points 100 "Level Up Bonus".toList,
        Notice.levelUp (x.totalPoints / 500 + 1),
        Notice.points 100 "Level Up Bonus".toList], ?_, ?_, ?_, ?_, ?_, ?_, ?_⟩
      · intro fuel hf
        obtain ⟨f, rfl⟩ := Nat.exists_eq_add_of_le' hf
        rw [show f + 5 = (f + 3) + 2 from rfl, hx, show f + 3 = (f + 1) + 2 from rfl, hy]
        exact checkLevelUp_of_not_above f y today (by omega) hy3
      · rw [hyn, hxn]
        simp
      · rw [levelUpBonuses_pair, levelUpBonuses_pair]
        exact le_refl _
      · rw [levelUpBonuses_pair, levelUpBonuses_pair,
          show levelUpBonuses [] = 0 from rfl]
        omega
      · omega
      · omega
      · rw [hya, hxa]
    · refine ⟨x, [Notice.levelUp (s.totalPoints / 500 + 1),
        Notice.points 100 "Level Up Bonus".toList], ?_, hxn, ?_, ?_, ?_, ?_, hxa⟩
      · intro fuel hf
        obtain ⟨f, rfl⟩ := Nat.exists_eq_add_of_le' hf
        rw [show f + 5 = (f + 3) + 2 from rfl, hx]
        exact checkLevelUp_of_not_above (f + 2) x today hxl0 h2
      · rw [levelUpBonuses_pair]
        exact Nat.le_succ _
      · rw [levelUpBonuses_pair, show levelUpBonuses [] = 0 from rfl]
        omega
      · omega
      · omega
  · refine ⟨s, [], ?_, ?_, ?_, ?_, ?_, ?_, ?_⟩
    · intro fuel hf
      obtain ⟨f, rfl⟩ := Nat.exists_eq_add_of_le' hf
      exact checkLevelUp_of_not_above _ s today hl0 h1
    · simp
    · decide
    · show s.totalPoints = s.totalPoints + 100 * 0
      omega
    · exact le_refl _
    · omega
    · rfl

/-- C29. For every state with a level of at least 1 and every award, `awardPoints`
returns once the depth allowed for its calls is at least 6, with the same result for
every larger depth: the recursion through `checkLevelUp` ends. It adds the award and at
most two level-up bonuses of 100 to the total, does not lower the level, and leaves the
level equal to the larger of the previous level and `floor(totalPoints / 500) + 1` for
the final total. -/
theorem awardPoints_terminates (s : ProgressState) (today reason : Str) (points : Nat)
    (hl : 1 ≤ s.level) :
    ∃ (s1 : ProgressState) (tail : List Notice),
      (∀ fuel, 6 ≤ fuel → awardPoints fuel s today points reason = some s1) ∧
      s1.notices = s.notices ++ Notice.points points reason :: tail ∧
      levelUpBonuses tail ≤ 2 ∧
      s1.totalPoints = s.totalPoints + points + 100 * levelUpBonuses tail ∧
      s.level ≤ s1.level ∧
      s1.level = max s.level (s1.totalPoints / 500 + 1) := by
  obtain ⟨s1, tail, hrun, hn, hb, ht, hle, hmax, _⟩ := checkLevelUp_result
    { s with
      totalPoints := s.totalPoints + points
      overallTotalPoints := s.totalPoints + points
      daily := if s.daily.date = today then
          { s.daily with pointsToday := s.daily.pointsToday + points }
        else { questionsToday := 0, timeToday := 0, pointsToday := points, date := today }
      notices := s.notices ++ [Notice.points points reason] }
    today hl
  refine ⟨s1, tail, ?_, ?_, hb, ht, hle, hmax⟩
  · intro fuel hf
    obtain ⟨f, rfl⟩ := Nat.exists_eq_add_of_le' hf
    rw [show f + 6 = (f + 5) + 1 from rfl, awardPoints_succ]
    exact hrun (f + 5) (by omega)
  · rw [hn]
    simp

theorem awardPoints_terminates_witness :
    ∃ (s1 : ProgressState) (tail : List Notice),
      (∀ fuel, 6 ≤ fuel →
        awardPoints fuel ⟨450, 450, 1, ⟨0, 0, 0, "Mon".toList⟩, [], []⟩ "Mon".toList 60
          "Question Solved".toList = some s1) ∧
      s1.notices = [] ++ Notice.points 60 "Question Solved".toList :: tail ∧
      levelUpBonuses tail ≤ 2 ∧
      s1.totalPoints = 450 + 60 + 100 * levelUpBonuses tail ∧
      1 ≤ s1.level ∧
      s1.level = max 1 (s1.totalPoints / 500 + 1) :=
  awardPoints_terminates ⟨450, 450, 1, ⟨0, 0, 0, "Mon".toList⟩, [], []⟩ "Mon".toList
    "Question Solved".toList 60 (by decide)

/-! ## Weak and strong areas after a test -/

theorem markWeak_invariant (d : SubjectData) (topic : Str)
    (h : d.weakAreas.Nodup ∧ d.strongAreas.Nodup ∧ List.Disjoint d.weakAreas d.strongAreas) :
    (markWeak d topic).weakAreas.Nodup ∧ (markWeak d topic).strongAreas.Nodup ∧
      List.Disjoint (markWeak d topic).weakAreas (markWeak d topic).strongAreas := by
  obtain ⟨hw, hs, hd⟩ := h
  refine ⟨?_, hs.filter _, ?_⟩
  · show (if topic ∈ d.weakAreas then d.weakAreas else d.weakAreas ++ [topic]).Nodup
    by_cases ht : topic ∈ d.weakAreas
    · rw [if_pos ht]
      exact hw
    · rw [if_neg ht]
      exact List.Nodup.append hw (List.nodup_singleton _) (by simpa using ht)
  · intro x hx1 hx2
    have hx2' : x ∈ d.strongAreas.filter fun t => t ≠ topic := hx2
    rw [List.mem_filter] at hx2'
    have hne : x ≠ topic := by simpa using hx2'.2
    have hx1' : x ∈ (if topic ∈ d.weakAreas then d.weakAreas else d.weakAreas ++ [topic]) := hx1
    by_cases ht : topic ∈ d.weakAreas
    · rw [if_pos ht] at hx1'
      exact hd hx1' hx2'.1
    · rw [if_neg ht, List.mem_append, List.mem_singleton] at hx1'
      rcases hx1' with h1 | h1
      · exact hd h1 hx2'.1
      · exact hne h1

theorem markStrong_invariant (d : SubjectData) (topic : Str)
    (h : d.weakAreas.Nodup ∧ d.strongAreas.Nodup ∧ List.Disjoint d.weakAreas d.strongAreas) :
    (markStrong d topic).weakAreas.Nodup ∧ (markStrong d topic).strongAreas.Nodup ∧
      List.Disjoint (markStrong d topic).weakAreas (markStrong d topic).strongAreas := by
  obtain ⟨hw, hs, hd⟩ := h
  refine ⟨hw.filter _, ?_, ?_⟩
  · show (if topic ∈ d.strongAreas then d.strongAreas else d.strongAreas ++ [topic]).Nodup
    by_cases ht : topic ∈ d.strongAreas
    · rw [if_pos ht]
      exact hs
    · rw [if_neg ht]
      exact List.Nodup.append hs (List.nodup_singleton _) (by simpa using ht)
  · intro x hx1 hx2
    have hx1' : x ∈ d.weakAreas.filter fun t => t ≠ topic := hx1
    rw [List.mem_filter] at hx1'
    have hne : x ≠ topic := by simpa using hx1'.2
    have hx2' : x ∈ (if topic ∈ d.strongAreas then d.strongAreas else d.strongAreas ++ [topic]) :=
      hx2
    by_cases ht : topic ∈ d.strongAreas
    · rw [if_pos ht] at hx2'
      exact hd hx1'.1 hx2'
    · rw [if_neg ht, List.mem_append, List.mem_singleton] at hx2'
      rcases hx2' with h1 | h1
      · exact hd hx1'.1 h1
      · exact hne h1

theorem AreasInvariant_update (subjects : Subjects) (name : Str) (d : SubjectData)
    (hinv : AreasInvariant subjects)
    (hd : d.weakAreas.Nodup ∧ d.strongAreas.Nodup ∧ List.Disjoint d.weakAreas d.strongAreas) :
    AreasInvariant (Function.update subjects name (some d)) := by
  intro n e he
  by_cases hn : n = name
  · subst hn
    rw [Function.update_same] at he
    cases he
    exact hd
  · rw [Function.update_noteq hn] at he
    exact hinv n e he

/-- The shape of `updateAreas`: the records are left alone, or the record of the entry
is marked weak or strong. -/
theorem updateAreas_cases (subjects : Subjects) (topic : Str) (perf : TopicPerformance) :
    (updateAreas subjects topic perf).subjects = subjects ∨
    ∃ d, subjects perf.subject = some d ∧
      ((updateAreas subjects topic perf).subjects
          = Function.update subjects perf.subject (some (markWeak d topic)) ∨
       (updateAreas subjects topic perf).subjects
          = Function.update subjects perf.subject (some (markStrong d topic))) := by
  unfold updateAreas
  cases hs : subjects perf.subject with
  | none =>
    left
    simp only
    split_ifs <;> rfl
  | some d =>
    simp only
    split_ifs
    · exact Or.inl rfl
    · exact Or.inr ⟨d, rfl, Or.inl rfl⟩
    · exact Or.inr ⟨d, rfl, Or.inr rfl⟩
    · exact Or.inl rfl

theorem updateAreas_invariant (subjects : Subjects) (topic : Str) (perf : TopicPerformance)
    (hinv : AreasInvariant subjects) :
    AreasInvariant (updateAreas subjects topic perf).subjects := by
  rcases updateAreas_cases subjects topic perf with h | ⟨d, hd, h | h⟩
  · rw [h]
    exact hinv
  · rw [h]
    exact AreasInvariant_update _ _ _ hinv (markWeak_invariant d topic (hinv _ d hd))
  · rw [h]
    exact AreasInvariant_update _ _ _ hinv (markStrong_invariant d topic (hinv _ d hd))

theorem foldl_analysisStep_invariant (entries : TopicTable) (a : Analysis)
    (hinv : AreasInvariant a.subjects) :
    AreasInvariant (entries.foldl analysisStep a).subjects := by
  induction entries generalizing a with
  | nil => exact hinv
  | cons e rest ih =>
    rw [List.foldl_cons]
    apply ih
    unfold analysisStep
    split_ifs
    · exact updateAreas_invariant _ _ _ hinv
    · exact hinv

theorem mem_markWeak_weak (d : SubjectData) (topic t : Str) :
    t ∈ (markWeak d topic).weakAreas ↔ t ∈ d.weakAreas ∨ t = topic := by
  show t ∈ (if topic ∈ d.weakAreas then d.weakAreas else d.weakAreas ++ [topic]) ↔ _
  by_cases ht : topic ∈ d.weakAreas
  · rw [if_pos ht]
    constructor
    · exact Or.inl
    · rintro (h | h)
      · exact h
      · exact h ▸ ht
  · rw [if_neg ht, List.mem_append, List.mem_singleton]

theorem mem_markWeak_strong (d : SubjectData) (topic t : Str) :
    t ∈ (markWeak d topic).strongAreas ↔ t ∈ d.strongAreas ∧ t ≠ topic := by
  show t ∈ d.strongAreas.filter (fun t => t ≠ topic) ↔ _
  rw [List.mem_filter]
  simp

theorem mem_markStrong_weak (d : SubjectData) (topic t : Str) :
    t ∈ (markStrong d topic).weakAreas ↔ t ∈ d.weakAreas ∧ t ≠ topic := by
  show t ∈ d.weakAreas.filter (fun t => t ≠ topic) ↔ _
  rw [List.mem_filter]
  simp

theorem mem_markStrong_strong (d : SubjectData) (topic t : Str) :
    t ∈ (markStrong d topic).strongAreas ↔ t ∈ d.strongAreas ∨ t = topic := by
  show t ∈ (if topic ∈ d.strongAreas then d.strongAreas else d.strongAreas ++ [topic]) ↔ _
  by_cases ht : topic ∈ d.strongAreas
  · rw [if_pos ht]
    constructor
    · exact Or.inl
    · rintro (h | h)
      · exact h
      · exact h ▸ ht
  · rw [if_neg ht, List.mem_append, List.mem_singleton]

theorem mem_markStrong_completed (d : SubjectData) (topic t : Str) :
    t ∈ (markStrong d topic).topicsCompleted ↔ t ∈ d.topicsCompleted ∨ t = topic := by
  show t ∈ (if topic ∈ d.topicsCompleted then d.topicsCompleted
    else d.topicsCompleted ++ [topic]) ↔ _
  by_cases ht : topic ∈ d.topicsCompleted
  · rw [if_pos ht]
    constructor
    · exact Or.inl
    · rintro (h | h)
      · exact h
      · exact h ▸ ht
  · rw [if_neg ht, List.mem_append, List.mem_singleton]

/-- A topic is recorded as weak for a subject. -/
theorem updateAreas_keeps_weak (subjects : Subjects) (topic : Str) (perf : TopicPerformance)
    (t name : Str) (hne : t ≠ topic)
    (h : ∃ d, subjects name = some d ∧ t ∈ d.weakAreas ∧ t ∉ d.strongAreas) :
    ∃ d, (updateAreas subjects topic perf).subjects name = some d ∧
      t ∈ d.weakAreas ∧ t ∉ d.strongAreas := by
  obtain ⟨d, hd, hw, hs⟩ := h
  rcases updateAreas_cases subjects topic perf with e | ⟨d0, hd0, e | e⟩
  · rw [e]
    exact ⟨d, hd, hw, hs⟩
  · rw [e]
    by_cases hn : name = perf.subject
    · subst hn
      rw [hd] at hd0
      cases hd0
      refine ⟨_, Function.update_same _ _ _, ?_, ?_⟩
      · exact (mem_markWeak_weak d topic t).2 (Or.inl hw)
      · exact fun hx => hs ((mem_markWeak_strong d topic t).1 hx).1
    · rw [Function.update_noteq hn]
      exact ⟨d, hd, hw, hs⟩
  · rw [e]
    by_cases hn : name = perf.subject
    · subst hn
      rw [hd] at hd0
      cases hd0
      refine ⟨_, Function.update_same _ _ _, ?_, ?_⟩
      · exact (mem_markStrong_weak d topic t).2 ⟨hw, hne⟩
      · exact fun hx => ((mem_markStrong_strong d topic t).1 hx).elim hs hne
    · rw [Function.update_noteq hn]
      exact ⟨d, hd, hw, hs⟩

theorem updateAreas_keeps_strong (subjects : Subjects) (topic : Str) (perf : TopicPerformance)
    (t name : Str) (hne : t ≠ topic)
    (h : ∃ d, subjects name = some d ∧ t ∈ d.strongAreas ∧ t ∈ d.topicsCompleted ∧
      t ∉ d.weakAreas) :
    ∃ d, (updateAreas subjects topic perf).subjects name = some d ∧
      t ∈ d.strongAreas ∧ t ∈ d.topicsCompleted ∧ t ∉ d.weakAreas := by
  obtain ⟨d, hd, hs, hc, hw⟩ := h
  rcases updateAreas_cases subjects topic perf with e | ⟨d0, hd0, e | e⟩
  · rw [e]
    exact ⟨d, hd, hs, hc, hw⟩
  · rw [e]
    by_cases hn : name = perf.subject
    · subst hn
      rw [hd] at hd0
      cases hd0
      refine ⟨_, Function.update_same _ _ _, ?_, hc, ?_⟩
      · exact (mem_markWeak_strong d topic t).2 ⟨hs, hne⟩
      · exact fun hx => ((mem_markWeak_weak d topic t).1 hx).elim hw hne
    · rw [Function.update_noteq hn]
      exact ⟨d, hd, hs, hc, hw⟩
  · rw [e]
    by_cases hn : name = perf.subject
    · subst hn
      rw [hd] at hd0
      cases hd0
      refine ⟨_, Function.update_same _ _ _, ?_, ?_, ?_⟩
      · exact (mem_markStrong_strong d topic t).2 (Or.inl hs)
      · exact (mem_markStrong_completed d topic t).2 (Or.inl hc)
      · exact fun hx => hw ((mem_markStrong_weak d topic t).1 hx).1
    · rw [Function.update_noteq hn]
      exact ⟨d, hd, hs, hc, hw⟩

theorem updateAreas_isSome (subjects : Subjects) (topic : Str) (perf : TopicPerformance)
    (name : Str) (h : (subjects name).isSome = true) :
    ((updateAreas subjects topic perf).subjects name).isSome = true := by
  rcases updateAreas_cases subjects topic perf with e | ⟨d0, _, e | e⟩ <;> rw [e]
  · exact h
  all_goals
    by_cases hn : name = perf.subject
    · subst hn
      rw [Function.update_same]
      rfl
    · rw [Function.update_noteq hn]
      exact h

/-- With a record for the subject, `updateAreas` does not throw; with an accuracy below
0.6 the topic ends weak, and with an accuracy of at least 0.8 it ends strong. -/
theorem updateAreas_self (subjects : Subjects) (topic : Str) (perf : TopicPerformance)
    (hsome : (subjects perf.subject).isSome = true) (htotal : 0 < perf.total) :
    (updateAreas subjects topic perf).completed = true ∧
    (accuracy perf < 0.6 →
      ∃ d, (updateAreas subjects topic perf).subjects perf.subject = some d ∧
        topic ∈ d.weakAreas ∧ topic ∉ d.strongAreas) ∧
    (accuracy perf ≥ 0.8 →
      ∃ d, (updateAreas subjects topic perf).subjects perf.subject = some d ∧
        topic ∈ d.strongAreas ∧ topic ∈ d.topicsCompleted ∧ topic ∉ d.weakAreas) := by
  obtain ⟨d, hd⟩ := Option.isSome_iff_exists.1 hsome
  have ht : perf.total ≠ 0 := by omega
  unfold updateAreas
  rw [hd]
  simp only [ht, if_false]
  by_cases h1 : accuracy perf < 0.6
  · rw [if_pos h1]
    refine ⟨rfl, fun _ => ⟨_, Function.update_same _ _ _, ?_, ?_⟩, fun h2 => ?_⟩
    · exact (mem_markWeak_weak d topic topic).2 (Or.inr rfl)
    · exact fun hx => ((mem_markWeak_strong d topic topic).1 hx).2 rfl
    · exfalso
      have : (0.6 : ℚ) < 0.8 := by norm_num
      exact absurd (lt_of_lt_of_le h1 (le_trans (le_of_lt this) h2)) (lt_irrefl _)
  · rw [if_neg h1]
    by_cases h2 : accuracy perf ≥ 0.8
    · rw [if_pos h2]
      refine ⟨rfl, fun h => absurd h h1, fun _ => ⟨_, Function.update_same _ _ _, ?_, ?_, ?_⟩⟩
      · exact (mem_markStrong_strong d topic topic).2 (Or.inr rfl)
      · exact (mem_markStrong_completed d topic topic).2 (Or.inr rfl)
      · exact fun hx => ((mem_markStrong_weak d topic topic).1 hx).2 rfl
    · rw [if_neg h2]
      exact ⟨rfl, fun h => absurd h h1, fun h => absurd h h2⟩

theorem foldl_analysisStep_of_not_completed (entries : TopicTable) (a : Analysis)
    (h : a.completed = false) : entries.foldl analysisStep a = a := by
  induction entries with
  | nil => rfl
  | cons e rest ih =>
    rw [List.foldl_cons, show analysisStep a e = a from by simp [analysisStep, h]]
    exact ih

theorem analysisStep_isSome (a : Analysis) (e : Str × TopicPerformance) (name : Str)
    (h : (a.subjects name).isSome = true) :
    ((analysisStep a e).subjects name).isSome = true := by
  unfold analysisStep
  split_ifs
  · exact updateAreas_isSome _ _ _ _ h
  · exact h

theorem foldl_analysisStep_keeps_weak (entries : TopicTable) (a : Analysis) (t name : Str)
    (hkeys : ∀ e ∈ entries, t ≠ e.1)
    (h : ∃ d, a.subjects name = some d ∧ t ∈ d.weakAreas ∧ t ∉ d.strongAreas) :
    ∃ d, (entries.foldl analysisStep a).subjects name = some d ∧
      t ∈ d.weakAreas ∧ t ∉ d.strongAreas := by
  induction entries generalizing a with
  | nil => exact h
  | cons e rest ih =>
    rw [List.foldl_cons]
    apply ih _ (fun x hx => hkeys x (List.mem_cons_of_mem _ hx))
    unfold analysisStep
    split_ifs
    · exact updateAreas_keeps_weak _ _ _ _ _ (hkeys e (List.mem_cons_self _ _)) h
    · exact h

theorem foldl_analysisStep_keeps_strong (entries : TopicTable) (a : Analysis) (t name : Str)
    (hkeys : ∀ e ∈ entries, t ≠ e.1)
    (h : ∃ d, a.subjects name = some d ∧ t ∈ d.strongAreas ∧ t ∈ d.topicsCompleted ∧
      t ∉ d.weakAreas) :
    ∃ d, (entries.foldl analysisStep a).subjects name = some d ∧
      t ∈ d.strongAreas ∧ t ∈ d.topicsCompleted ∧ t ∉ d.weakAreas := by
  induction entries generalizing a with
  | nil => exact h
  | cons e rest ih =>
    rw [List.foldl_cons]
    apply ih _ (fun x hx => hkeys x (List.mem_cons_of_mem _ hx))
    unfold analysisStep
    split_ifs
    · exact updateAreas_keeps_strong _ _ _ _ _ (hkeys e (List.mem_cons_self _ _)) h
    · exact h

/-- An entry of a table with distinct keys, processed by a run that does not throw. -/
theorem foldl_analysisStep_entry (entries : TopicTable) (a : Analysis) (topic : Str)
    (perf : TopicPerformance) (hnodup : (entries.map Prod.fst).Nodup)
    (hmem : (topic, perf) ∈ entries) (htotal : 0 < perf.total)
    (hsome : (a.subjects perf.subject).isSome = true)
    (hcomp : (entries.foldl analysisStep a).completed = true) :
    (accuracy perf < 0.6 →
      ∃ d, (entries.foldl analysisStep a).subjects perf.subject = some d ∧
        topic ∈ d.weakAreas ∧ topic ∉ d.strongAreas) ∧
    (accuracy perf ≥ 0.8 →
      ∃ d, (entries.foldl analysisStep a).subjects perf.subject = some d ∧
        topic ∈ d.strongAreas ∧ topic ∈ d.topicsCompleted ∧ topic ∉ d.weakAreas) := by
  induction entries generalizing a with
  | nil => exact absurd hmem (List.not_mem_nil _)
  | cons e rest ih =>
    rw [List.map_cons, List.nodup_cons] at hnodup
    rw [List.foldl_cons] at hcomp ⊢
    rcases List.mem_cons.1 hmem with he | hrest
    · subst he
      have ha : a.completed = true := by
        by_contra hc
        have hc' : a.completed = false := by simpa using hc
        rw [show analysisStep a (topic, perf) = a from by simp [analysisStep, hc'],
          foldl_analysisStep_of_not_completed rest a hc'] at hcomp
        exact hc hcomp
      have hstep : analysisStep a (topic, perf) = updateAreas a.subjects topic perf := by
        simp [analysisStep, ha]
      rw [hstep]
      have hkeys : ∀ x ∈ rest, topic ≠ x.1 := by
        intro x hx hxe
        have hx1 : x.1 ∈ rest.map Prod.fst := List.mem_map_of_mem Prod.fst hx
        rw [← hxe] at hx1
        exact hnodup.1 hx1
      obtain ⟨_, hweak, hstrong⟩ := updateAreas_self a.subjects topic perf hsome htotal
      exact ⟨fun h => foldl_analysisStep_keeps_weak rest _ topic _ hkeys (hweak h),
        fun h => foldl_analysisStep_keeps_strong rest _ topic _ hkeys (hstrong h)⟩
    · exact ih _ hnodup.2 hrest (analysisStep_isSome a e _ hsome) hcomp

theorem objectEntries_perm (table : TopicTable) : (objectEntries table).Perm table := by
  unfold objectEntries
  refine List.Perm.trans (List.Perm.append_right _ (List.perm_insertionSort _ _)) ?_
  have h := List.filter_append_perm (fun e : Str × TopicPerformance => (arrayIndex e.1).isSome)
    table
  simpa using h

/-! ## The table of topics -/

theorem answersOn_append (rs : List QuestionResult) (r : QuestionResult) (k : Str) :
    answersOn (rs ++ [r]) k = answersOn rs k + if r.topic = some k then 1 else 0 := by
  unfold answersOn
  rw [List.countP_append, List.countP_cons, List.countP_nil]
  simp

theorem correctAnswersOn_append (rs : List QuestionResult) (r : QuestionResult) (k : Str) :
    correctAnswersOn (rs ++ [r]) k
      = correctAnswersOn rs k + if r.topic = some k ∧ r.isCorrect = true then 1 else 0 := by
  unfold correctAnswersOn
  rw [List.countP_append, List.countP_cons, List.countP_nil]
  simp

theorem subjectOf_append_of_some (rs : List QuestionResult) (r : QuestionResult) (k s : Str)
    (h : subjectOf rs k = some s) : subjectOf (rs ++ [r]) k = some s := by
  unfold subjectOf at h ⊢
  rw [List.find?_append]
  cases hf : rs.find? fun r => r.topic == some k with
  | none => rw [hf] at h; cases h
  | some x => rw [hf] at h; exact h

theorem lookup_isSome_iff (table : TopicTable) (t : Str) :
    (table.lookup t).isSome = true ↔ t ∈ table.map Prod.fst := by
  induction table with
  | nil => simp
  | cons e rest ih =>
    obtain ⟨k, p⟩ := e
    rw [List.lookup_cons]
    by_cases h : t = k
    · subst h
      rw [beq_self_eq_true]
      exact ⟨fun _ => List.mem_cons_self _ _, fun _ => rfl⟩
    · have hb : (t == k) = false := by simpa using h
      rw [hb]
      simp only [List.map_cons, List.mem_cons, h, false_or]
      exact ih

theorem countInTable_keys (table : TopicTable) (t : Str) (c : Bool) :
    (countInTable table t c).map Prod.fst = table.map Prod.fst := by
  induction table with
  | nil => rfl
  | cons e rest ih =>
    obtain ⟨k, p⟩ := e
    unfold countInTable
    split_ifs
    · rfl
    · rw [List.map_cons, List.map_cons, ih]

theorem mem_countInTable (table : TopicTable) (t : Str) (c : Bool)
    (hnd : (table.map Prod.fst).Nodup) (k : Str) (p : TopicPerformance)
    (h : (k, p) ∈ countInTable table t c) :
    (k ≠ t ∧ (k, p) ∈ table) ∨ (k = t ∧ ∃ p0, (t, p0) ∈ table ∧ p = countResult p0 c) := by
  induction table with
  | nil => exact absurd h (List.not_mem_nil _)
  | cons e rest ih =>
    obtain ⟨k0, p0⟩ := e
    rw [List.map_cons, List.nodup_cons] at hnd
    unfold countInTable at h
    by_cases hk : k0 = t
    · rw [if_pos hk] at h
      rcases List.mem_cons.1 h with h1 | h1
      · cases h1
        exact Or.inr ⟨hk, p0, hk ▸ List.mem_cons_self _ _, rfl⟩
      · left
        refine ⟨?_, List.mem_cons_of_mem _ h1⟩
        intro hkt
        have hx : k ∈ rest.map Prod.fst := List.mem_map_of_mem Prod.fst h1
        rw [hkt, ← hk] at hx
        exact hnd.1 hx
    · rw [if_neg hk] at h
      rcases List.mem_cons.1 h with h1 | h1
      · cases h1
        exact Or.inl ⟨hk, List.mem_cons_self _ _⟩
      · rcases ih hnd.2 h1 with ⟨h2, h3⟩ | ⟨h2, q, h3, h4⟩
        · exact Or.inl ⟨h2, List.mem_cons_of_mem _ h3⟩
        · exact Or.inr ⟨h2, q, List.mem_cons_of_mem _ h3, h4⟩

/-- A result that leaves the table as it is and is on none of its keys. -/
theorem TopicTableInvariant_skip (rs : List QuestionResult) (table : TopicTable)
    (r : QuestionResult) (h : TopicTableInvariant rs table)
    (hkeys : ∀ k ∈ table.map Prod.fst, r.topic ≠ some k)
    (hcov : ∀ t, r.topic = some t → t ≠ [] → t ∉ objectPrototypeKeys →
      t ∈ table.map Prod.fst) :
    TopicTableInvariant (rs ++ [r]) table := by
  obtain ⟨hnd, hent, hc⟩ := h
  refine ⟨hnd, ?_, ?_⟩
  · intro k p hkp
    obtain ⟨h1, h2, h3, h4, h5⟩ := hent k p hkp
    have hne : r.topic ≠ some k := hkeys k (List.mem_map_of_mem Prod.fst hkp)
    refine ⟨h1, ?_, ?_, h4, subjectOf_append_of_some rs r k _ h5⟩
    · rw [answersOn_append, if_neg hne, h2]
      rfl
    · rw [correctAnswersOn_append, if_neg (fun hx => hne hx.1), h3]
      rfl
  · intro x hx t ht ht1 ht2
    rcases List.mem_append.1 hx with hx1 | hx1
    · exact hc x hx1 t ht ht1 ht2
    · rw [List.mem_singleton] at hx1
      subst hx1
      exact hcov t ht ht1 ht2

theorem answersOn_of_not_key (rs : List QuestionResult) (table : TopicTable) (t : Str)
    (h : TopicTableInvariant rs table) (ht1 : t ≠ []) (ht2 : t ∉ objectPrototypeKeys)
    (hkey : t ∉ table.map Prod.fst) :
    ∀ r ∈ rs, r.topic ≠ some t := by
  intro r hr hrt
  exact hkey (h.2.2 r hr t hrt ht1 ht2)

theorem recordTopic_invariant (rs : List QuestionResult) (table : TopicTable)
    (r : QuestionResult) (h : TopicTableInvariant rs table) :
    TopicTableInvariant (rs ++ [r]) (recordTopic table r) := by
  unfold recordTopic
  cases ht : r.topic with
  | none =>
    simp only
    exact TopicTableInvariant_skip rs table r h (fun k _ hk => by rw [ht] at hk; cases hk)
      (fun t hx => by rw [ht] at hx; cases hx)
  | some topic =>
    simp only
    by_cases h0 : topic = []
    · rw [if_pos h0]
      refine TopicTableInvariant_skip rs table r h ?_ ?_
      · intro k hk hx
        obtain ⟨⟨k1, p⟩, hkp, hk1⟩ := List.mem_map.1 hk
        have hk2 : k1 = k := hk1
        subst hk2
        rw [ht] at hx
        cases hx
        exact (h.2.1 _ p hkp).1 h0
      · intro t hx ht1
        rw [ht] at hx
        cases hx
        exact absurd h0 ht1
    · rw [if_neg h0]
      by_cases h1 : (table.lookup topic).isSome = true
      · rw [if_pos h1]
        have hkey : topic ∈ table.map Prod.fst := (lookup_isSome_iff table topic).1 h1
        obtain ⟨hnd, hent, hc⟩ := h
        refine ⟨by rw [countInTable_keys]; exact hnd, ?_, ?_⟩
        · intro k p hkp
          rcases mem_countInTable table topic r.isCorrect hnd k p hkp with
            ⟨hk, hmem⟩ | ⟨hk, p0, hmem, hp⟩
          · obtain ⟨a1, a2, a3, a4, a5⟩ := hent k p hmem
            have hne : r.topic ≠ some k := by
              rw [ht]
              intro hx
              cases hx
              exact hk rfl
            refine ⟨a1, ?_, ?_, a4, subjectOf_append_of_some rs r k _ a5⟩
            · rw [answersOn_append, if_neg hne, a2]
              rfl
            · rw [correctAnswersOn_append, if_neg (fun hx => hne hx.1), a3]
              rfl
          · subst hk
            subst hp
            obtain ⟨a1, a2, a3, a4, a5⟩ := hent k p0 hmem
            refine ⟨a1, ?_, ?_, Nat.succ_pos _, subjectOf_append_of_some rs r k _ a5⟩
            · rw [answersOn_append, if_pos ht, ← a2]
              rfl
            · rw [correctAnswersOn_append, ← a3]
              cases hcor : r.isCorrect <;> simp [countResult, ht]
        · intro x hx t hxt ht1 ht2
          rw [countInTable_keys]
          rcases List.mem_append.1 hx with hx1 | hx1
          · exact hc x hx1 t hxt ht1 ht2
          · rw [List.mem_singleton] at hx1
            subst hx1
            rw [ht] at hxt
            cases hxt
            exact hkey
      · rw [if_neg h1]
        have hkey : topic ∉ table.map Prod.fst := fun hx =>
          h1 ((lookup_isSome_iff table topic).2 hx)
        have hkeys : ∀ k ∈ table.map Prod.fst, r.topic ≠ some k := by
          intro k hk hx
          rw [ht] at hx
          cases hx
          exact hkey hk
        by_cases h2 : topic ∈ objectPrototypeKeys
        · rw [if_pos h2]
          refine TopicTableInvariant_skip rs table r h hkeys ?_
          intro t hx _ ht2
          rw [ht] at hx
          cases hx
          exact absurd h2 ht2
        · rw [if_neg h2]
          have hnone := answersOn_of_not_key rs table topic h h0 h2 hkey
          obtain ⟨hnd, hent, hc⟩ := h
          refine ⟨?_, ?_, ?_⟩
          · rw [List.map_append, List.map_cons, List.map_nil]
            refine List.Nodup.append hnd (List.nodup_singleton _) ?_
            intro x hx hx1
            rw [List.mem_singleton] at hx1
            have hx2 : x = topic := hx1
            rw [hx2] at hx
            exact hkey hx
          · intro k p hkp
            rcases List.mem_append.1 hkp with hmem | hmem
            · obtain ⟨a1, a2, a3, a4, a5⟩ := hent k p hmem
              have hne : r.topic ≠ some k := hkeys k (List.mem_map_of_mem Prod.fst hmem)
              refine ⟨a1, ?_, ?_, a4, subjectOf_append_of_some rs r k _ a5⟩
              · rw [answersOn_append, if_neg hne, a2]
                rfl
              · rw [correctAnswersOn_append, if_neg (fun hx => hne hx.1), a3]
                rfl
            · rw [List.mem_singleton] at hmem
              cases hmem
              have hz1 : answersOn rs topic = 0 := by
                unfold answersOn
                rw [List.countP_eq_zero]
                intro x hx
                simpa using hnone x hx
              have hz2 : correctAnswersOn rs topic = 0 := by
                unfold correctAnswersOn
                rw [List.countP_eq_zero]
                intro x hx
                have := hnone x hx
                simp [this]
              have hz3 : rs.find? (fun r => r.topic == some topic) = none := by
                rw [List.find?_eq_none]
                intro x hx
                simpa using hnone x hx
              refine ⟨h0, ?_, ?_, Nat.succ_pos _, ?_⟩
              · rw [answersOn_append, if_pos ht, hz1]
                rfl
              · rw [correctAnswersOn_append, hz2]
                cases hcor : r.isCorrect <;> simp [countResult, ht]
              · unfold subjectOf
                rw [List.find?_append, hz3]
                simp [List.find?_cons, ht, countResult]
          · intro x hx t hxt ht1 ht2
            rw [List.map_append, List.mem_append]
            rcases List.mem_append.1 hx with hx1 | hx1
            · exact Or.inl (hc x hx1 t hxt ht1 ht2)
            · rw [List.mem_singleton] at hx1
              subst hx1
              rw [ht] at hxt
              cases hxt
              exact Or.inr (by simp)

theorem topicTable_invariant (results : List QuestionResult) :
    TopicTableInvariant results (topicTable results) := by
  induction results using List.reverseRecOn with
  | nil =>
    exact ⟨List.nodup_nil, fun _ _ h => absurd h (List.not_mem_nil _),
      fun _ h => absurd h (List.not_mem_nil _)⟩
  | append_singleton rs r ih =>
    have e : topicTable (rs ++ [r]) = recordTopic (topicTable rs) r := by
      unfold topicTable
      rw [List.foldl_append]
      rfl
    rw [e]
    exact recordTopic_invariant rs _ r ih

theorem topicTable_entry (results : List QuestionResult) (topic : Str)
    (h0 : topic ≠ []) (h1 : topic ∉ objectPrototypeKeys) (h2 : 0 < answersOn results topic) :
    ∃ perf, (topic, perf) ∈ topicTable results ∧ perf.total = answersOn results topic ∧
      perf.correct = correctAnswersOn results topic ∧
      subjectOf results topic = some perf.subject := by
  obtain ⟨_, hent, hc⟩ := topicTable_invariant results
  unfold answersOn at h2
  rw [List.countP_pos_iff] at h2
  obtain ⟨r, hr, hrt⟩ := h2
  have hrt' : r.topic = some topic := by simpa using hrt
  obtain ⟨⟨k, perf⟩, hmem, hk⟩ := List.mem_map.1 (hc r hr topic hrt' h0 h1)
  have hk' : k = topic := hk
  subst hk'
  obtain ⟨_, a2, a3, _, a5⟩ := hent k perf hmem
  exact ⟨perf, hmem, a2, a3, a5⟩

theorem defaultSubjects_invariant : AreasInvariant defaultSubjects := by
  intro name d h
  unfold defaultSubjects at h
  split_ifs at h
  · cases h
    refine ⟨by decide, by decide, ?_⟩
    have hd : ∀ x ∈ ["Coordinate Geometry".toList, "Triangles".toList],
        x ∉ ["Algebra".toList, "Number Systems".toList] := by decide
    exact fun x hx hy => hd x hx hy
  · cases h
    refine ⟨by decide, by decide, ?_⟩
    have hd : ∀ x ∈ ["Sound".toList, "Gravitation".toList],
        x ∉ ["Chemistry".toList, "Biology".toList] := by decide
    exact fun x hx hy => hd x hx hy
  · cases h
    refine ⟨by decide, by decide, ?_⟩
    have hd : ∀ x ∈ ["Geography".toList], x ∉ ["History".toList, "Civics".toList] := by
      decide
    exact fun x hx hy => hd x hx hy

set_option maxRecDepth 100000 in
/-- C30 as stated fails: the only result of the test is a wrong answer on the topic
`Verbs` of the subject `english`, which has no record among the default ones. The call
returns and `english` still has no record, so `Verbs` is in no list of weak areas. -/
theorem analyzeTestPerformance_without_record :
    AreasInvariant defaultSubjects ∧
    correctAnswersOn [⟨"english".toList, some "Verbs".toList, false⟩] "Verbs".toList = 0 ∧
    answersOn [⟨"english".toList, some "Verbs".toList, false⟩] "Verbs".toList = 1 ∧
    subjectOf [⟨"english".toList, some "Verbs".toList, false⟩] "Verbs".toList
      = some "english".toList ∧
    (analyzeTestPerformance defaultSubjects
      [⟨"english".toList, some "Verbs".toList, false⟩]).completed = true ∧
    (analyzeTestPerformance defaultSubjects
      [⟨"english".toList, some "Verbs".toList, false⟩]).subjects "english".toList = none := by
  exact ⟨defaultSubjects_invariant, by decide, by decide, by decide, by decide, by decide⟩

/-- C30 (amended). For every list of question results, `analyzeTestPerformance` keeps
the weak and the strong areas of every subject disjoint and free of duplicates.
Moreover, when the call returns, a topic of the test that is neither empty nor the name
of a property inherited from `Object.prototype`, and whose subject (that of its first
result) has a progress record, ends in the weak and not in the strong areas of that
subject if its accuracy is below 0.6, and in the strong areas and the completed topics
and not in the weak areas if its accuracy is at least 0.8 (accuracy as an exact
rational). -/
theorem analyzeTestPerformance_areas (subjects : Subjects) (results : List QuestionResult)
    (hinv : AreasInvariant subjects) :
    AreasInvariant (analyzeTestPerformance subjects results).subjects ∧
    ∀ topic, topic ≠ [] → topic ∉ objectPrototypeKeys → 0 < answersOn results topic →
      ∃ subject, subjectOf results topic = some subject ∧
        ((analyzeTestPerformance subjects results).completed = true →
         (subjects subject).isSome = true →
          ((correctAnswersOn results topic : ℚ) / (answersOn results topic : ℚ) < 0.6 →
            ∃ d, (analyzeTestPerformance subjects results).subjects subject = some d ∧
              topic ∈ d.weakAreas ∧ topic ∉ d.strongAreas) ∧
          ((correctAnswersOn results topic : ℚ) / (answersOn results topic : ℚ) ≥ 0.8 →
            ∃ d, (analyzeTestPerformance subjects results).subjects subject = some d ∧
              topic ∈ d.strongAreas ∧ topic ∈ d.topicsCompleted ∧ topic ∉ d.weakAreas)) := by
  refine ⟨foldl_analysisStep_invariant _ _ hinv, ?_⟩
  intro topic h0 h1 h2
  obtain ⟨perf, hmem, a2, a3, a5⟩ := topicTable_entry results topic h0 h1 h2
  refine ⟨perf.subject, a5, ?_⟩
  intro hcomp hsome
  have hperm := objectEntries_perm (topicTable results)
  have hnd : ((objectEntries (topicTable results)).map Prod.fst).Nodup :=
    (List.Perm.nodup_iff (hperm.map Prod.fst)).2 (topicTable_invariant results).1
  have hacc : accuracy perf
      = (correctAnswersOn results topic : ℚ) / (answersOn results topic : ℚ) := by
    unfold accuracy
    rw [a2, a3]
  rw [← hacc]
  exact foldl_analysisStep_entry (objectEntries (topicTable results)) ⟨subjects, true⟩ topic
    perf hnd (hperm.mem_iff.2 hmem) (a2 ▸ h2) hsome hcomp

set_option maxRecDepth 100000 in
theorem analyzeTestPerformance_areas_witness :
    AreasInvariant defaultSubjects ∧
    AreasInvariant (analyzeTestPerformance defaultSubjects
      [⟨"mathematics".toList, some "Triangles".toList, true⟩]).subjects ∧
    ∃ d, (analyzeTestPerformance defaultSubjects
        [⟨"mathematics".toList, some "Triangles".toList, true⟩]).subjects "mathematics".toList
          = some d ∧
      "Triangles".toList ∈ d.strongAreas ∧ "Triangles".toList ∈ d.topicsCompleted ∧
      "Triangles".toList ∉ d.weakAreas := by
  have h := analyzeTestPerformance_areas defaultSubjects
    [⟨"mathematics".toList, some "Triangles".toList, true⟩] defaultSubjects_invariant
  refine ⟨defaultSubjects_invariant, h.1, ?_⟩
  obtain ⟨subject, hs, hrest⟩ := h.2 "Triangles".toList (by decide) (by decide) (by decide)
  have hs1 : subjectOf [⟨"mathematics".toList, some "Triangles".toList, true⟩]
      "Triangles".toList = some "mathematics".toList := by decide
  rw [hs1] at hs
  cases hs
  have hcomp : (analyzeTestPerformance defaultSubjects
      [⟨"mathematics".toList, some "Triangles".toList, true⟩]).completed = true := by
    have he : objectEntries (topicTable [⟨"mathematics".toList, some "Triangles".toList, true⟩])
        = [("Triangles".toList, ⟨1, 1, "mathematics".toList⟩)] := by decide
    show ((objectEntries (topicTable [⟨"mathematics".toList, some "Triangles".toList,
      true⟩])).foldl analysisStep ⟨defaultSubjects, true⟩).completed = true
    rw [he]
    exact (updateAreas_self defaultSubjects "Triangles".toList ⟨1, 1, "mathematics".toList⟩
      (by decide) (by decide)).1
  refine (hrest hcomp (by decide)).2 ?_
  rw [show correctAnswersOn [⟨"mathematics".toList, some "Triangles".toList, true⟩]
      "Triangles".toList = 1 from by decide,
    show answersOn [⟨"mathematics".toList, some "Triangles".toList, true⟩]
      "Triangles".toList = 1 from by decide]
  norm_num

/-! ## Unlocking an achievement twice -/

/-- No key of the catalog is the `id` of a catalog achievement: the keys are upper case
and the `id` fields lower case. -/
theorem achievementCatalog_key_ne_id :
    ∀ entry ∈ achievementCatalog, ∀ other ∈ achievementCatalog, other.2.id ≠ entry.1 := by
  decide

set_option maxRecDepth 100000 in
/-- C28 at a failing input: `unlockAchievement` with the catalog key `STREAK_7`, called
twice from an empty list of earned achievements and no points, leaves the achievement
`streak_7` twice in the list and a total of 200 points: the second call finds no earned
achievement whose `id` is `STREAK_7`. -/
theorem unlockAchievement_twice :
    hasAchievement
      ⟨100, 100, 1, ⟨0, 0, 100, "Mon".toList⟩,
        [⟨⟨"streak_7".toList, "7-Day Streak".toList, "Study for 7 consecutive days".toList,
          "fas fa-fire".toList, 100⟩, 1⟩], []⟩ "STREAK_7".toList = false ∧
    ((unlockAchievement 10 ⟨0, 0, 1, ⟨0, 0, 0, "Mon".toList⟩, [], []⟩ "Mon".toList 1
        "STREAK_7".toList).bind
      fun s => unlockAchievement 10 s "Mon".toList 2 "STREAK_7".toList).map
      (fun s => (s.achievements.map fun a => (a.achievement.id, a.earnedAt), s.totalPoints))
      = some ([("streak_7".toList, 1), ("streak_7".toList, 2)], 200) := by
  decide

/-! ## The rate limit for the action keys the program passes

The callers pass the literals `questions_hour` and `tests_day`; neither these nor any
other configured or ordinary key names a property inherited from `Object.prototype`. -/

/-- C6. For every action key that does not name an inherited property, starting from no
stored record and with every call made within one window of the first, call number `i`
(counted from 0) returns `true` exactly when `i` is below the ceiling of the key: the
first `c` calls return `true` and call `c + 1` returns `false`. The ceiling is 50 for
`questions_hour`, 20 for `photos_hour`, 10 for `tests_day` and 100 for every other key. -/
theorem checkRateLimit_allows_up_to_ceiling (action : Str)
    (hn : action ∉ objectPrototypeKeys) (first : Nat) (rest : List Nat)
    (hwin : ∀ t ∈ rest, ∀ W, windowLength action = some W → t ≤ first + W) :
    (checkRateLimitAll emptyStore action (first :: rest)).1
      = (List.range (rest.length + 1)).map (fun i => decide (i < ceilingOf action)) ∧
    ceilingOf "questions_hour".toList = 50 ∧ ceilingOf "photos_hour".toList = 20 ∧
    ceilingOf "tests_day".toList = 10 ∧
    (action ≠ "questions_hour".toList → action ≠ "photos_hour".toList →
      action ≠ "tests_day".toList → ceilingOf action = 100) := by
  refine ⟨checkRateLimitAll_ceiling action hn first rest hwin, by decide, by decide,
    by decide, ?_⟩
  intro h1 h2 h3
  unfold ceilingOf
  rw [if_neg h1, if_neg h2, if_neg h3]

set_option maxRecDepth 100000 in
theorem checkRateLimit_allows_up_to_ceiling_witness :
    "tests_day".toList ∉ objectPrototypeKeys ∧
    (checkRateLimitAll emptyStore "tests_day".toList
      (1700000000000 :: List.replicate 10 1700000000001)).1
        = List.replicate 10 true ++ [false] :=
  ⟨by decide,
   (checkRateLimit_allows_up_to_ceiling "tests_day".toList (by decide) 1700000000000
      (List.replicate 10 1700000000001)
      (fun t ht W hW => by
        have ht2 : t = 1700000000001 := List.eq_of_mem_replicate ht
        have hw : windowLength "tests_day".toList = some 86400000 := by decide
        rw [hw] at hW
        cases hW
        omega)).1.trans (by decide)⟩

/-- The function never writes a window start of `0` at a clock that is not `0`: if no
stored record of the action has one before a call, none has after it. -/
theorem checkRateLimit_timestamp_ne_zero (store : RateStore) (action : Str) (now : Nat)
    (hnow : now ≠ 0)
    (h : ∀ d, store (rateKey action) = some d → d.timestamp ≠ 0) :
    ∀ d, (checkRateLimit store action now).2 (rateKey action) = some d → d.timestamp ≠ 0 := by
  intro d hd
  unfold checkRateLimit at hd
  dsimp only at hd
  split_ifs at hd with h1 h2
  · exact h d hd
  · simp only [setItem, if_true, Option.some.injEq] at hd
    subst hd
    exact h2
  · simp only [setItem, if_true, Option.some.injEq] at hd
    subst hd
    show (now : Int) ≠ 0
    exact_mod_cast hnow

/-- After any calls at clocks that are not `0`, starting from no stored record, the
stored window start of the action is not `0`. -/
theorem checkRateLimitAll_timestamp_ne_zero (action : Str) (times : List Nat)
    (hpos : ∀ t ∈ times, t ≠ 0) :
    ∀ store : RateStore, (∀ d, store (rateKey action) = some d → d.timestamp ≠ 0) →
      ∀ d, (checkRateLimitAll store action times).2 (rateKey action) = some d →
        d.timestamp ≠ 0 := by
  induction times with
  | nil => intro store h; exact h
  | cons t rest ih =>
    intro store h
    exact ih (fun x hx => hpos x (List.mem_cons_of_mem _ hx)) _
      (checkRateLimit_timestamp_ne_zero store action t (hpos t (List.mem_cons_self _ _)) h)

/-- C7. For an action key that names an hourly or a daily window of length `W`, and a
stored record with any count and a window start as the function writes it (not `0`):
when `now` minus the stored window start exceeds `W`, the call returns `true` and stores
a count of 1 with window start `now`; when it does not, no reset happens and the stored
window start is kept, the call being either denied with the store left alone or allowed
with the count plus one stored. The record after a call at a clock that is not `0` has
again a window start that is not `0`. -/
theorem checkRateLimit_window_kept (store : RateStore) (action : Str) (now W : Nat)
    (d : RateData) (hW : windowLength action = some W)
    (hd : store (rateKey action) = some d) (hts : d.timestamp ≠ 0) :
    ((W : Int) < now - d.timestamp →
      checkRateLimit store action now
        = (true, setItem store (rateKey action) { count := 1, timestamp := now })) ∧
    (¬ (W : Int) < now - d.timestamp →
      resetWindow action d now = d ∧
      (checkRateLimit store action now =
        if reachedLimit d.count action then (false, store)
        else (true, setItem store (rateKey action)
          { count := d.count + 1, timestamp := d.timestamp })) ∧
      ∃ d1, (checkRateLimit store action now).2 (rateKey action) = some d1 ∧
        d1.timestamp = d.timestamp) ∧
    (now ≠ 0 →
      ∀ d1, (checkRateLimit store action now).2 (rateKey action) = some d1 →
        d1.timestamp ≠ 0) := by
  obtain ⟨h1, h2⟩ := checkRateLimit_window store action now W d hW hd
  refine ⟨h1, fun h => ?_, fun hnow => ?_⟩
  · obtain ⟨hr, hc⟩ := h2 h
    have hc2 := hc hts
    refine ⟨hr, hc2, ?_⟩
    rw [hc2]
    by_cases hl : reachedLimit d.count action = true
    · rw [if_pos hl]
      exact ⟨d, hd, rfl⟩
    · rw [if_neg hl]
      exact ⟨⟨d.count + 1, d.timestamp⟩, by simp [setItem], rfl⟩
  · apply checkRateLimit_timestamp_ne_zero store action now hnow
    intro d1 hd1
    rw [hd] at hd1
    cases hd1
    exact hts

theorem checkRateLimit_window_kept_witness :
    checkRateLimit (setItem emptyStore (rateKey "questions_hour".toList) ⟨7, 1700000000000⟩)
        "questions_hour".toList 1700000500000
      = (true, setItem (setItem emptyStore (rateKey "questions_hour".toList)
            ⟨7, 1700000000000⟩)
          (rateKey "questions_hour".toList) { count := 8, timestamp := 1700000000000 }) :=
  ((checkRateLimit_window_kept
      (setItem emptyStore (rateKey "questions_hour".toList) ⟨7, 1700000000000⟩)
      "questions_hour".toList 1700000500000 3600000 ⟨7, 1700000000000⟩ (by decide) (by decide)
      (by decide)).2.1 (by decide)).2.1.trans (by
        rw [if_neg (by decide)]
        rfl)

/-- C9. For every action key that does not name an inherited property, every store
whose record for the key, if any, has a count of at most the ceiling (no stored record
included), and every sequence of calls at any times: after every number of these calls
the stored count does not exceed the ceiling, and a further call at any time returns
`true` exactly when the count it observes after the window-reset check is below the
ceiling. -/
theorem checkRateLimit_count_invariant (action : Str) (hn : action ∉ objectPrototypeKeys)
    (store : RateStore)
    (h0 : ∀ d, store (rateKey action) = some d → d.count ≤ ceilingOf action)
    (times : List Nat) :
    ∀ n : Nat,
      (∀ d, (checkRateLimitAll store action (times.take n)).2 (rateKey action) = some d →
        d.count ≤ ceilingOf action) ∧
      ∀ now : Nat,
        ((checkRateLimit (checkRateLimitAll store action (times.take n)).2 action now).1 = true ↔
          (resetWindow action
            (((checkRateLimitAll store action (times.take n)).2 (rateKey action)).getD
              { count := 0, timestamp := 0 }) now).count < ceilingOf action) := by
  intro n
  have hinv := checkRateLimitAll_count_le_ceiling action hn (times.take n) store h0
  exact ⟨hinv, fun now => (checkRateLimit_count_le_ceiling action hn _ now hinv).1⟩

set_option maxRecDepth 100000 in
theorem checkRateLimit_count_invariant_witness :
    (∀ d, (checkRateLimitAll emptyStore "tests_day".toList
        ((List.replicate 12 1700000000000).take 12)).2 (rateKey "tests_day".toList) = some d →
      d.count ≤ ceilingOf "tests_day".toList) ∧
    (checkRateLimitAll emptyStore "tests_day".toList (List.replicate 12 1700000000000)).2
        (rateKey "tests_day".toList) = some ⟨10, 1700000000000⟩ :=
  ⟨(checkRateLimit_count_invariant "tests_day".toList (by decide) emptyStore
      (fun d hd => Option.noConfusion hd) (List.replicate 12 1700000000000) 12).1,
   by decide⟩

/-- C27. For every action key that contains neither "hour" nor "day" and does not name an
inherited property, no call resets the window, whatever the time. Starting from no
stored record, call number `i` (counted from 0) returns `true` exactly when `i` is below
100, whatever the times of the calls: once 100 calls have returned `true`, every later
call returns `false`. Starting from a stored record with a count `k`, call number `i`
returns `true` exactly when `k + i` is below 100. -/
theorem checkRateLimit_no_window_never_resets (action : Str)
    (hn : action ∉ objectPrototypeKeys)
    (hh : includes action "hour".toList = false) (hd : includes action "day".toList = false) :
    (∀ (data : RateData) (now : Nat), resetWindow action data now = data) ∧
    (∀ (first : Nat) (rest : List Nat),
      (checkRateLimitAll emptyStore action (first :: rest)).1
        = (List.range (rest.length + 1)).map fun i => decide (i < 100)) ∧
    (∀ (store : RateStore) (k : Nat) (start : Nat) (times : List Nat),
      store (rateKey action) = some { count := k, timestamp := start } →
      (checkRateLimitAll store action times).1
        = (List.range times.length).map fun i => decide (k + i < 100)) := by
  have hw : windowLength action = none := by
    unfold windowLength
    rw [hh, hd]
    rfl
  refine ⟨?_, fun first rest => checkRateLimitAll_of_no_window action hn hw first rest, ?_⟩
  · intro data now
    apply resetWindow_eq_self
    intro W hW
    rw [hw] at hW
    exact Option.noConfusion hW
  · intro store k start times hs
    have h := checkRateLimitAll_from action hn 0 times
      (fun t _ W hW => by rw [hw] at hW; exact Option.noConfusion hW) store k start hs
      (by positivity)
    rw [h, ceilingOf_of_no_window action hw]

set_option maxRecDepth 100000 in
theorem checkRateLimit_no_window_never_resets_witness :
    "notes".toList ∉ objectPrototypeKeys ∧
    (checkRateLimitAll emptyStore "notes".toList
      (1700000000000 :: (List.replicate 99 1700000000001 ++ [1800000000000, 1900000000000]))).1
        = List.replicate 100 true ++ [false, false] :=
  ⟨by decide,
   ((checkRateLimit_no_window_never_resets "notes".toList (by decide) (by decide)
      (by decide)).2.1 1700000000000
        (List.replicate 99 1700000000001 ++ [1800000000000, 1900000000000])).trans
      (by decide)⟩

/-! ## The subject sentence for the subjects the program passes -/

/-- C15. For every prompt and all options whose subject does not name an inherited
property, the result of `enhancePrompt` is, in this order: the context selected by the
type (with the class), the sentence `Subject: <name>. ` exactly when the subject is a key
of the catalog, the sentence `Difficulty level: <difficulty>. ` exactly when a difficulty
is given, the bilingual sentence exactly when the language is `HI`, the instructions
selected by the type, the label and the prompt. The context and the instructions depend
on the type and the class only, and the prompt is a suffix of the result. -/
theorem enhancePrompt_concatenation (prompt : Str) (options : PromptOptions)
    (hs : ∀ subject, options.subject = some subject → subject ∉ objectPrototypeKeys) :
    enhancePrompt prompt options
      = typeContext options
        ++ (match options.subject.bind fun subject => subjectCatalog.lookup subject with
            | some name => "Subject: ".toList ++ name ++ ". ".toList
            | none => [])
        ++ (match options.difficulty with
            | some [] => []
            | some difficulty => "Difficulty level: ".toList ++ difficulty ++ ". ".toList
            | none => [])
        ++ (if options.language = some "HI".toList then
              "Provide explanations in both Hindi and English where helpful. ".toList
            else [])
        ++ typeInstructions options
        ++ "\n\nStudent\x27s question/request: ".toList ++ prompt ∧
    (∀ other : PromptOptions, other.type = options.type →
      other.classLevel = options.classLevel →
      typeContext other = typeContext options ∧
      typeInstructions other = typeInstructions options) ∧
    prompt <:+ enhancePrompt prompt options := by
  have hsub : subjectContext options
      = match options.subject.bind fun subject => subjectCatalog.lookup subject with
        | some name => "Subject: ".toList ++ name ++ ". ".toList
        | none => [] := by
    cases hsome : options.subject with
    | none =>
      unfold subjectContext
      rw [hsome]
      rfl
    | some subject =>
      rw [subjectContext_of_own_key options subject hsome (hs subject hsome)]
      rfl
  have hdiff : difficultyContext options
      = match options.difficulty with
        | some [] => []
        | some difficulty => "Difficulty level: ".toList ++ difficulty ++ ". ".toList
        | none => [] := by
    unfold difficultyContext
    cases options.difficulty with
    | none => rfl
    | some d =>
      cases d with
      | nil => rfl
      | cons c cs => rfl
  refine ⟨?_, ?_, (enhancePrompt_parts prompt options).2⟩
  · rw [(enhancePrompt_parts prompt options).1, hsub, hdiff]
    rfl
  · intro other ht hc
    unfold typeContext typeInstructions classText
    rw [ht, hc]
    exact ⟨rfl, rfl⟩

set_option maxRecDepth 100000 in
theorem enhancePrompt_concatenation_witness :
    enhancePrompt "hi".toList
        { PromptOptions.empty with subject := some "science".toList, language := some "HI".toList }
      = ("You are an AI tutor for CBSE students. Subject: Science. " ++
         "Provide explanations in both Hindi and English where helpful. " ++
         "\n\nStudent\x27s question/request: hi").toList :=
  (enhancePrompt_concatenation "hi".toList
    { PromptOptions.empty with subject := some "science".toList, language := some "HI".toList }
    (fun subject h => by
      have e : subject = "science".toList := (Option.some.inj h).symm
      rw [e]
      decide)).1.trans (by decide)

/-! ## A stored deadline later than the one in memory -/

/-- C26 as stated fails. Two pages share the store. The first is locked out at clock
1000, with the deadline 901000 in memory and in the store. The second, opened after that
deadline, clears the store and is locked out at clock 1000000, which stores the deadline
1900000. When the first page asks at clock 1000001, a deadline is recorded in the store
and the clock is before it, yet the answer is `false` and the stored deadline is removed. -/
theorem isLockedOut_removes_later_stored_deadline :
    handleFailedAttempt ⟨2, none, none⟩ 1000 = ⟨3, some 901000, some 901000⟩ ∧
    isLockedOut ⟨0, none, some 901000⟩ 1000000 = (false, ⟨0, none, none⟩) ∧
    handleFailedAttempt ⟨2, none, none⟩ 1000000 = ⟨3, some 1900000, some 1900000⟩ ∧
    (1000001 : Int) < 1900000 ∧
    isLockedOut ⟨3, some 901000, some 1900000⟩ 1000001 = (false, ⟨0, none, none⟩) := by
  decide

/-! ## The helpers of the source and what they do -/

theorem startsWith_singleton (s : Str) (c : Char) :
    startsWith s [c] = (s.head? == some c) := by
  cases s with
  | nil => rfl
  | cons x r =>
    show (x == c && startsWith r []) = (some x == some c)
    cases r <;> simp [startsWith]

theorem includes_singleton (s : Str) (c : Char) : includes s [c] = decide (c ∈ s) := by
  induction s with
  | nil => rfl
  | cons x r ih =>
    show (startsWith (x :: r) [c] || includes r [c]) = _
    rw [ih, startsWith_singleton]
    by_cases hx : x = c
    · subst hx
      simp
    · have hx2 : ¬ c = x := fun h => hx h.symm
      simp [hx, hx2]

theorem startsWithNumberDot_eq (s : Str) : startsWithNumberDot s = beginsWithDigitsDot s := by
  cases s with
  | nil => rfl
  | cons c r =>
    show (isDigit c && startsWith (List.dropWhile isDigit r) ['.']) =
      (!(List.takeWhile isDigit (c :: r)).isEmpty &&
        (List.dropWhile isDigit (c :: r)).head? == some '.')
    rw [startsWith_singleton]
    by_cases hd : isDigit c = true
    · rw [List.takeWhile_cons_of_pos hd, List.dropWhile_cons_of_pos hd, hd]
      simp
    · rw [List.takeWhile_cons_of_neg hd, List.dropWhile_cons_of_neg hd]
      simp [hd]

theorem toNat_ofNat_of_lt (n : Nat) (h : n < 0xD800) : (Char.ofNat n).toNat = n := by
  unfold Char.ofNat
  rw [dif_pos (Or.inl h)]
  rfl

theorem char_eq_of_toNat_eq (a b : Char) (h : a.toNat = b.toNat) : a = b := by
  rw [← Char.ofNat_toNat a, ← Char.ofNat_toNat b, h]

/-- A pattern character that is not a capital letter matches, under the flag `i`, the
characters whose lower-case form it is. -/
theorem eqIgnoreCase_iff (p c : Char) (hp : ¬ (65 ≤ p.toNat ∧ p.toNat ≤ 90)) :
    eqIgnoreCase p c = true ↔ c.toLower = p := by
  unfold eqIgnoreCase Char.toLower
  by_cases hc : c.toNat ≥ 65 ∧ c.toNat ≤ 90
  · simp only [hc, and_self, if_true]
    have hne : c ≠ p := by
      intro h
      rw [h] at hc
      exact hp hc
    constructor
    · intro h
      simp only [Bool.or_eq_true, beq_iff_eq, hne, false_or, Bool.and_eq_true,
        decide_eq_true_eq] at h
      apply char_eq_of_toNat_eq
      rw [toNat_ofNat_of_lt _ (by omega)]
      exact h.2
    · intro h
      have h2 : c.toNat + 32 = p.toNat := by
        rw [← h, toNat_ofNat_of_lt _ (by omega)]
      simp only [Bool.or_eq_true, beq_iff_eq, hne, false_or, Bool.and_eq_true,
        decide_eq_true_eq]
      omega
  · simp only [hc, if_false]
    constructor
    · intro h
      simp only [Bool.or_eq_true, beq_iff_eq, Bool.and_eq_true, decide_eq_true_eq] at h
      rcases h with h | h
      · exact h
      · exfalso
        apply hc
        omega
    · intro h
      simp [h]

theorem matchLiteralCI_eq (pat : Str) (hpat : ∀ p ∈ pat, ¬ (65 ≤ p.toNat ∧ p.toNat ≤ 90)) :
    ∀ s : Str, matchLiteralCI pat s
      = if beginsWithLabel pat s then some (s.drop pat.length) else none := by
  induction pat with
  | nil =>
    intro s
    simp [matchLiteralCI, beginsWithLabel]
  | cons p pat ih =>
    intro s
    cases s with
    | nil => simp [matchLiteralCI, beginsWithLabel]
    | cons c s =>
      have hp := hpat p (List.mem_cons_self _ _)
      have ih2 := ih (fun q hq => hpat q (List.mem_cons_of_mem _ hq)) s
      unfold matchLiteralCI
      by_cases hm : eqIgnoreCase p c = true
      · rw [if_pos hm, ih2]
        have hc : c.toLower = p := (eqIgnoreCase_iff p c hp).1 hm
        simp [beginsWithLabel, hc]
      · rw [if_neg hm]
        have hc : ¬ c.toLower = p := fun h => hm ((eqIgnoreCase_iff p c hp).2 h)
        simp [beginsWithLabel, hc]

theorem skipSpaces_skipColon (r : Str) : skipSpaces (skipColon r) = afterLabel r := by
  unfold afterLabel skipSpaces
  cases r with
  | nil => rfl
  | cons c t =>
    by_cases hc : c = ':'
    · subst hc
      rfl
    · have h1 : skipColon (c :: t) = c :: t := by
        unfold skipColon
        split
        · rename_i heq
          cases heq
          exact absurd rfl hc
        · rfl
      have h2 : ¬ (c :: t).head? = some ':' := by
        intro h
        exact hc (Option.some.inj h)
      rw [h1, if_neg h2]

theorem isAnswerClassified_eq : isAnswerClassified = readsAsAnswerLine := by
  funext line
  unfold isAnswerClassified readsAsAnswerLine isStepLine isAnswerLine
  rw [startsWithNumberDot_eq]

/-- C21. For every raw text, the `answer` returned by `formatSolution` is empty when no
non-blank line is an answer line (one that, trimmed, contains "answer" or "final" in any
letter case and is not a step line), and otherwise it is the last such line, trimmed and
without its leading label `answer` or `final answer` (in any letter case), the colon
that may follow the label and the white space after that; earlier answer lines do not
show in it. -/
theorem formatSolution_answer (content : Str) :
    (formatSolution content).answer
      = match ((nonBlankLines content).filter readsAsAnswerLine).getLast? with
        | none => []
        | some l => withoutAnswerLabel (trim l) := by
  unfold formatSolution
  rw [foldl_solutionLine_answer, isAnswerClassified_eq]
  cases ((nonBlankLines content).filter readsAsAnswerLine).getLast? with
  | none => rfl
  | some l =>
    show stripAnswerLabel (trim l) = withoutAnswerLabel (trim l)
    unfold stripAnswerLabel withoutAnswerLabel
    rw [matchLiteralCI_eq "answer".toList (by decide) (trim l),
      matchLiteralCI_eq "final answer".toList (by decide) (trim l)]
    by_cases h1 : beginsWithLabel "answer".toList (trim l) = true
    · rw [if_pos h1, if_pos h1]
      exact skipSpaces_skipColon _
    · rw [if_neg h1, if_neg h1]
      by_cases h2 : beginsWithLabel "final answer".toList (trim l) = true
      · rw [if_pos h2, if_pos h2]
        exact skipSpaces_skipColon _
      · rw [if_neg h2, if_neg h2]

set_option maxRecDepth 100000 in
/-- Two answer lines: the first leaves no trace, the label, the colon and the blanks of
the second are removed. -/
theorem formatSolution_answer_example :
    (formatSolution "Find x\nAnswer: 7\nso the FINAL ANSWER:   x = 42 ".toList).answer
      = "so the FINAL ANSWER:   x = 42".toList ∧
    (formatSolution "Find x\nAnswer: 7\n  Final Answer:   x = 42 ".toList).answer
      = "x = 42".toList ∧
    withoutAnswerLabel "ANSWER x = 42".toList = "x = 42".toList := by
  decide

theorem isBranchLine_eq : isBranchLine = startsBranch := by
  funext line
  unfold isBranchLine startsBranch
  rw [includes_singleton, startsWithNumberDot_eq]

/-- C23. For every raw text, the branches returned by `generateMindMapData` are, in
order, one for each non-blank line that (trimmed) contains `:` or begins with digits
followed by `.`; the title of a branch is that line with every digit, colon and period
removed and then trimmed; its items are the following lines up to the next branch line
that (trimmed) start with `-`, each without that `-` and the white space after it;
lines in front of the first branch line contribute nothing. -/
theorem generateMindMapData_branches (content : Str) :
    generateMindMapData content
      = { central := "Topic".toList
          branches := branchesOf (nonBlankLines content) } := by
  have hdash : ∀ t : Str, t.head? = some '-' →
      stripDash t = (t.drop 1).dropWhile isWhiteSpace := by
    intro t h
    cases t with
    | nil => cases h
    | cons c r =>
      have hc : c = '-' := Option.some.inj h
      subst hc
      rfl
  have htitle : ∀ l : Str, trim (removeTitleMarks l) = branchTitle l := by
    intro l
    unfold removeTitleMarks branchTitle
    congr 1
    apply List.filter_congr
    intro c _
    cases isDigit c <;> cases (c == ':') <;> rfl
  have hitems : ∀ ls : List Str, itemsUntilNextBranch ls = itemsAfter ls := by
    intro ls
    unfold itemsUntilNextBranch itemsAfter
    rw [isBranchLine_eq]
    have hp : (fun l : Str => startsWith (trim l) ['-']) = startsItem := by
      funext l
      exact startsWith_singleton _ _
    rw [hp]
    apply List.map_congr_left
    intro l hl
    have hitem : startsItem l = true := (List.mem_filter.1 hl).2
    unfold startsItem at hitem
    exact hdash (trim l) (beq_iff_eq.1 hitem)
  have hall : ∀ ls : List Str, describedBranches ls = branchesOf ls := by
    intro ls
    induction ls with
    | nil => rfl
    | cons l ls ih =>
      unfold describedBranches branchesOf
      rw [ih, isBranchLine_eq, hitems, htitle]
  rw [generateMindMapData_described, hall]

set_option maxRecDepth 100000 in
/-- An item in front of the first branch is dropped; titles lose digits, colons and
periods; items lose the dash and the blanks after it. -/
theorem generateMindMapData_example :
    generateMindMapData "- stray\n1. Cells: basics\n-   wall\nnote\n- nucleus\n2. Tissue".toList
      = { central := "Topic".toList
          branches := [⟨"Cells basics".toList, ["wall".toList, "nucleus".toList]⟩,
            ⟨"Tissue".toList, []⟩] } := by
  decide

end Studypoint
